import Mathlib

/-! User-level threads manager: scheduler state machine

A shallow embedding of `uthreads.cpp` and `Thread.cpp`.

* The file-scope variables of `uthreads.cpp` are the fields of `Lib`; every
  library function is a function on `Lib`.
* A table entry (`Thread*`) is a `Slot`: the null pointer, a pointer to a heap
  object, or a non-null pointer whose object has been deleted.
* Dereferencing anything but a pointer to a heap object, indexing a vector out
  of bounds and `front()` on an empty list have no defined behaviour; helper
  functions return `none` and API calls return `Outcome.undefined` there.
* `siglongjmp` and `exit` never return to the call site; an API call ends in
  `Outcome.switched` or `Outcome.exited` in those cases.
* The saved contexts and the stacks are not represented; the system calls
  (`sigprocmask`, `sigaction`, `setitimer`) are taken to succeed.
* `int` values are `Int`. The two quantum counters are the `int` variables
  that grow without a bound in the code; their increments and the `+ 1` of the
  getters wrap around at `INT_MAX` (`toInt`), as the compiled program does.
  `size_t` has 64 bits (the `__x86_64__` branch).
* `MAX_THREAD_NUM` comes from `uthreads.h` and is a parameter.
-/

namespace UThreads

/-! ## Constants -/

abbrev FAILURE : Int := -1
abbrev SUCCESS : Int := 0
abbrev READY : Int := 0
abbrev RUNNING : Int := 1
abbrev BLOCKED : Int := 2
abbrev TERMINATED : Int := 3
abbrev MAIN_TID : Int := 0
abbrev SECOND_IN_MILLISECOND : Int := 1000000

/-- The modulus of `size_t` arithmetic, `2 ^ 64`. -/
abbrev SIZE_MOD : Int := 18446744073709551616

/-- The value of `(size_t) x` for an `int` x, and of a `size_t` difference that
may pass below zero: a non-negative value is kept, a negative one wraps. -/
def toSizeT (x : Int) : Int := if 0 ≤ x then x else x + SIZE_MOD

/-- The modulus of `int` arithmetic, `2 ^ 32`. -/
abbrev INT_MOD : Int := 4294967296

abbrev INT_MAX : Int := 2147483647

/-- The value that an `int` expression takes when its mathematical value is `x`:
a value in `-INT_MAX - 1 .. INT_MAX` is kept, any other wraps around. -/
def toInt (x : Int) : Int := (x + (INT_MAX + 1)) % INT_MOD - (INT_MAX + 1)

/-! ## Thread.h / Thread.cpp -/

/-- Fields of `class Thread`; `_buffer` and `_stack` are not represented. -/
structure Thread where
  tid : Int
  priority : Int
  state : Int
  quantum_elapsed : Int
deriving DecidableEq, Repr

/-- Constructor `Thread(buffer, tid, priority, state)`; `_quantum_elapsed = 0`. -/
def Thread.new (tid priority state : Int) : Thread :=
  { tid := tid, priority := priority, state := state, quantum_elapsed := 0 }

def Thread.getState (t : Thread) : Int := t.state

def Thread.getPriority (t : Thread) : Int := t.priority

def Thread.setPriority (t : Thread) (priority : Int) : Thread :=
  { t with priority := priority }

def Thread.setState (t : Thread) (state : Int) : Thread :=
  { t with state := state }

def Thread.getQuantumElapsed (t : Thread) : Int := t.quantum_elapsed

def Thread.increaseQuantumElapsed (t : Thread) : Thread :=
  { t with quantum_elapsed := toInt (t.quantum_elapsed + 1) }

/-! ## Data structures of the library -/

/-- One entry of `existedThreadsList`, a `Thread*`. -/
inductive Slot where
  | null
  | thread (t : Thread)
  | freed
deriving DecidableEq, Repr

/-- The fields of `struct itimerval`. -/
structure Timer where
  value_sec : Int
  value_usec : Int
  interval_sec : Int
  interval_usec : Int
deriving DecidableEq, Repr

/-- The file-scope variables of `uthreads.cpp`. `armed` is the value last
handed to `setitimer`; `handlerInstalled` tells whether `sigaction` has
installed `switchThread`. -/
structure Lib where
  quantumPriorityList : List Int
  handlerInstalled : Bool
  timer : Timer
  armed : Option Timer
  existedThreadsList : List Slot
  currentRunningTid : Int
  quantityThreads : Int
  readyTidList : List Int
  totalQuantumElapsed : Int
deriving DecidableEq, Repr

/-- The static initialisers. -/
def Lib.initial : Lib :=
  { quantumPriorityList := []
    handlerInstalled := false
    timer := { value_sec := 0, value_usec := 0, interval_sec := 0, interval_usec := 0 }
    armed := none
    existedThreadsList := []
    currentRunningTid := MAIN_TID
    quantityThreads := 0
    readyTidList := []
    totalQuantumElapsed := 0 }

/-- How an API call ends. -/
inductive Outcome where
  | ret (s : Lib) (v : Int)
  | switched (s : Lib)
  | exited (code : Int)
  | undefined
deriving DecidableEq, Repr

/-! ## Memory access -/

/-- The entry `v[i]` of a vector indexed by an `int`; `none` out of bounds. -/
def indexAt {α : Type} (v : List α) (i : Int) : Option α :=
  if 0 ≤ i then v[i.toNat]? else none

/-- The object behind `existedThreadsList[i]`, when there is one. -/
def derefAt (v : List Slot) (i : Int) : Option Thread :=
  match indexAt v i with
  | some (Slot.thread t) => some t
  | _ => none

/-- The call `existedThreadsList[i]->m()` for a mutator `m`. -/
def updateThread (v : List Slot) (i : Int) (m : Thread → Thread) : Option (List Slot) :=
  match derefAt v i with
  | some t => some (v.set i.toNat (Slot.thread (m t)))
  | none => none

/-! ## Helper functions -/

/-- The array `quantum_usecs` is read through `quantum_usecs i`. -/
def isValidQuantum (quantum_usecs : Nat → Int) (size : Int) : Bool :=
  if size ≤ 0 then false
  else (List.range size.toNat).all fun i => !decide (quantum_usecs i ≤ 0)

def addQuantumTimes (s : Lib) (quantum_usecs : Nat → Int) (size : Int) : Lib :=
  { s with quantumPriorityList :=
      s.quantumPriorityList ++ (List.range size.toNat).map quantum_usecs }

def getSeconds (milliseconds : Int) : Int :=
  milliseconds.tdiv SECOND_IN_MILLISECOND

def setTimer (s : Lib) (quantum : Int) : Lib :=
  let sec := getSeconds quantum
  let t : Timer :=
    { value_sec := sec, value_usec := quantum - sec * SECOND_IN_MILLISECOND,
      interval_sec := 0, interval_usec := 0 }
  { s with timer := t, armed := some t }

/-- One iteration of the loop of `checkAndDeleteTerminated` on a slot that can
be read: the object is deleted, the assignment `thread = nullptr` reaches the
loop variable only, and the entry of the vector keeps its value. -/
def sweepSlot : Slot → Slot
  | Slot.thread t => if t.getState = TERMINATED then Slot.freed else Slot.thread t
  | x => x

def checkAndDeleteTerminated (s : Lib) : Option Lib :=
  if Slot.freed ∈ s.existedThreadsList then none
  else some { s with existedThreadsList := s.existedThreadsList.map sweepSlot }

def changeStateRunningToReady (s : Lib) : Option Lib :=
  let ready := s.readyTidList ++ [s.currentRunningTid]
  match updateThread s.existedThreadsList s.currentRunningTid (fun t => t.setState READY) with
  | some v => some { s with readyTidList := ready, existedThreadsList := v }
  | none => none

/-- The state in which `siglongjmp` is called. -/
def changeNextReadyToRunning (s : Lib) : Option Lib :=
  match updateThread s.existedThreadsList s.currentRunningTid Thread.increaseQuantumElapsed with
  | none => none
  | some v1 =>
    match s.readyTidList with
    | [] => none
    | next :: rest =>
      match updateThread v1 next (fun t => t.setState RUNNING) with
      | none => none
      | some v2 =>
        match derefAt v2 next with
        | none => none
        | some t =>
          match indexAt s.quantumPriorityList t.getPriority with
          | none => none
          | some q =>
            some (setTimer
              { s with
                existedThreadsList := v2
                totalQuantumElapsed := toInt (s.totalQuantumElapsed + 1)
                currentRunningTid := next
                readyTidList := rest } q)

/-- The signal handler entered by the timer (`sigsetjmp` returns 0). -/
def switchThread (s : Lib) : Outcome :=
  match changeStateRunningToReady s with
  | none => Outcome.undefined
  | some s1 =>
    match changeNextReadyToRunning s1 with
    | none => Outcome.undefined
    | some s2 => Outcome.switched s2

def initializeSignalHandler (s : Lib) : Lib :=
  { s with handlerInstalled := true }

def initializeQuantumPriority (s : Lib) (quantum_usecs : Nat → Int) (size : Int) : Lib × Int :=
  if isValidQuantum quantum_usecs size then (addQuantumTimes s quantum_usecs size, SUCCESS)
  else (s, FAILURE)

def initializeMainThread (s : Lib) : Option Lib :=
  let mainThread := Thread.new MAIN_TID 0 RUNNING
  let s1 :=
    { s with
      existedThreadsList := s.existedThreadsList ++ [Slot.thread mainThread]
      quantityThreads := s.quantityThreads + 1 }
  match derefAt s1.existedThreadsList MAIN_TID with
  | none => none
  | some t =>
    match indexAt s1.quantumPriorityList t.getPriority with
    | none => none
    | some q => some (setTimer s1 q)

/-- The loop of `getAvailableTid`, entered with `availableTid = n`. -/
def firstNull : List Slot → Int → Int
  | [], n => n
  | Slot.null :: _, n => n
  | _ :: rest, n => firstNull rest (n + 1)

def getAvailableTid (MAX_THREAD_NUM : Int) (s : Lib) : Option (Lib × Int) :=
  match checkAndDeleteTerminated s with
  | none => none
  | some s1 =>
    if s1.quantityThreads = MAX_THREAD_NUM then some (s1, FAILURE)
    else some (s1, firstNull s1.existedThreadsList 0)

def isValidPriority (s : Lib) (priority : Int) : Bool :=
  decide (priority ≥ 0) &&
    decide (toSizeT priority ≤ toSizeT ((s.quantumPriorityList.length : Int) - 1))

def isValidTid (s : Lib) (tid : Int) : Option Bool :=
  if tid ≥ 0 ∧ toSizeT tid < (s.existedThreadsList.length : Int) then
    match indexAt s.existedThreadsList tid with
    | some Slot.null => some false
    | some (Slot.thread t) => some (decide (t.getState ≠ TERMINATED))
    | _ => none
  else some false

/-- One iteration of the loop of `freeMemory` on a slot that can be read: a
null entry is skipped, an object is deleted and the entry keeps its value. -/
def freeSlot : Slot → Slot
  | Slot.thread _ => Slot.freed
  | x => x

def freeMemory (s : Lib) : Option Lib :=
  if Slot.freed ∈ s.existedThreadsList then none
  else some { s with existedThreadsList := s.existedThreadsList.map freeSlot }

def terminateMainThread (s : Lib) : Outcome :=
  match freeMemory s with
  | none => Outcome.undefined
  | some _ => Outcome.exited SUCCESS

def terminateCurrentRunningThread (s : Lib) : Option Lib :=
  match updateThread s.existedThreadsList s.currentRunningTid (fun t => t.setState TERMINATED) with
  | none => none
  | some v =>
    changeNextReadyToRunning
      { s with existedThreadsList := v, quantityThreads := s.quantityThreads - 1 }

def terminateBlockedOrReadyThread (s : Lib) (tid : Int) : Option Lib :=
  match derefAt s.existedThreadsList tid with
  | none => none
  | some t =>
    let ready := if t.getState = READY then s.readyTidList.filter (fun x => x ≠ tid)
                 else s.readyTidList
    some
      { s with
        readyTidList := ready
        existedThreadsList := s.existedThreadsList.set tid.toNat Slot.null
        quantityThreads := s.quantityThreads - 1 }

/-- The entry function `f` is `none` for the null pointer; it is used for the
saved context only. -/
def createThread (s : Lib) (_ : Option Nat) (priority tid : Int) : Option Lib :=
  let thread := Thread.new tid priority READY
  let size : Int := s.existedThreadsList.length
  if toSizeT (size - 1) < toSizeT tid then
    some
      { s with
        existedThreadsList := s.existedThreadsList ++ [Slot.thread thread]
        readyTidList := s.readyTidList ++ [tid]
        quantityThreads := s.quantityThreads + 1 }
  else
    match indexAt s.existedThreadsList tid with
    | none => none
    | some _ =>
      some
        { s with
          existedThreadsList := s.existedThreadsList.set tid.toNat (Slot.thread thread)
          readyTidList := s.readyTidList ++ [tid]
          quantityThreads := s.quantityThreads + 1 }

/-! ## API functions -/

def uthread_init (s : Lib) (quantum_usecs : Nat → Int) (size : Int) : Outcome :=
  match initializeQuantumPriority s quantum_usecs size with
  | (s1, r) =>
    if r = FAILURE then Outcome.ret s1 FAILURE
    else
      match initializeMainThread (initializeSignalHandler s1) with
      | none => Outcome.undefined
      | some s2 => Outcome.ret s2 SUCCESS

def uthread_spawn (MAX_THREAD_NUM : Int) (s : Lib) (f : Option Nat) (priority : Int) : Outcome :=
  match getAvailableTid MAX_THREAD_NUM s with
  | none => Outcome.undefined
  | some (s1, tid) =>
    if tid = FAILURE ∨ ¬ isValidPriority s1 priority then Outcome.ret s1 FAILURE
    else if f = none then Outcome.ret s1 FAILURE
    else
      match createThread s1 f priority tid with
      | none => Outcome.undefined
      | some s2 => Outcome.ret s2 tid

def uthread_change_priority (s : Lib) (tid priority : Int) : Outcome :=
  match isValidTid s tid with
  | none => Outcome.undefined
  | some valid =>
    if valid ∧ isValidPriority s priority then
      match updateThread s.existedThreadsList tid (fun t => t.setPriority priority) with
      | none => Outcome.undefined
      | some v => Outcome.ret { s with existedThreadsList := v } SUCCESS
    else Outcome.ret s FAILURE

def uthread_terminate (s : Lib) (tid : Int) : Outcome :=
  match isValidTid s tid with
  | none => Outcome.undefined
  | some valid =>
    if valid then
      if tid = MAIN_TID then terminateMainThread s
      else if tid = s.currentRunningTid then
        match terminateCurrentRunningThread s with
        | none => Outcome.undefined
        | some s1 => Outcome.switched s1
      else
        match terminateBlockedOrReadyThread s tid with
        | none => Outcome.undefined
        | some s1 => Outcome.ret s1 SUCCESS
    else Outcome.ret s FAILURE

def uthread_block (s : Lib) (tid : Int) : Outcome :=
  match isValidTid s tid with
  | none => Outcome.undefined
  | some valid =>
    if valid ∧ tid ≠ MAIN_TID then
      match updateThread s.existedThreadsList tid (fun t => t.setState BLOCKED) with
      | none => Outcome.undefined
      | some v =>
        let s1 := { s with existedThreadsList := v }
        if tid = s1.currentRunningTid then
          match changeNextReadyToRunning s1 with
          | none => Outcome.undefined
          | some s2 => Outcome.switched s2
        else
          Outcome.ret { s1 with readyTidList := s1.readyTidList.filter (fun x => x ≠ tid) } SUCCESS
    else Outcome.ret s FAILURE

def uthread_resume (s : Lib) (tid : Int) : Outcome :=
  match isValidTid s tid with
  | none => Outcome.undefined
  | some valid =>
    if valid then
      match derefAt s.existedThreadsList tid with
      | none => Outcome.undefined
      | some t =>
        if t.getState = BLOCKED then
          match updateThread s.existedThreadsList tid (fun t => t.setState READY) with
          | none => Outcome.undefined
          | some v =>
            Outcome.ret
              { s with existedThreadsList := v, readyTidList := s.readyTidList ++ [tid] } SUCCESS
        else Outcome.ret s SUCCESS
    else Outcome.ret s FAILURE

def uthread_get_tid (s : Lib) : Int := s.currentRunningTid

def uthread_get_total_quantums (s : Lib) : Int := toInt (s.totalQuantumElapsed + 1)

def uthread_get_quantums (s : Lib) (tid : Int) : Outcome :=
  match isValidTid s tid with
  | none => Outcome.undefined
  | some valid =>
    if valid then
      match derefAt s.existedThreadsList tid with
      | none => Outcome.undefined
      | some t =>
        if tid = s.currentRunningTid then Outcome.ret s (toInt (t.getQuantumElapsed + 1))
        else Outcome.ret s t.getQuantumElapsed
    else Outcome.ret s FAILURE

/-! ## Events, runs and reachable states -/

/-- A quantum expiry or a library call that can change the state. -/
inductive Event where
  | expiry
  | spawn (f : Option Nat) (priority : Int)
  | change_priority (tid priority : Int)
  | terminate (tid : Int)
  | block (tid : Int)
  | resume (tid : Int)
deriving DecidableEq, Repr

def step (MAX_THREAD_NUM : Int) (s : Lib) : Event → Outcome
  | Event.expiry => switchThread s
  | Event.spawn f priority => uthread_spawn MAX_THREAD_NUM s f priority
  | Event.change_priority tid priority => uthread_change_priority s tid priority
  | Event.terminate tid => uthread_terminate s tid
  | Event.block tid => uthread_block s tid
  | Event.resume tid => uthread_resume s tid

/-- The identities that run after each of `n` consecutive quantum expiries, in
order; the list stops where an expiry has no defined behaviour. -/
def runningAfterExpiries : Nat → Lib → List Int
  | 0, _ => []
  | n + 1, s =>
    match switchThread s with
    | Outcome.switched s1 => s1.currentRunningTid :: runningAfterExpiries n s1
    | _ => []

/-- The scheduling events: a quantum expiry, and a block or a terminate that a
thread other than main aims at itself. -/
def isSchedulingEvent (s : Lib) : Event → Bool
  | Event.expiry => true
  | Event.block tid => decide (tid = s.currentRunningTid) && decide (tid ≠ MAIN_TID)
  | Event.terminate tid => decide (tid = s.currentRunningTid) && decide (tid ≠ MAIN_TID)
  | _ => false

/-- The identity that an event hands to a new thread: the value of a spawn
that does not fail. -/
def freshTid : Event → Int → Option Int
  | Event.spawn _ _, v => if v = FAILURE then none else some v
  | _, _ => none

/-- A state together with the history of the run that led to it: per identity,
how often the thread that holds it now has been made RUNNING (`started`) and
how often it has left the processor again (`completed`), and the number of
scheduling events (`events`). -/
structure Hist where
  lib : Lib
  started : Int → Int
  completed : Int → Int
  events : Int

/-- The history right after `uthread_init`: main is in its first quantum. -/
def Hist.start (s : Lib) : Hist :=
  { lib := s
    started := fun i => if i = MAIN_TID then 1 else 0
    completed := fun _ => 0
    events := 0 }

def Hist.step (MAX_THREAD_NUM : Int) (h : Hist) (e : Event) : Option Hist :=
  let n : Int := if isSchedulingEvent h.lib e then 1 else 0
  match UThreads.step MAX_THREAD_NUM h.lib e with
  | Outcome.ret s v =>
    match freshTid e v with
    | some w =>
      some
        { lib := s
          started := Function.update h.started w 0
          completed := Function.update h.completed w 0
          events := h.events + n }
    | none => some { h with lib := s, events := h.events + n }
  | Outcome.switched s =>
    let out := h.lib.currentRunningTid
    let completed := Function.update h.completed out (h.completed out + 1)
    some
      { lib := s
        started := Function.update h.started s.currentRunningTid
          (h.started s.currentRunningTid + 1)
        completed := completed
        events := h.events + n }
  | _ => none

def Hist.run (MAX_THREAD_NUM : Int) (h : Hist) : List Event → Option Hist
  | [] => some h
  | e :: es =>
    match h.step MAX_THREAD_NUM e with
    | none => none
    | some h1 => h1.run MAX_THREAD_NUM es

/-- The histories of the runs that start with a successful `uthread_init`. -/
def Hist.Reachable (MAX_THREAD_NUM : Int) (h : Hist) : Prop :=
  ∃ (quantum_usecs : Nat → Int) (size : Int) (s0 : Lib) (es : List Event),
    uthread_init Lib.initial quantum_usecs size = Outcome.ret s0 SUCCESS ∧
    (Hist.start s0).run MAX_THREAD_NUM es = some h

/-- The states reachable from a successful `uthread_init`. -/
def Reachable (MAX_THREAD_NUM : Int) (s : Lib) : Prop :=
  ∃ h, Hist.Reachable MAX_THREAD_NUM h ∧ h.lib = s

/-! ## Notions of the specification -/

/-- A slot that holds a thread whose state is not TERMINATED. -/
def isLiveSlot : Slot → Bool
  | Slot.thread t => decide (t.state ≠ TERMINATED)
  | _ => false

/-- The entry of the table at `tid` is a pointer to a deleted object. -/
def isDangling (s : Lib) (tid : Int) : Bool :=
  decide (indexAt s.existedThreadsList tid = some Slot.freed)

/-- An identity is live iff its slot is occupied and the state is not TERMINATED. -/
def isLive (s : Lib) (tid : Int) : Bool :=
  match derefAt s.existedThreadsList tid with
  | some t => decide (t.state ≠ TERMINATED)
  | none => false

/-- The four ways of not being live that the specification names, as the code
can tell them: a negative identity, one beyond the table, a null entry, an
entry that points to a TERMINATED thread. An entry that points to a deleted
thread is not live and is none of the four. -/
def notLive (s : Lib) (tid : Int) : Bool :=
  decide (tid < 0) || decide ((s.existedThreadsList.length : Int) ≤ tid) ||
    match indexAt s.existedThreadsList tid with
    | some Slot.null => true
    | some (Slot.thread t) => decide (t.state = TERMINATED)
    | _ => false

def liveCount (v : List Slot) : Int := (v.countP isLiveSlot : Nat)

/-- The part of the scheduler invariant that also holds in the middle of a
switch. -/
structure WFcore (s : Lib) : Prop where
  quanta_nonempty : s.quantumPriorityList ≠ []
  ready_sound : ∀ i ∈ s.readyTidList,
    ∃ t, derefAt s.existedThreadsList i = some t ∧ t.state = READY
  ready_complete : ∀ i t, derefAt s.existedThreadsList i = some t → t.state = READY →
    i ∈ s.readyTidList
  ready_nodup : s.readyTidList.Nodup
  main_alive : ∃ t, derefAt s.existedThreadsList MAIN_TID = some t ∧
    (t.state = READY ∨ t.state = RUNNING)
  priority_valid : ∀ i t, derefAt s.existedThreadsList i = some t →
    0 ≤ t.priority ∧ t.priority < (s.quantumPriorityList.length : Int)
  count : s.quantityThreads = liveCount s.existedThreadsList

/-- The scheduler invariant between two operations. -/
structure WF (s : Lib) extends WFcore s : Prop where
  running : ∃ t, derefAt s.existedThreadsList s.currentRunningTid = some t ∧ t.state = RUNNING
  running_unique : ∀ i t, derefAt s.existedThreadsList i = some t → t.state = RUNNING →
    i = s.currentRunningTid

/-- The invariant in the middle of a switch: the outgoing thread has left the
RUNNING state and the next one has not been selected yet. -/
structure WFmid (s : Lib) extends WFcore s : Prop where
  outgoing : ∃ t, derefAt s.existedThreadsList s.currentRunningTid = some t
  none_running : ∀ i t, derefAt s.existedThreadsList i = some t → t.state ≠ RUNNING

/-- The counters of the code agree with the history up to the range of
`int`: the total is the number of scheduling events as an `int`, the counter
of a live thread is the number of its completed quantums as an `int`, and a
thread has started one quantum more than it has completed exactly while it is
running. The numbers of the history are not negative. -/
structure Hist.Counted (h : Hist) : Prop where
  wf : WF h.lib
  total : h.lib.totalQuantumElapsed = toInt h.events
  completed : ∀ j t, derefAt h.lib.existedThreadsList j = some t → t.state ≠ TERMINATED →
    t.quantum_elapsed = toInt (h.completed j)
  events_nonneg : 0 ≤ h.events
  completed_nonneg : ∀ j, 0 ≤ h.completed j
  started : ∀ j t, derefAt h.lib.existedThreadsList j = some t → t.state ≠ TERMINATED →
    h.started j = h.completed j + (if j = h.lib.currentRunningTid then 1 else 0)

/-- The effect on the counters of a call that returns from `s` to `s1`: the
running identity and the total are kept, and a live thread of `s1` is either
the new thread, with counter 0 and not running, or a live thread of `s` with
the same counter. -/
structure KeepsQuanta (s s1 : Lib) (fresh : Option Int) : Prop where
  current : s1.currentRunningTid = s.currentRunningTid
  total : s1.totalQuantumElapsed = s.totalQuantumElapsed
  threads : ∀ j t1, derefAt s1.existedThreadsList j = some t1 → t1.state ≠ TERMINATED →
    (fresh = some j ∧ t1.quantum_elapsed = 0 ∧ j ≠ s.currentRunningTid) ∨
    (fresh ≠ some j ∧ ∃ t, derefAt s.existedThreadsList j = some t ∧ t.state ≠ TERMINATED ∧
      t1.quantum_elapsed = t.quantum_elapsed)

/-- The effect on the counters of a switch from `s` to `s1`: the total is
incremented, and a live thread of `s1` is a live thread of `s` whose counter
has been incremented if it is the outgoing thread and is the same otherwise. -/
structure SwitchesQuanta (s s1 : Lib) : Prop where
  total : s1.totalQuantumElapsed = toInt (s.totalQuantumElapsed + 1)
  threads : ∀ j t1, derefAt s1.existedThreadsList j = some t1 → t1.state ≠ TERMINATED →
    ∃ t, derefAt s.existedThreadsList j = some t ∧ t.state ≠ TERMINATED ∧
      t1.quantum_elapsed =
        if j = s.currentRunningTid then toInt (t.quantum_elapsed + 1) else t.quantum_elapsed

/-! ## Example runs -/

/-- The quantum array of the end-to-end example of the specification. -/
def exampleQuanta : Nat → Int := fun i => [100000, 200000].getD i 0

/-- The state in which a call ends, when it ends in one. -/
def Outcome.state? : Outcome → Option Lib
  | Outcome.ret s _ => some s
  | Outcome.switched s => some s
  | _ => none

/-- The history after `uthread_init` on `exampleQuanta` followed by the events
`es`, with at most 100 threads; the history of the static initial state if a
call does not end in a state. -/
def exampleHist (es : List Event) : Hist :=
  match (uthread_init Lib.initial exampleQuanta 2).state? with
  | none => Hist.start Lib.initial
  | some s0 =>
    match (Hist.start s0).run 100 es with
    | none => Hist.start Lib.initial
    | some h => h

/-- The state that `exampleHist` ends in. -/
def exampleRun (es : List Event) : Lib := (exampleHist es).lib

/-- Main RUNNING, threads 1 and 2 READY. -/
def exampleTwoSpawned : Lib :=
  exampleRun [Event.spawn (some 1) 0, Event.spawn (some 2) 1]

/-- Thread 1 has run and has terminated itself; main is RUNNING again. -/
def exampleSelfTerminated : Lib :=
  exampleRun [Event.spawn (some 1) 0, Event.expiry, Event.terminate 1]

/-- The state `exampleSelfTerminated` followed by one more spawn, whose sweep
has deleted thread 1: main is RUNNING, slot 1 holds the pointer to the deleted
thread, thread 2 is READY. -/
def exampleSwept : Lib :=
  exampleRun
    [Event.spawn (some 1) 0, Event.expiry, Event.terminate 1, Event.spawn (some 2) 0]

/-! ## Notions of the specification, continued -/

/-- The scheduler invariant in the words of the specification: exactly one
thread is RUNNING and it is the one named by `currentRunningTid`; the ready
queue holds no identity twice and holds exactly the live threads whose state is
READY; slot 0 holds main, READY or RUNNING and so not BLOCKED. -/
structure SchedulerInvariant (s : Lib) : Prop where
  running_is_current : ∀ i,
    (∃ t, derefAt s.existedThreadsList i = some t ∧ t.state = RUNNING) ↔
      i = s.currentRunningTid
  ready_nodup : s.readyTidList.Nodup
  ready_exact : ∀ i, i ∈ s.readyTidList ↔
    ∃ t, derefAt s.existedThreadsList i = some t ∧ t.state ≠ TERMINATED ∧ t.state = READY
  main_alive : ∃ t, derefAt s.existedThreadsList MAIN_TID = some t ∧
    (t.state = READY ∨ t.state = RUNNING) ∧ t.state ≠ BLOCKED

/-- Main RUNNING, thread 1 BLOCKED, thread 2 READY. -/
def exampleOneBlocked : Lib :=
  exampleRun [Event.spawn (some 1) 0, Event.spawn (some 2) 1, Event.block 1]

/-- Thread 1 RUNNING in its first quantum, thread 2 and main READY. -/
def exampleOneRunning : Lib :=
  exampleRun [Event.spawn (some 1) 0, Event.spawn (some 2) 1, Event.expiry]

/-- The change of the live count that the specification gives to an event with
a given outcome: a spawn that does not fail adds one, a terminate that succeeds
(of another thread, or of the running thread itself) removes one, and nothing
else changes the count. -/
def quantityChange : Event → Outcome → Int
  | Event.spawn _ _, Outcome.ret _ v => if v = FAILURE then 0 else 1
  | Event.terminate _, Outcome.ret _ v => if v = SUCCESS then -1 else 0
  | Event.terminate _, Outcome.switched _ => -1
  | _, _ => 0

/-! ## The schedule of a state -/

/-- A thread record with its priority left out. -/
def Thread.erasePriority (t : Thread) : Thread := { t with priority := 0 }

def Slot.erasePriority : Slot → Slot
  | Slot.thread t => Slot.thread t.erasePriority
  | x => x

/-- What remains of a state when the priorities of the threads, the quantum
table and the timer values are left out: the states and counters of the
threads, the ready queue, the running identity, the live count and the total. -/
def Lib.schedule (s : Lib) : Lib :=
  { s with
    quantumPriorityList := []
    timer := { value_sec := 0, value_usec := 0, interval_sec := 0, interval_usec := 0 }
    armed := none
    existedThreadsList := s.existedThreadsList.map Slot.erasePriority }

/-- Two states that differ at most in thread priorities, quantum table and
timer values. -/
def SameSchedule (s s1 : Lib) : Prop := s.schedule = s1.schedule

/-- Two events that are the same call up to the priority argument. -/
def Event.sameCall : Event → Event → Bool
  | Event.expiry, Event.expiry => true
  | Event.spawn f _, Event.spawn g _ => decide (f = g)
  | Event.change_priority t _, Event.change_priority u _ => decide (t = u)
  | Event.terminate t, Event.terminate u => decide (t = u)
  | Event.block t, Event.block u => decide (t = u)
  | Event.resume t, Event.resume u => decide (t = u)
  | _, _ => false

/-- The priority argument of the event, if it has one, is valid in `s`. -/
def Event.priorityValid (s : Lib) : Event → Bool
  | Event.spawn _ p => isValidPriority s p
  | Event.change_priority _ p => isValidPriority s p
  | _ => true

/-- Two outcomes of the same kind with the same status and the same schedule. -/
def Outcome.sameSchedule : Outcome → Outcome → Prop
  | Outcome.ret s v, Outcome.ret s1 v1 => v = v1 ∧ SameSchedule s s1
  | Outcome.switched s, Outcome.switched s1 => SameSchedule s s1
  | Outcome.exited c, Outcome.exited c1 => c = c1
  | Outcome.undefined, Outcome.undefined => True
  | _, _ => False

/-- The outcomes of the events of a run, one after the other; the run stops
after the first event that does not end in a state. -/
def outcomes (MAX_THREAD_NUM : Int) : Lib → List Event → List Outcome
  | _, [] => []
  | s, e :: es =>
    step MAX_THREAD_NUM s e ::
      match (step MAX_THREAD_NUM s e).state? with
      | some s1 => outcomes MAX_THREAD_NUM s1 es
      | none => []

/-- A second quantum array, with three priorities and other lengths. -/
def exampleOtherQuanta : Nat → Int := fun i => [300000, 50000, 7].getD i 0

/-- The state right after `uthread_init` on `exampleOtherQuanta`. -/
def exampleOtherInit : Lib :=
  match (uthread_init Lib.initial exampleOtherQuanta 3).state? with
  | some s => s
  | none => Lib.initial

end UThreads

namespace UThreads

/-! ## Arithmetic of `int` -/

theorem toInt_of_range {x : Int} (h1 : -2147483648 ≤ x) (h2 : x ≤ 2147483647) :
    toInt x = x := by
  unfold toInt
  simp only [INT_MAX, INT_MOD]
  omega

theorem toInt_succ_toInt (x : Int) : toInt (toInt x + 1) = toInt (x + 1) := by
  unfold toInt
  simp only [INT_MAX, INT_MOD]
  omega

theorem toInt_zero : toInt 0 = 0 := by decide

theorem toInt_one : toInt 1 = 1 := by decide

theorem toInt_upper (x : Int) : toInt x ≤ 2147483647 := by
  unfold toInt
  simp only [INT_MAX, INT_MOD]
  omega

theorem indexAt_eq_some {α : Type} {v : List α} {i : Int} {x : α} :
    indexAt v i = some x ↔ 0 ≤ i ∧ v[i.toNat]? = some x := by
  unfold indexAt
  split <;> simp_all

theorem indexAt_lt_length {α : Type} {v : List α} {i : Int} {x : α}
    (h : indexAt v i = some x) : 0 ≤ i ∧ i < (v.length : Int) := by
  obtain ⟨h0, h1⟩ := indexAt_eq_some.mp h
  obtain ⟨hlt, _⟩ := List.getElem?_eq_some.mp h1
  exact ⟨h0, by omega⟩

theorem indexAt_isSome {α : Type} {v : List α} {i : Int}
    (h0 : 0 ≤ i) (h1 : i < (v.length : Int)) : ∃ x, indexAt v i = some x := by
  have hlt : i.toNat < v.length := by omega
  exact ⟨v[i.toNat], indexAt_eq_some.mpr ⟨h0, List.getElem?_eq_getElem hlt⟩⟩

theorem indexAt_eq_none {α : Type} {v : List α} {i : Int} :
    indexAt v i = none ↔ i < 0 ∨ (v.length : Int) ≤ i := by
  unfold indexAt
  split
  · rw [List.getElem?_eq_none_iff]; omega
  · simp; omega

theorem indexAt_set {α : Type} (v : List α) (i j : Int) (x : α) (hi : 0 ≤ i) :
    indexAt (v.set i.toNat x) j =
      if j = i then (indexAt v i).map (fun _ => x) else indexAt v j := by
  unfold indexAt
  by_cases hj : 0 ≤ j
  · simp only [hj, hi, if_true, List.getElem?_set]
    by_cases hji : j = i
    · subst hji
      simp only [if_true]
      by_cases hlt : j.toNat < v.length
      · simp [hlt, List.getElem?_eq_getElem hlt]
      · simp [hlt, List.getElem?_eq_none (Nat.le_of_not_lt hlt)]
    · have : i.toNat ≠ j.toNat := by omega
      simp [hji, this]
  · have hji : j ≠ i := by omega
    simp [hj, hji]

theorem indexAt_append_single {α : Type} (v : List α) (j : Int) (x : α) :
    indexAt (v ++ [x]) j = if j = (v.length : Int) then some x else indexAt v j := by
  unfold indexAt
  by_cases hj : 0 ≤ j
  · simp only [hj, if_true, List.getElem?_append]
    by_cases hlt : j.toNat < v.length
    · have : j ≠ (v.length : Int) := by omega
      simp [hlt, this]
    · by_cases he : j = (v.length : Int)
      · have : j.toNat - v.length = 0 := by omega
        simp [hlt, he]
      · have h2 : j.toNat - v.length ≠ 0 := by omega
        have h3 : v.length ≤ j.toNat := by omega
        simp [hlt, he, List.getElem?_eq_none h3]
        obtain ⟨k, hk⟩ := Nat.exists_eq_succ_of_ne_zero h2
        simp [hk]
  · have : j ≠ (v.length : Int) := by omega
    simp [hj, this]

theorem indexAt_map {α β : Type} (g : α → β) (v : List α) (j : Int) :
    indexAt (v.map g) j = (indexAt v j).map g := by
  unfold indexAt
  split <;> simp

theorem derefAt_eq_some {v : List Slot} {i : Int} {t : Thread} :
    derefAt v i = some t ↔ indexAt v i = some (Slot.thread t) := by
  unfold derefAt
  split
  · rename_i t1 h
    simp [h]
  · rename_i h
    constructor
    · intro h1; cases h1
    · intro h1; exact absurd h1 (h t)

theorem derefAt_bounds {v : List Slot} {i : Int} {t : Thread}
    (h : derefAt v i = some t) : 0 ≤ i ∧ i < (v.length : Int) :=
  indexAt_lt_length (derefAt_eq_some.mp h)

theorem updateThread_eq_some {v : List Slot} {i : Int} {t : Thread} (m : Thread → Thread)
    (h : derefAt v i = some t) :
    updateThread v i m = some (v.set i.toNat (Slot.thread (m t))) := by
  simp [updateThread, h]

theorem updateThread_some_iff {v v1 : List Slot} {i : Int} {m : Thread → Thread} :
    updateThread v i m = some v1 ↔
      ∃ t, derefAt v i = some t ∧ v1 = v.set i.toNat (Slot.thread (m t)) := by
  unfold updateThread
  split
  · rename_i t h
    simp [h, eq_comm]
  · rename_i h
    simp [h]

theorem indexAt_updateThread {v v1 : List Slot} {i : Int} {m : Thread → Thread}
    (h : updateThread v i m = some v1) (j : Int) :
    indexAt v1 j = if j = i then (derefAt v i).map (fun t => Slot.thread (m t))
      else indexAt v j := by
  obtain ⟨t, ht, rfl⟩ := updateThread_some_iff.mp h
  have hb := derefAt_bounds ht
  rw [indexAt_set _ _ _ _ hb.1, ht, derefAt_eq_some.mp ht]
  rfl

theorem derefAt_updateThread {v v1 : List Slot} {i : Int} {m : Thread → Thread}
    (h : updateThread v i m = some v1) (j : Int) :
    derefAt v1 j = if j = i then (derefAt v i).map m else derefAt v j := by
  obtain ⟨t, ht, _⟩ := updateThread_some_iff.mp h
  have hx := indexAt_updateThread h j
  by_cases hji : j = i
  · simp only [hji, if_true, ht, Option.map_some'] at hx ⊢
    exact derefAt_eq_some.mpr hx
  · simp only [hji, if_false] at hx ⊢
    unfold derefAt
    rw [hx]

theorem length_updateThread {v v1 : List Slot} {i : Int} {m : Thread → Thread}
    (h : updateThread v i m = some v1) : v1.length = v.length := by
  obtain ⟨t, _, rfl⟩ := updateThread_some_iff.mp h
  simp

theorem derefAt_append_single (v : List Slot) (j : Int) (x : Slot) :
    derefAt (v ++ [x]) j =
      if j = (v.length : Int) then (match x with | Slot.thread t => some t | _ => none)
      else derefAt v j := by
  unfold derefAt
  rw [indexAt_append_single]
  split_ifs
  · cases x <;> rfl
  · rfl

theorem derefAt_set_null (v : List Slot) (i j : Int) (hi : 0 ≤ i) :
    derefAt (v.set i.toNat Slot.null) j = if j = i then none else derefAt v j := by
  unfold derefAt
  rw [indexAt_set _ _ _ _ hi]
  by_cases hji : j = i
  · simp only [hji, if_true]
    cases indexAt v i <;> rfl
  · simp [hji]

theorem derefAt_set_thread (v : List Slot) (i j : Int) (t : Thread) (hi : 0 ≤ i)
    (hlt : i < (v.length : Int)) :
    derefAt (v.set i.toNat (Slot.thread t)) j = if j = i then some t else derefAt v j := by
  unfold derefAt
  rw [indexAt_set _ _ _ _ hi]
  obtain ⟨x, hx⟩ := indexAt_isSome hi hlt
  by_cases hji : j = i
  · simp [hji, hx]
  · simp [hji]

theorem derefAt_map_sweepSlot (v : List Slot) (j : Int) :
    derefAt (v.map sweepSlot) j =
      match derefAt v j with
      | some t => if t.state = TERMINATED then none else some t
      | none => none := by
  unfold derefAt
  rw [indexAt_map]
  cases h : indexAt v j with
  | none => rfl
  | some x =>
    cases x with
    | null => rfl
    | freed => rfl
    | thread t =>
      simp only [Option.map_some', sweepSlot, Thread.getState]
      split_ifs <;> rfl

end UThreads

namespace UThreads

/-! ## Initialisation -/

theorem isValidQuantum_eq_false_iff (quantum_usecs : Nat → Int) (size : Int) :
    isValidQuantum quantum_usecs size = false ↔
      (size ≤ 0 ∨ ∃ i : Nat, (i : Int) < size ∧ quantum_usecs i ≤ 0) := by
  unfold isValidQuantum
  by_cases hs : size ≤ 0
  · simp [hs]
  · simp only [hs, if_false, false_or]
    rw [Bool.eq_false_iff]
    simp only [ne_eq, List.all_eq_true, List.mem_range, Bool.not_eq_true', decide_eq_false_iff_not,
      not_le, not_forall, not_lt, exists_prop]
    constructor
    · rintro ⟨i, hi, hq⟩
      exact ⟨i, by omega, hq⟩
    · rintro ⟨i, hi, hq⟩
      exact ⟨i, by omega, hq⟩

theorem indexAt_quanta_zero (quantum_usecs : Nat → Int) (size : Int) (hs : 0 < size) :
    indexAt ((List.range size.toNat).map quantum_usecs) 0 = some (quantum_usecs 0) := by
  apply indexAt_eq_some.mpr
  refine ⟨le_refl _, ?_⟩
  have : 0 < size.toNat := by omega
  simp [List.getElem?_range, this]

theorem uthread_init_valid (quantum_usecs : Nat → Int) (size : Int)
    (h : isValidQuantum quantum_usecs size = true) :
    uthread_init Lib.initial quantum_usecs size =
      Outcome.ret
        (setTimer
          { Lib.initial with
            quantumPriorityList := (List.range size.toNat).map quantum_usecs
            handlerInstalled := true
            existedThreadsList := [Slot.thread (Thread.new MAIN_TID 0 RUNNING)]
            quantityThreads := 1 } (quantum_usecs 0)) SUCCESS := by
  have hs : 0 < size := by
    by_contra hc
    have : isValidQuantum quantum_usecs size = false :=
      (isValidQuantum_eq_false_iff _ _).mpr (Or.inl (by omega))
    rw [this] at h
    cases h
  have hq := indexAt_quanta_zero quantum_usecs size hs
  have hd : derefAt [Slot.thread (Thread.new MAIN_TID 0 RUNNING)] MAIN_TID =
      some (Thread.new MAIN_TID 0 RUNNING) := rfl
  have hp : (Thread.new MAIN_TID 0 RUNNING).getPriority = 0 := rfl
  simp [uthread_init, initializeQuantumPriority, h, addQuantumTimes,
    initializeSignalHandler, initializeMainThread, Lib.initial, hd, hp, hq]

theorem uthread_init_invalid (s : Lib) (quantum_usecs : Nat → Int) (size : Int)
    (h : isValidQuantum quantum_usecs size = false) :
    uthread_init s quantum_usecs size = Outcome.ret s FAILURE := by
  simp [uthread_init, initializeQuantumPriority, h]

/-- C6: `uthread_init` returns -1 exactly when `size <= 0` or one of the first
`size` quantum lengths is not positive; the failing call returns the state of
the static initialisers untouched (empty quantum table, empty thread table,
live count 0, no handler installed, no timer armed), and every other call
returns 0. -/
theorem uthread_init_failure_iff (quantum_usecs : Nat → Int) (size : Int) :
    ((∃ s1, uthread_init Lib.initial quantum_usecs size = Outcome.ret s1 FAILURE) ↔
      (size ≤ 0 ∨ ∃ i : Nat, (i : Int) < size ∧ quantum_usecs i ≤ 0)) ∧
    (((size ≤ 0 ∨ ∃ i : Nat, (i : Int) < size ∧ quantum_usecs i ≤ 0) ∧
        uthread_init Lib.initial quantum_usecs size = Outcome.ret Lib.initial FAILURE) ∨
      (¬ (size ≤ 0 ∨ ∃ i : Nat, (i : Int) < size ∧ quantum_usecs i ≤ 0) ∧
        ∃ s1, uthread_init Lib.initial quantum_usecs size = Outcome.ret s1 SUCCESS)) ∧
    Lib.initial.quantumPriorityList = [] ∧ Lib.initial.existedThreadsList = [] ∧
    Lib.initial.quantityThreads = 0 ∧ Lib.initial.armed = none ∧
    Lib.initial.handlerInstalled = false := by
  refine ⟨?_, ?_, rfl, rfl, rfl, rfl, rfl⟩
  · rw [← isValidQuantum_eq_false_iff]
    cases h : isValidQuantum quantum_usecs size with
    | false =>
      simp only [iff_true]
      exact ⟨_, uthread_init_invalid _ _ _ h⟩
    | true =>
      simp only [Bool.true_eq_false, iff_false, not_exists]
      intro s1 hs1
      rw [uthread_init_valid _ _ h] at hs1
      cases hs1
  · rw [← isValidQuantum_eq_false_iff]
    cases h : isValidQuantum quantum_usecs size with
    | false => exact Or.inl ⟨rfl, uthread_init_invalid _ _ _ h⟩
    | true => exact Or.inr ⟨by simp, _, uthread_init_valid _ _ h⟩

theorem isValidQuantum_pos {quantum_usecs : Nat → Int} {size : Int}
    (h : isValidQuantum quantum_usecs size = true) :
    ∀ q ∈ (List.range size.toNat).map quantum_usecs, 0 < q := by
  unfold isValidQuantum at h
  split_ifs at h with hs
  simp only [List.all_eq_true, List.mem_range, Bool.not_eq_true', decide_eq_false_iff_not,
    not_le] at h
  intro q hq
  obtain ⟨i, hi, rfl⟩ := List.mem_map.mp hq
  exact h i (List.mem_range.mp hi)

theorem timer_split {q : Int} (hq : 0 ≤ q) :
    getSeconds q * 1000000 + (q - getSeconds q * SECOND_IN_MILLISECOND) = q ∧
      0 ≤ q - getSeconds q * SECOND_IN_MILLISECOND ∧
      q - getSeconds q * SECOND_IN_MILLISECOND < 1000000 ∧ 0 ≤ getSeconds q := by
  unfold getSeconds
  rw [Int.tdiv_eq_ediv hq (by decide)]
  simp only [SECOND_IN_MILLISECOND]
  omega

/-- C7: after a successful `uthread_init` with a valid quantum array the
quantum table holds the array, the table holds main alone (identity 0,
priority 0, RUNNING, no completed quantum), the ready queue is empty, the live
count is 1, the getters give identity 0, total 1 and 1 quantum for main, and
the timer handed to `setitimer` is one-shot and holds `quantum_usecs[0]`, split
into whole seconds and less than a million microseconds. -/
theorem uthread_init_post (quantum_usecs : Nat → Int) (size : Int)
    (h : isValidQuantum quantum_usecs size = true) :
    ∃ s tm, uthread_init Lib.initial quantum_usecs size = Outcome.ret s SUCCESS ∧
      s.quantumPriorityList = (List.range size.toNat).map quantum_usecs ∧
      s.existedThreadsList =
        [Slot.thread { tid := 0, priority := 0, state := RUNNING, quantum_elapsed := 0 }] ∧
      s.readyTidList = [] ∧
      s.quantityThreads = 1 ∧
      liveCount s.existedThreadsList = 1 ∧
      uthread_get_tid s = 0 ∧
      uthread_get_total_quantums s = 1 ∧
      uthread_get_quantums s 0 = Outcome.ret s 1 ∧
      s.armed = some tm ∧ s.timer = tm ∧
      tm.value_sec * 1000000 + tm.value_usec = quantum_usecs 0 ∧
      0 ≤ tm.value_usec ∧ tm.value_usec < 1000000 ∧ 0 ≤ tm.value_sec ∧
      tm.interval_sec = 0 ∧ tm.interval_usec = 0 := by
  have hs : 0 < size := by
    by_contra hc
    have : isValidQuantum quantum_usecs size = false := by
      unfold isValidQuantum
      rw [if_pos (by omega)]
    rw [this] at h
    cases h
  have hq0 : 0 < quantum_usecs 0 := by
    apply isValidQuantum_pos h
    apply List.mem_map.mpr
    exact ⟨0, List.mem_range.mpr (by omega), rfl⟩
  obtain ⟨t1, t2, t3, t4⟩ := timer_split (le_of_lt hq0)
  refine ⟨_, _, uthread_init_valid _ _ h, rfl, rfl, rfl, rfl, ?_, rfl, ?_, ?_,
    rfl, rfl, t1, t2, t3, t4, rfl, rfl⟩
  · show liveCount [Slot.thread (Thread.new MAIN_TID 0 RUNNING)] = 1
    decide
  · show toInt (0 + 1) = 1
    decide
  · simp [uthread_get_quantums, isValidTid, setTimer, Lib.initial, indexAt, derefAt, Thread.new,
      Thread.getState, Thread.getQuantumElapsed, toSizeT, toInt_one]

theorem uthread_init_post_witness :
    ∃ s tm, uthread_init Lib.initial exampleQuanta 2 = Outcome.ret s SUCCESS ∧
      s.quantumPriorityList = (List.range (2 : Int).toNat).map exampleQuanta ∧
      s.existedThreadsList =
        [Slot.thread { tid := 0, priority := 0, state := RUNNING, quantum_elapsed := 0 }] ∧
      s.readyTidList = [] ∧
      s.quantityThreads = 1 ∧
      liveCount s.existedThreadsList = 1 ∧
      uthread_get_tid s = 0 ∧
      uthread_get_total_quantums s = 1 ∧
      uthread_get_quantums s 0 = Outcome.ret s 1 ∧
      s.armed = some tm ∧ s.timer = tm ∧
      tm.value_sec * 1000000 + tm.value_usec = exampleQuanta 0 ∧
      0 ≤ tm.value_usec ∧ tm.value_usec < 1000000 ∧ 0 ≤ tm.value_sec ∧
      tm.interval_sec = 0 ∧ tm.interval_usec = 0 :=
  uthread_init_post exampleQuanta 2 (by decide)

end UThreads

namespace UThreads

/-! ## Validity checks -/

theorem toSizeT_of_nonneg {x : Int} (h : 0 ≤ x) : toSizeT x = x := by
  simp [toSizeT, h]

theorem isValidPriority_iff (s : Lib) (priority : Int) (h : s.quantumPriorityList ≠ []) :
    isValidPriority s priority = true ↔
      0 ≤ priority ∧ priority < (s.quantumPriorityList.length : Int) := by
  have hlen : 0 < s.quantumPriorityList.length := List.length_pos.mpr h
  have h1 : (0 : Int) ≤ (s.quantumPriorityList.length : Int) - 1 := by omega
  unfold isValidPriority
  rw [toSizeT_of_nonneg h1]
  by_cases hp : 0 ≤ priority
  · rw [toSizeT_of_nonneg hp]
    simp only [ge_iff_le, Bool.and_eq_true, decide_eq_true_eq]
    omega
  · simp [hp]

theorem isValidTid_eq (s : Lib) (tid : Int) :
    isValidTid s tid = if isDangling s tid then none else some (isLive s tid) := by
  unfold isValidTid isDangling isLive derefAt
  by_cases h0 : 0 ≤ tid
  · rw [toSizeT_of_nonneg h0]
    by_cases h1 : tid < (s.existedThreadsList.length : Int)
    · obtain ⟨x, hx⟩ := indexAt_isSome h0 h1
      simp only [ge_iff_le, h0, h1, and_self, if_true, hx]
      cases x <;> simp [Thread.getState]
    · have hn : indexAt s.existedThreadsList tid = none := indexAt_eq_none.mpr (Or.inr (by omega))
      simp [h0, h1, hn]
  · have hn : indexAt s.existedThreadsList tid = none := indexAt_eq_none.mpr (Or.inl (by omega))
    simp [h0, hn]

theorem isValidTid_of_isLive {s : Lib} {tid : Int} (h : isLive s tid = true) :
    isValidTid s tid = some true := by
  rw [isValidTid_eq]
  have : isDangling s tid = false := by
    unfold isLive derefAt at h
    unfold isDangling
    cases hx : indexAt s.existedThreadsList tid with
    | none => simp
    | some x => cases x <;> simp_all
  simp [this, h]

theorem isValidTid_of_notLive {s : Lib} {tid : Int} (h : notLive s tid = true) :
    isValidTid s tid = some false := by
  rw [isValidTid_eq]
  unfold notLive at h
  unfold isDangling isLive derefAt
  cases hx : indexAt s.existedThreadsList tid with
  | none => simp
  | some x =>
    have hb := indexAt_lt_length hx
    cases x with
    | null => simp
    | freed =>
      simp only [hx, Bool.or_eq_true, decide_eq_true_eq] at h
      simp at h
      omega
    | thread t =>
      simp only [hx, Bool.or_eq_true, decide_eq_true_eq] at h
      have : t.state = TERMINATED := by
        rcases h with (h | h) | h
        · omega
        · omega
        · exact h
      simp [this]

theorem isLive_iff {s : Lib} {tid : Int} :
    isLive s tid = true ↔ ∃ t, derefAt s.existedThreadsList tid = some t ∧ t.state ≠ TERMINATED := by
  unfold isLive
  cases h : derefAt s.existedThreadsList tid with
  | none => simp
  | some t => simp

end UThreads

namespace UThreads

/-! ## Calls with invalid arguments -/

theorem uthread_change_priority_of_invalid {s : Lib} {tid : Int} (priority : Int)
    (h : isValidTid s tid = some false) :
    uthread_change_priority s tid priority = Outcome.ret s FAILURE := by
  simp [uthread_change_priority, h]

theorem uthread_change_priority_of_bad_priority {s : Lib} {tid priority : Int} {b : Bool}
    (h : isValidTid s tid = some b) (hp : isValidPriority s priority = false) :
    uthread_change_priority s tid priority = Outcome.ret s FAILURE := by
  simp [uthread_change_priority, h, hp]

theorem isValidTid_defined {s : Lib} {tid : Int}
    (h : isLive s tid = true ∨ notLive s tid = true) : ∃ b, isValidTid s tid = some b := by
  rcases h with h | h
  · exact ⟨true, isValidTid_of_isLive h⟩
  · exact ⟨false, isValidTid_of_notLive h⟩

/-- Invalid arguments, apart from the entries that point to a deleted thread:
for a negative identity, one beyond the table, a null entry or a TERMINATED
entry each of `uthread_change_priority`, `uthread_terminate`, `uthread_block`,
`uthread_resume` and `uthread_get_quantums` returns -1 with the state
unchanged; so does `uthread_block(0)`, and so does `uthread_change_priority`
with a priority outside `0 .. n-1` where `n >= 1` is the size of the quantum
table. -/
theorem invalid_arguments_fail (s : Lib) (tid priority : Int) :
    (notLive s tid = true →
      uthread_change_priority s tid priority = Outcome.ret s FAILURE ∧
      uthread_terminate s tid = Outcome.ret s FAILURE ∧
      uthread_block s tid = Outcome.ret s FAILURE ∧
      uthread_resume s tid = Outcome.ret s FAILURE ∧
      uthread_get_quantums s tid = Outcome.ret s FAILURE) ∧
    ((isLive s MAIN_TID = true ∨ notLive s MAIN_TID = true) →
      uthread_block s MAIN_TID = Outcome.ret s FAILURE) ∧
    ((isLive s tid = true ∨ notLive s tid = true) → s.quantumPriorityList ≠ [] →
      (priority < 0 ∨ (s.quantumPriorityList.length : Int) ≤ priority) →
      uthread_change_priority s tid priority = Outcome.ret s FAILURE) := by
  refine ⟨?_, ?_, ?_⟩
  · intro h
    have hv := isValidTid_of_notLive h
    refine ⟨uthread_change_priority_of_invalid _ hv, ?_, ?_, ?_, ?_⟩
    · simp [uthread_terminate, hv]
    · simp [uthread_block, hv]
    · simp [uthread_resume, hv]
    · simp [uthread_get_quantums, hv]
  · intro h
    obtain ⟨b, hb⟩ := isValidTid_defined h
    simp [uthread_block, hb]
  · intro h hq hp
    obtain ⟨b, hb⟩ := isValidTid_defined h
    apply uthread_change_priority_of_bad_priority hb
    rw [Bool.eq_false_iff]
    intro hc
    have := (isValidPriority_iff s priority hq).mp hc
    omega

/-! ## Change of priority -/

/-- C10: for a live identity and a priority inside the quantum table
`uthread_change_priority` returns 0; the new state differs from the old one in
the priority field of that thread only: the thread keeps its identity, state
and quantum counter, every other slot, the ready queue, the running identity,
the total-quantum counter, the live count, the quantum table and the armed
timer value are unchanged, whether or not the thread is the running one. -/
theorem change_priority_frame (s : Lib) (tid priority : Int)
    (hlive : isLive s tid = true)
    (hp : 0 ≤ priority ∧ priority < (s.quantumPriorityList.length : Int)) :
    ∃ s1 t, uthread_change_priority s tid priority = Outcome.ret s1 SUCCESS ∧
      derefAt s.existedThreadsList tid = some t ∧
      derefAt s1.existedThreadsList tid = some { t with priority := priority } ∧
      (∀ j, j ≠ tid → indexAt s1.existedThreadsList j = indexAt s.existedThreadsList j) ∧
      s1.existedThreadsList.length = s.existedThreadsList.length ∧
      s1.readyTidList = s.readyTidList ∧
      s1.currentRunningTid = s.currentRunningTid ∧
      s1.totalQuantumElapsed = s.totalQuantumElapsed ∧
      s1.quantityThreads = s.quantityThreads ∧
      s1.quantumPriorityList = s.quantumPriorityList ∧
      s1.armed = s.armed ∧ s1.timer = s.timer ∧
      s1.handlerInstalled = s.handlerInstalled := by
  obtain ⟨t, ht, _⟩ := isLive_iff.mp hlive
  have hq : s.quantumPriorityList ≠ [] := by
    intro hc
    rw [hc] at hp
    simp at hp
    omega
  have hvp : isValidPriority s priority = true := (isValidPriority_iff s priority hq).mpr hp
  have hu := updateThread_eq_some (fun t => t.setPriority priority) ht
  refine ⟨{ s with existedThreadsList :=
      s.existedThreadsList.set tid.toNat (Slot.thread (t.setPriority priority)) }, t, ?_, ht,
    ?_, ?_, ?_, rfl, rfl, rfl, rfl, rfl, rfl, rfl, rfl⟩
  · simp [uthread_change_priority, isValidTid_of_isLive hlive, hvp, hu]
  · have := derefAt_updateThread hu tid
    simpa [ht, Thread.setPriority] using this
  · intro j hj
    have := indexAt_updateThread hu j
    simpa [hj] using this
  · simp

end UThreads

namespace UThreads

theorem invalid_arguments_fail_witness :
    (notLive exampleTwoSpawned 7 = true ∧
      uthread_change_priority exampleTwoSpawned 7 5 = Outcome.ret exampleTwoSpawned FAILURE ∧
      uthread_terminate exampleTwoSpawned 7 = Outcome.ret exampleTwoSpawned FAILURE ∧
      uthread_block exampleTwoSpawned 7 = Outcome.ret exampleTwoSpawned FAILURE ∧
      uthread_resume exampleTwoSpawned 7 = Outcome.ret exampleTwoSpawned FAILURE ∧
      uthread_get_quantums exampleTwoSpawned 7 = Outcome.ret exampleTwoSpawned FAILURE) ∧
    (isLive exampleTwoSpawned MAIN_TID = true ∧
      uthread_block exampleTwoSpawned MAIN_TID = Outcome.ret exampleTwoSpawned FAILURE) ∧
    (notLive exampleTwoSpawned 7 = true ∧ exampleTwoSpawned.quantumPriorityList ≠ [] ∧
      (exampleTwoSpawned.quantumPriorityList.length : Int) ≤ 5 ∧
      uthread_change_priority exampleTwoSpawned 7 5 = Outcome.ret exampleTwoSpawned FAILURE) :=
  ⟨⟨by decide, (invalid_arguments_fail exampleTwoSpawned 7 5).1 (by decide)⟩,
    ⟨by decide, (invalid_arguments_fail exampleTwoSpawned 7 5).2.1 (Or.inl (by decide))⟩,
    ⟨by decide, by decide, by decide,
      (invalid_arguments_fail exampleTwoSpawned 7 5).2.2 (Or.inr (by decide)) (by decide)
        (Or.inr (by decide))⟩⟩

theorem change_priority_frame_witness :
    ∃ s1 t, uthread_change_priority exampleTwoSpawned 0 1 = Outcome.ret s1 SUCCESS ∧
      derefAt exampleTwoSpawned.existedThreadsList 0 = some t ∧
      derefAt s1.existedThreadsList 0 = some { t with priority := 1 } ∧
      (∀ j, j ≠ 0 →
        indexAt s1.existedThreadsList j = indexAt exampleTwoSpawned.existedThreadsList j) ∧
      s1.existedThreadsList.length = exampleTwoSpawned.existedThreadsList.length ∧
      s1.readyTidList = exampleTwoSpawned.readyTidList ∧
      s1.currentRunningTid = exampleTwoSpawned.currentRunningTid ∧
      s1.totalQuantumElapsed = exampleTwoSpawned.totalQuantumElapsed ∧
      s1.quantityThreads = exampleTwoSpawned.quantityThreads ∧
      s1.quantumPriorityList = exampleTwoSpawned.quantumPriorityList ∧
      s1.armed = exampleTwoSpawned.armed ∧ s1.timer = exampleTwoSpawned.timer ∧
      s1.handlerInstalled = exampleTwoSpawned.handlerInstalled :=
  change_priority_frame exampleTwoSpawned 0 1 (by decide) (by decide)

end UThreads

namespace UThreads

/-! ## Allocation of identities -/

theorem firstNull_eq (v : List Slot) (n : Int) (k : Nat)
    (hbelow : ∀ i, i < k → ∃ x, v[i]? = some x ∧ x ≠ Slot.null)
    (hk : v[k]? = some Slot.null) : firstNull v n = n + k := by
  induction v generalizing n k with
  | nil => simp at hk
  | cons x rest ih =>
    cases k with
    | zero =>
      simp at hk
      subst hk
      simp [firstNull]
    | succ k =>
      have h0 := hbelow 0 (Nat.succ_pos k)
      simp at h0
      have hrest : firstNull (x :: rest) n = firstNull rest (n + 1) := by
        cases x with
        | null => exact absurd rfl h0
        | thread t => rfl
        | freed => rfl
      rw [hrest, ih (n + 1) k]
      · push_cast; ring
      · intro i hi
        have := hbelow (i + 1) (Nat.succ_lt_succ hi)
        simpa using this
      · simpa using hk

theorem firstNull_bounds (v : List Slot) (n : Int) :
    n ≤ firstNull v n ∧ firstNull v n ≤ n + (v.length : Int) := by
  induction v generalizing n with
  | nil => simp [firstNull]
  | cons x rest ih =>
    have := ih (n + 1)
    cases x <;> simp [firstNull] <;> omega

theorem firstNull_slot (v : List Slot) (n : Int) (x : Slot)
    (h : v[(firstNull v n - n).toNat]? = some x) : x = Slot.null := by
  induction v generalizing n with
  | nil => simp at h
  | cons y rest ih =>
    have hb := firstNull_bounds rest (n + 1)
    cases y with
    | null => simpa [firstNull, eq_comm] using h
    | thread t =>
      simp only [firstNull] at h
      have he : (firstNull rest (n + 1) - n).toNat = (firstNull rest (n + 1) - (n + 1)).toNat + 1 := by
        omega
      rw [he] at h
      exact ih (n + 1) (by simpa using h)
    | freed =>
      simp only [firstNull] at h
      have he : (firstNull rest (n + 1) - n).toNat = (firstNull rest (n + 1) - (n + 1)).toNat + 1 := by
        omega
      rw [he] at h
      exact ih (n + 1) (by simpa using h)

theorem firstNull_below (v : List Slot) (n : Int) (i : Nat)
    (hi : (i : Int) < firstNull v n - n) : ∃ x, v[i]? = some x ∧ x ≠ Slot.null := by
  induction v generalizing n i with
  | nil => simp [firstNull] at hi; omega
  | cons y rest ih =>
    cases y with
    | null => simp [firstNull] at hi; omega
    | thread t =>
      simp only [firstNull] at hi
      cases i with
      | zero => exact ⟨_, List.getElem?_cons_zero, by simp⟩
      | succ i =>
        have := ih (n + 1) i (by push_cast at hi; omega)
        simpa using this
    | freed =>
      simp only [firstNull] at hi
      cases i with
      | zero => exact ⟨_, List.getElem?_cons_zero, by simp⟩
      | succ i =>
        have := ih (n + 1) i (by push_cast at hi; omega)
        simpa using this

/-- The slot that `getAvailableTid` selects is empty or lies right behind the table. -/
theorem indexAt_firstNull (v : List Slot) :
    indexAt v (firstNull v 0) = some Slot.null ∨
      (firstNull v 0 = (v.length : Int) ∧ indexAt v (firstNull v 0) = none) := by
  have hb := firstNull_bounds v 0
  by_cases hlt : firstNull v 0 < (v.length : Int)
  · left
    obtain ⟨x, hx⟩ := indexAt_isSome hb.1 hlt
    have h1 := (indexAt_eq_some.mp hx).2
    have : x = Slot.null := firstNull_slot v 0 x (by simpa using h1)
    rw [hx, this]
  · right
    exact ⟨by omega, indexAt_eq_none.mpr (Or.inr (by omega))⟩

theorem uthread_terminate_other {s : Lib} {tid : Int} {t : Thread}
    (ht : derefAt s.existedThreadsList tid = some t) (hs : t.state ≠ TERMINATED)
    (hmain : tid ≠ MAIN_TID) (hrun : tid ≠ s.currentRunningTid) :
    uthread_terminate s tid =
      Outcome.ret
        { s with
          readyTidList :=
            if t.state = READY then s.readyTidList.filter (fun x => x ≠ tid) else s.readyTidList
          existedThreadsList := s.existedThreadsList.set tid.toNat Slot.null
          quantityThreads := s.quantityThreads - 1 } SUCCESS := by
  have hlive : isLive s tid = true := isLive_iff.mpr ⟨t, ht, hs⟩
  simp [uthread_terminate, isValidTid_of_isLive hlive, hmain, hrun, terminateBlockedOrReadyThread,
    ht, Thread.getState]

/-- The value of a spawn that does not fail is the index that the loop of
`getAvailableTid` finds in the table after the sweep. -/
theorem uthread_spawn_value {MAX_THREAD_NUM : Int} {s s2 : Lib} {f : Option Nat} {p v : Int}
    (h : uthread_spawn MAX_THREAD_NUM s f p = Outcome.ret s2 v) (hv : v ≠ FAILURE) :
    Slot.freed ∉ s.existedThreadsList ∧
      v = firstNull (s.existedThreadsList.map sweepSlot) 0 := by
  unfold uthread_spawn getAvailableTid checkAndDeleteTerminated at h
  by_cases hfr : Slot.freed ∈ s.existedThreadsList
  · simp [hfr] at h
  · refine ⟨hfr, ?_⟩
    simp only [hfr, if_false] at h
    by_cases hq : s.quantityThreads = MAX_THREAD_NUM
    · simp [hq] at h
      exact absurd h.2.symm hv
    · simp only [hq, if_false] at h
      split_ifs at h with h1 h2
      · cases h; exact absurd rfl hv
      · cases h; exact absurd rfl hv
      · split at h
        · cases h
        · cases h; rfl

end UThreads

namespace UThreads

theorem indexAt_natCast {α : Type} (v : List α) (i : Nat) : indexAt v (i : Int) = v[i]? := by
  simp [indexAt]

theorem uthread_spawn_success (MAX_THREAD_NUM : Int) {s : Lib} {f : Option Nat} {p : Int}
    (hfr : Slot.freed ∉ s.existedThreadsList) (hq : s.quantityThreads ≠ MAX_THREAD_NUM)
    (hp : isValidPriority s p = true) (hf : f ≠ none) (hne : s.existedThreadsList ≠ []) :
    uthread_spawn MAX_THREAD_NUM s f p =
      Outcome.ret
        { s with
          existedThreadsList :=
            if firstNull (s.existedThreadsList.map sweepSlot) 0 = (s.existedThreadsList.length : Int)
            then s.existedThreadsList.map sweepSlot ++
              [Slot.thread (Thread.new (firstNull (s.existedThreadsList.map sweepSlot) 0) p READY)]
            else (s.existedThreadsList.map sweepSlot).set
              (firstNull (s.existedThreadsList.map sweepSlot) 0).toNat
              (Slot.thread (Thread.new (firstNull (s.existedThreadsList.map sweepSlot) 0) p READY))
          readyTidList := s.readyTidList ++ [firstNull (s.existedThreadsList.map sweepSlot) 0]
          quantityThreads := s.quantityThreads + 1 }
        (firstNull (s.existedThreadsList.map sweepSlot) 0) := by
  have hb := firstNull_bounds (s.existedThreadsList.map sweepSlot) 0
  simp only [List.length_map, zero_add] at hb
  have hlen : 0 < s.existedThreadsList.length := List.length_pos.mpr hne
  have hvp : isValidPriority
      { s with existedThreadsList := s.existedThreadsList.map sweepSlot } p = true := hp
  have hnf : firstNull (s.existedThreadsList.map sweepSlot) 0 ≠ FAILURE := by
    intro hc; rw [hc] at hb; simp at hb
  have h1 : (0 : Int) ≤ (s.existedThreadsList.length : Int) - 1 := by omega
  simp only [uthread_spawn, getAvailableTid, checkAndDeleteTerminated, hfr, if_false, hq, hvp,
    hnf, hf, not_true_eq_false, or_self, createThread, List.length_map, toSizeT_of_nonneg h1,
    toSizeT_of_nonneg hb.1]
  by_cases he : firstNull (s.existedThreadsList.map sweepSlot) 0 = (s.existedThreadsList.length : Int)
  · have : (s.existedThreadsList.length : Int) - 1 < (s.existedThreadsList.length : Int) := by
      omega
    simp only [he, this, if_true]
  · have hlt : ¬ ((s.existedThreadsList.length : Int) - 1 <
        firstNull (s.existedThreadsList.map sweepSlot) 0) := by omega
    obtain ⟨x, hx⟩ := indexAt_isSome (v := s.existedThreadsList.map sweepSlot) hb.1
      (by simp only [List.length_map]; omega)
    simp only [hlt, if_false, hx, he]

/-! ## Reuse of an identity after `uthread_terminate` -/

theorem firstNull_after_terminate (s : Lib) (t : Int) (h0 : 0 ≤ t)
    (hlt : t < (s.existedThreadsList.length : Int))
    (hbelow : ∀ i, 0 ≤ i → i < t → isLive s i = true) :
    firstNull ((s.existedThreadsList.set t.toNat Slot.null).map sweepSlot) 0 = t := by
  have key := firstNull_eq ((s.existedThreadsList.set t.toNat Slot.null).map sweepSlot) 0 t.toNat
    ?_ ?_
  · rw [key]; omega
  · intro i hi
    have hi0 : (0 : Int) ≤ (i : Int) := by omega
    have hit : (i : Int) < t := by omega
    obtain ⟨th, hth, hst⟩ := isLive_iff.mp (hbelow i hi0 hit)
    have hx := derefAt_eq_some.mp hth
    refine ⟨Slot.thread th, ?_, by simp⟩
    rw [← indexAt_natCast, indexAt_map, indexAt_set _ _ _ _ h0]
    have : (i : Int) ≠ t := by omega
    simp [this, hx, sweepSlot, Thread.getState, hst]
  · rw [← indexAt_natCast, indexAt_map, indexAt_set _ _ _ _ h0]
    obtain ⟨x, hx⟩ := indexAt_isSome h0 hlt
    have : ((t.toNat : Nat) : Int) = t := by omega
    simp [this, hx, sweepSlot]

/-- C2: let `t` be live, not main and not running, with every slot below `t`
held by a live thread. Then `uthread_terminate(t)` returns 0, every spawn that
follows it directly and succeeds returns `t`, and such a spawn does succeed
for a non-null entry function and a valid priority when the live count is
below the maximum and the table holds no pointer to a deleted thread. -/
theorem terminate_then_spawn_reuses (MAX_THREAD_NUM : Int) (s : Lib) (t : Int)
    (hlive : isLive s t = true) (hmain : t ≠ MAIN_TID) (hrun : t ≠ s.currentRunningTid)
    (hbelow : ∀ i, 0 ≤ i → i < t → isLive s i = true) :
    ∃ s1, uthread_terminate s t = Outcome.ret s1 SUCCESS ∧
      (∀ f p s2 v, uthread_spawn MAX_THREAD_NUM s1 f p = Outcome.ret s2 v → v ≠ FAILURE →
        v = t) ∧
      (∀ f p, f ≠ none → isValidPriority s1 p = true → s1.quantityThreads ≠ MAX_THREAD_NUM →
        Slot.freed ∉ s1.existedThreadsList →
        ∃ s2, uthread_spawn MAX_THREAD_NUM s1 f p = Outcome.ret s2 t) := by
  obtain ⟨th, hth, hst⟩ := isLive_iff.mp hlive
  have hb := derefAt_bounds hth
  have hfn := firstNull_after_terminate s t hb.1 hb.2 hbelow
  refine ⟨_, uthread_terminate_other hth hst hmain hrun, ?_, ?_⟩
  · intro f p s2 v hsp hv
    have := (uthread_spawn_value hsp hv).2
    rw [this]
    exact hfn
  · intro f p hf hp hq hfr
    have hne : (s.existedThreadsList.set t.toNat Slot.null) ≠ [] := by
      apply List.ne_nil_of_length_pos
      rw [List.length_set]
      omega
    have := uthread_spawn_success MAX_THREAD_NUM hfr hq hp hf hne
    simp only [hfn] at this
    exact ⟨_, this⟩

theorem terminate_then_spawn_reuses_witness :
    isLive exampleTwoSpawned 2 = true ∧ (2 : Int) ≠ MAIN_TID ∧
      2 ≠ exampleTwoSpawned.currentRunningTid ∧
      ∃ s1, uthread_terminate exampleTwoSpawned 2 = Outcome.ret s1 SUCCESS ∧
        (∀ f p s2 v, uthread_spawn 100 s1 f p = Outcome.ret s2 v → v ≠ FAILURE → v = 2) ∧
        (∀ f p, f ≠ none → isValidPriority s1 p = true → s1.quantityThreads ≠ 100 →
          Slot.freed ∉ s1.existedThreadsList →
          ∃ s2, uthread_spawn 100 s1 f p = Outcome.ret s2 2) :=
  ⟨by decide, by decide, by decide,
    terminate_then_spawn_reuses 100 exampleTwoSpawned 2 (by decide) (by decide) (by decide)
      (by
        intro i h0 h2
        have hi : i = 0 ∨ i = 1 := by omega
        rcases hi with rfl | rfl <;> decide)⟩

end UThreads

namespace UThreads

/-! ## The live count -/

theorem liveCount_set (v : List Slot) (i : Int) (x y : Slot)
    (hx : indexAt v i = some x) :
    liveCount (v.set i.toNat y) =
      liveCount v - (if isLiveSlot x then 1 else 0) + (if isLiveSlot y then 1 else 0) := by
  obtain ⟨h0, h1⟩ := indexAt_eq_some.mp hx
  obtain ⟨hlt, hget⟩ := List.getElem?_eq_some.mp h1
  unfold liveCount
  rw [List.countP_set _ _ _ _ hlt, hget]
  have hpos : isLiveSlot x = true → 0 < List.countP isLiveSlot v := by
    intro hl
    apply List.countP_pos_iff.mpr
    exact ⟨x, hget ▸ List.getElem_mem hlt, hl⟩
  by_cases hl : isLiveSlot x = true
  · have := hpos hl
    by_cases hy : isLiveSlot y = true <;> simp [hl, hy] <;> omega
  · by_cases hy : isLiveSlot y = true <;> simp [hl, hy]

theorem liveCount_append_single (v : List Slot) (x : Slot) :
    liveCount (v ++ [x]) = liveCount v + (if isLiveSlot x then 1 else 0) := by
  unfold liveCount
  rw [List.countP_append]
  by_cases hx : isLiveSlot x = true <;> simp [hx, List.countP_cons]

theorem isLiveSlot_sweepSlot (x : Slot) : isLiveSlot (sweepSlot x) = isLiveSlot x := by
  cases x with
  | null => rfl
  | freed => rfl
  | thread t =>
    simp only [sweepSlot, Thread.getState]
    split_ifs with h
    · simp [isLiveSlot, h]
    · rfl

theorem liveCount_map_sweepSlot (v : List Slot) : liveCount (v.map sweepSlot) = liveCount v := by
  unfold liveCount
  rw [List.countP_map]
  congr 2
  funext x
  exact isLiveSlot_sweepSlot x

theorem liveCount_updateThread {v v1 : List Slot} {i : Int} {m : Thread → Thread} {t : Thread}
    (h : updateThread v i m = some v1) (ht : derefAt v i = some t) :
    liveCount v1 = liveCount v - (if t.state ≠ TERMINATED then 1 else 0) +
      (if (m t).state ≠ TERMINATED then 1 else 0) := by
  rw [updateThread_eq_some m ht] at h
  cases h
  rw [liveCount_set _ _ _ _ (derefAt_eq_some.mp ht)]
  simp [isLiveSlot]

/-! ## The selection of the next thread -/

theorem changeNextReadyToRunning_eq {s : Lib} {tr tn : Thread} {next : Int} {rest : List Int}
    {q : Int}
    (hr : derefAt s.existedThreadsList s.currentRunningTid = some tr)
    (hq : s.readyTidList = next :: rest)
    (hn : derefAt s.existedThreadsList next = some tn)
    (hp : indexAt s.quantumPriorityList tn.priority = some q) :
    changeNextReadyToRunning s =
      some (setTimer
        { s with
          existedThreadsList :=
            (s.existedThreadsList.set s.currentRunningTid.toNat
              (Slot.thread tr.increaseQuantumElapsed)).set next.toNat
              (Slot.thread
                ((if next = s.currentRunningTid then tr.increaseQuantumElapsed else tn).setState
                  RUNNING))
          totalQuantumElapsed := toInt (s.totalQuantumElapsed + 1)
          currentRunningTid := next
          readyTidList := rest } q) := by
  have hu1 := updateThread_eq_some Thread.increaseQuantumElapsed hr
  have hd1 : derefAt (s.existedThreadsList.set s.currentRunningTid.toNat
      (Slot.thread tr.increaseQuantumElapsed)) next =
      some (if next = s.currentRunningTid then tr.increaseQuantumElapsed else tn) := by
    rw [derefAt_updateThread hu1 next]
    split_ifs with h
    · rw [hr]; rfl
    · exact hn
  have hu2 := updateThread_eq_some (fun t => t.setState RUNNING) hd1
  have hd2 := derefAt_updateThread hu2 next
  simp only [if_true, hd1, Option.map_some'] at hd2
  have hprio : ((if next = s.currentRunningTid then tr.increaseQuantumElapsed else tn).setState
      RUNNING).getPriority = tn.priority := by
    split_ifs with h
    · rw [h, hr] at hn
      cases hn
      rfl
    · rfl
  unfold changeNextReadyToRunning
  simp only [hu1, hq, hu2, hd2, hprio, hp]

end UThreads

namespace UThreads

theorem indexAt_quanta_of_valid {s : Lib} {p : Int}
    (h : 0 ≤ p ∧ p < (s.quantumPriorityList.length : Int)) :
    ∃ q, indexAt s.quantumPriorityList p = some q :=
  indexAt_isSome h.1 h.2

/-- In the middle of a switch main is READY, so the ready queue has a head,
and the head is a READY thread with a quantum length. -/
theorem WFmid.next_exists {s : Lib} (h : WFmid s) :
    ∃ tr tn next rest q,
      derefAt s.existedThreadsList s.currentRunningTid = some tr ∧
      s.readyTidList = next :: rest ∧
      derefAt s.existedThreadsList next = some tn ∧ tn.state = READY ∧
      indexAt s.quantumPriorityList tn.priority = some q := by
  obtain ⟨tr, htr⟩ := h.outgoing
  obtain ⟨tm, htm, hst⟩ := h.main_alive
  have hmr : tm.state = READY := by
    rcases hst with h1 | h1
    · exact h1
    · exact absurd h1 (h.none_running _ _ htm)
  have hmem : MAIN_TID ∈ s.readyTidList := h.ready_complete _ _ htm hmr
  cases hq : s.readyTidList with
  | nil => rw [hq] at hmem; cases hmem
  | cons next rest =>
    obtain ⟨tn, htn, hsn⟩ := h.ready_sound next (by rw [hq]; exact List.mem_cons_self _ _)
    obtain ⟨q, hq1⟩ := indexAt_quanta_of_valid (h.priority_valid _ _ htn)
    exact ⟨tr, tn, next, rest, q, htr, rfl, htn, hsn, hq1⟩

theorem WF_after_switch {s s1 : Lib} (h : WFmid s) {tr tn : Thread} {next : Int}
    {rest : List Int} (q : Int)
    (hr : derefAt s.existedThreadsList s.currentRunningTid = some tr)
    (hq : s.readyTidList = next :: rest)
    (hn : derefAt s.existedThreadsList next = some tn) (hsn : tn.state = READY)
    (hs1 : s1 = setTimer
        { s with
          existedThreadsList :=
            (s.existedThreadsList.set s.currentRunningTid.toNat
              (Slot.thread tr.increaseQuantumElapsed)).set next.toNat
              (Slot.thread
                ((if next = s.currentRunningTid then tr.increaseQuantumElapsed else tn).setState
                  RUNNING))
          totalQuantumElapsed := toInt (s.totalQuantumElapsed + 1)
          currentRunningTid := next
          readyTidList := rest } q) :
    WF s1 := by
  have e1 : s1.existedThreadsList = (s.existedThreadsList.set s.currentRunningTid.toNat
      (Slot.thread tr.increaseQuantumElapsed)).set next.toNat
      (Slot.thread ((if next = s.currentRunningTid then tr.increaseQuantumElapsed else tn).setState
        RUNNING)) := by rw [hs1]; rfl
  have e2 : s1.readyTidList = rest := by rw [hs1]; rfl
  have e3 : s1.currentRunningTid = next := by rw [hs1]; rfl
  have e4 : s1.quantumPriorityList = s.quantumPriorityList := by rw [hs1]; rfl
  have e5 : s1.quantityThreads = s.quantityThreads := by rw [hs1]; rfl
  clear hs1
  have hbr := derefAt_bounds hr
  have hbn := derefAt_bounds hn
  have hv : ∀ j, derefAt ((s.existedThreadsList.set s.currentRunningTid.toNat
      (Slot.thread tr.increaseQuantumElapsed)).set next.toNat
      (Slot.thread ((if next = s.currentRunningTid then tr.increaseQuantumElapsed else tn).setState
        RUNNING))) j =
      if j = next then
        some ((if next = s.currentRunningTid then tr.increaseQuantumElapsed else tn).setState
          RUNNING)
      else if j = s.currentRunningTid then some tr.increaseQuantumElapsed
      else derefAt s.existedThreadsList j := by
    intro j
    rw [derefAt_set_thread _ _ _ _ hbn.1 (by rw [List.length_set]; exact hbn.2),
      derefAt_set_thread _ _ _ _ hbr.1 hbr.2]
  have hnodup : (next :: rest).Nodup := hq ▸ h.ready_nodup
  have hnotin : next ∉ rest := (List.nodup_cons.mp hnodup).1
  -- every thread of the new table, the selected one apart, has the state and
  -- the priority it had before
  have hold : ∀ j t, j ≠ next →
      derefAt ((s.existedThreadsList.set s.currentRunningTid.toNat
        (Slot.thread tr.increaseQuantumElapsed)).set next.toNat
        (Slot.thread ((if next = s.currentRunningTid then tr.increaseQuantumElapsed else
          tn).setState RUNNING))) j = some t →
      ∃ t0, derefAt s.existedThreadsList j = some t0 ∧ t0.state = t.state ∧
        t0.priority = t.priority := by
    intro j t hj ht
    rw [hv j] at ht
    simp only [hj, if_false] at ht
    split_ifs at ht with hjr
    · cases ht
      exact ⟨tr, hjr ▸ hr, rfl, rfl⟩
    · exact ⟨t, ht, rfl, rfl⟩
  have hnewprio : ((if next = s.currentRunningTid then tr.increaseQuantumElapsed else
      tn).setState RUNNING).priority = tn.priority := by
    split_ifs with hc
    · rw [hc, hr] at hn
      cases hn
      rfl
    · rfl
  refine
    { quanta_nonempty := e4 ▸ h.quanta_nonempty
      ready_sound := ?_
      ready_complete := ?_
      ready_nodup := e2 ▸ (List.nodup_cons.mp hnodup).2
      main_alive := ?_
      priority_valid := ?_
      count := ?_
      running := ?_
      running_unique := ?_ }
  · intro i hi
    rw [e2] at hi
    have hin : i ≠ next := fun hc => hnotin (hc ▸ hi)
    obtain ⟨t0, ht0, hs0⟩ := h.ready_sound i (by rw [hq]; exact List.mem_cons_of_mem _ hi)
    rw [e1, hv i]
    simp only [hin, if_false]
    split_ifs with hir
    · rw [hir, hr] at ht0
      cases ht0
      exact ⟨_, rfl, hs0⟩
    · exact ⟨t0, ht0, hs0⟩
  · intro i t ht hst
    rw [e1] at ht
    rw [e2]
    by_cases hin : i = next
    · have ht1 := ht
      rw [hv i] at ht1
      simp only [hin, if_true] at ht1
      cases ht1
      simp [Thread.setState] at hst
    · obtain ⟨t0, ht0, hs0, _⟩ := hold i t hin ht
      have := h.ready_complete i t0 ht0 (hs0.trans hst)
      rw [hq] at this
      rcases List.mem_cons.mp this with h1 | h1
      · exact absurd h1 hin
      · exact h1
  · obtain ⟨tm, htm, hsm⟩ := h.main_alive
    rw [e1, hv MAIN_TID]
    by_cases h1 : MAIN_TID = next
    · rw [if_pos h1]
      exact ⟨_, rfl, Or.inr rfl⟩
    · rw [if_neg h1]
      by_cases h2 : MAIN_TID = s.currentRunningTid
      · rw [if_pos h2]
        rw [h2, hr] at htm
        cases htm
        exact ⟨_, rfl, hsm⟩
      · rw [if_neg h2]
        exact ⟨tm, htm, hsm⟩
  · intro i t ht
    rw [e1] at ht
    rw [e4]
    by_cases hin : i = next
    · have ht1 := ht
      rw [hv i] at ht1
      simp only [hin, if_true] at ht1
      cases ht1
      rw [hnewprio]
      exact h.priority_valid _ _ hn
    · obtain ⟨t0, ht0, _, hp0⟩ := hold i t hin ht
      rw [← hp0]
      exact h.priority_valid _ _ ht0
  · rw [e5, e1]
    have hx1 : indexAt (s.existedThreadsList.set s.currentRunningTid.toNat
        (Slot.thread tr.increaseQuantumElapsed)) next =
        some (Slot.thread (if next = s.currentRunningTid then tr.increaseQuantumElapsed else tn)) := by
      rw [indexAt_set _ _ _ _ hbr.1]
      split_ifs with hc
      · rw [derefAt_eq_some.mp hr]; rfl
      · exact derefAt_eq_some.mp hn
    rw [liveCount_set _ _ _ _ hx1, liveCount_set _ _ _ _ (derefAt_eq_some.mp hr), h.count]
    have hrs : tr.increaseQuantumElapsed.state = tr.state := rfl
    have hns : (if next = s.currentRunningTid then tr.increaseQuantumElapsed else tn).state =
        READY := by
      split_ifs with hc
      · rw [hc, hr] at hn
        cases hn
        exact hsn
      · exact hsn
    simp [isLiveSlot, hrs, hns, Thread.setState]
  · rw [e1, e3]
    exact ⟨_, (hv next).trans (if_pos rfl), rfl⟩
  · intro i t ht hst
    rw [e1] at ht
    rw [e3]
    by_contra hin
    obtain ⟨t0, ht0, hs0, _⟩ := hold i t hin ht
    exact h.none_running i t0 ht0 (hs0.trans hst)

theorem changeNextReadyToRunning_wf {s : Lib} (h : WFmid s) :
    ∃ s1, changeNextReadyToRunning s = some s1 ∧ WF s1 := by
  obtain ⟨tr, tn, next, rest, q, hr, hq, hn, hsn, hp⟩ := h.next_exists
  exact ⟨_, changeNextReadyToRunning_eq hr hq hn hp, WF_after_switch h q hr hq hn hsn rfl⟩

end UThreads

namespace UThreads

/-! ## Preservation of the invariant -/

/-- A change of one slot `k` of the table, together with a matching change of
the ready queue and of the live count, keeps the invariant. -/
theorem WF_of_single_slot {s s1 : Lib} (h : WF s) (k : Int) (new : Option Thread)
    (hv : ∀ j, derefAt s1.existedThreadsList j =
      if j = k then new else derefAt s.existedThreadsList j)
    (hquanta : s1.quantumPriorityList = s.quantumPriorityList)
    (hcur : s1.currentRunningTid = s.currentRunningTid)
    (c1 : k = s.currentRunningTid → ∃ t, new = some t ∧ t.state = RUNNING)
    (c2 : ∀ t, new = some t → t.state = RUNNING → k = s.currentRunningTid)
    (c3 : ∀ i, i ∈ s1.readyTidList ↔
      if i = k then (∃ t, new = some t ∧ t.state = READY) else i ∈ s.readyTidList)
    (c4 : s1.readyTidList.Nodup)
    (c5 : k = MAIN_TID → ∃ t, new = some t ∧ (t.state = READY ∨ t.state = RUNNING))
    (c6 : ∀ t, new = some t →
      0 ≤ t.priority ∧ t.priority < (s.quantumPriorityList.length : Int))
    (c7 : s1.quantityThreads = liveCount s1.existedThreadsList) : WF s1 := by
  refine
    { quanta_nonempty := hquanta ▸ h.quanta_nonempty
      ready_sound := ?_
      ready_complete := ?_
      ready_nodup := c4
      main_alive := ?_
      priority_valid := ?_
      count := c7
      running := ?_
      running_unique := ?_ }
  · intro i hi
    have hi1 := (c3 i).mp hi
    rw [hv i]
    by_cases hik : i = k
    · rw [if_pos hik] at hi1 ⊢
      exact hi1
    · rw [if_neg hik] at hi1 ⊢
      exact h.ready_sound i hi1
  · intro i t ht hst
    rw [hv i] at ht
    apply (c3 i).mpr
    by_cases hik : i = k
    · rw [if_pos hik] at ht ⊢
      exact ⟨t, ht, hst⟩
    · rw [if_neg hik] at ht ⊢
      exact h.ready_complete i t ht hst
  · rw [hv MAIN_TID]
    by_cases hik : MAIN_TID = k
    · rw [if_pos hik]
      exact c5 hik.symm
    · rw [if_neg hik]
      exact h.main_alive
  · intro i t ht
    rw [hv i] at ht
    rw [hquanta]
    by_cases hik : i = k
    · rw [if_pos hik] at ht
      exact c6 t ht
    · rw [if_neg hik] at ht
      exact h.priority_valid i t ht
  · rw [hcur, hv]
    by_cases hik : s.currentRunningTid = k
    · rw [if_pos hik]
      exact c1 hik.symm
    · rw [if_neg hik]
      exact h.running
  · intro i t ht hst
    rw [hv i] at ht
    rw [hcur]
    by_cases hik : i = k
    · rw [if_pos hik] at ht
      rw [hik]
      exact c2 t ht hst
    · rw [if_neg hik] at ht
      exact h.running_unique i t ht hst

/-- The running thread leaves the RUNNING state: it becomes READY and joins the
tail of the queue, or (when it is not main) it becomes BLOCKED or TERMINATED. -/
theorem WFmid_of_leave {s s1 : Lib} (h : WF s) (st : Int) (hst : st ≠ RUNNING)
    (hmain : st = READY ∨ s.currentRunningTid ≠ MAIN_TID)
    (hv : updateThread s.existedThreadsList s.currentRunningTid (fun t => t.setState st) =
      some s1.existedThreadsList)
    (hquanta : s1.quantumPriorityList = s.quantumPriorityList)
    (hcur : s1.currentRunningTid = s.currentRunningTid)
    (hready : s1.readyTidList =
      if st = READY then s.readyTidList ++ [s.currentRunningTid] else s.readyTidList)
    (hcount : s1.quantityThreads =
      s.quantityThreads - (if st = TERMINATED then 1 else 0)) : WFmid s1 := by
  obtain ⟨tr, htr, hsr⟩ := h.running
  have hd := derefAt_updateThread hv
  have hnotin : s.currentRunningTid ∉ s.readyTidList := by
    intro hc
    obtain ⟨t, ht, hs⟩ := h.ready_sound _ hc
    rw [htr] at ht
    cases ht
    rw [hsr] at hs
    cases hs
  refine
    { quanta_nonempty := hquanta ▸ h.quanta_nonempty
      ready_sound := ?_
      ready_complete := ?_
      ready_nodup := ?_
      main_alive := ?_
      priority_valid := ?_
      count := ?_
      outgoing := ?_
      none_running := ?_ }
  · intro i hi
    rw [hready] at hi
    rw [hd i]
    by_cases hir : i = s.currentRunningTid
    · rw [if_pos hir, htr]
      by_cases hs : st = READY
      · exact ⟨_, rfl, hs⟩
      · rw [if_neg hs] at hi
        exact absurd (hir ▸ hi) hnotin
    · rw [if_neg hir]
      apply h.ready_sound
      by_cases hs : st = READY
      · rw [if_pos hs] at hi
        rcases List.mem_append.mp hi with h1 | h1
        · exact h1
        · exact absurd (List.mem_singleton.mp h1) hir
      · rw [if_neg hs] at hi
        exact hi
  · intro i t ht hs
    rw [hd i] at ht
    rw [hready]
    by_cases hir : i = s.currentRunningTid
    · rw [if_pos hir, htr] at ht
      cases ht
      have hs1 : st = READY := hs
      rw [if_pos hs1, hir]
      exact List.mem_append_right _ (List.mem_singleton.mpr rfl)
    · rw [if_neg hir] at ht
      have := h.ready_complete i t ht hs
      by_cases hs1 : st = READY
      · rw [if_pos hs1]
        exact List.mem_append_left _ this
      · rw [if_neg hs1]
        exact this
  · rw [hready]
    by_cases hs1 : st = READY
    · rw [if_pos hs1]
      apply List.Nodup.append h.ready_nodup (List.nodup_singleton _)
      intro a ha hb
      exact hnotin (List.mem_singleton.mp hb ▸ ha)
    · rw [if_neg hs1]
      exact h.ready_nodup
  · obtain ⟨tm, htm, hsm⟩ := h.main_alive
    rw [hd MAIN_TID]
    by_cases hir : MAIN_TID = s.currentRunningTid
    · rw [if_pos hir, htr]
      rcases hmain with h1 | h1
      · exact ⟨_, rfl, Or.inl h1⟩
      · exact absurd hir.symm h1
    · rw [if_neg hir]
      exact ⟨tm, htm, hsm⟩
  · intro i t ht
    rw [hd i] at ht
    rw [hquanta]
    by_cases hir : i = s.currentRunningTid
    · rw [if_pos hir, htr] at ht
      cases ht
      exact h.priority_valid _ tr htr
    · rw [if_neg hir] at ht
      exact h.priority_valid i t ht
  · rw [hcount, liveCount_updateThread hv htr, h.count, hsr]
    by_cases hs1 : st = TERMINATED
    · simp [Thread.setState, hs1]
    · simp [Thread.setState, hs1]
  · rw [hcur, hd, if_pos rfl, htr]
    exact ⟨_, rfl⟩
  · intro i t ht
    rw [hd i] at ht
    by_cases hir : i = s.currentRunningTid
    · rw [if_pos hir, htr] at ht
      cases ht
      exact hst
    · rw [if_neg hir] at ht
      intro hc
      exact hir (h.running_unique i t ht hc)

end UThreads

namespace UThreads

theorem WF_sweep {s s1 : Lib} (h : WF s)
    (e1 : s1.existedThreadsList = s.existedThreadsList.map sweepSlot)
    (e2 : s1.readyTidList = s.readyTidList)
    (e3 : s1.currentRunningTid = s.currentRunningTid)
    (e4 : s1.quantumPriorityList = s.quantumPriorityList)
    (e5 : s1.quantityThreads = s.quantityThreads) : WF s1 := by
  have keep : ∀ j t, derefAt s.existedThreadsList j = some t → t.state ≠ TERMINATED →
      derefAt s1.existedThreadsList j = some t := by
    intro j t ht hs
    rw [e1, derefAt_map_sweepSlot, ht]
    simp [hs]
  have back : ∀ j t, derefAt s1.existedThreadsList j = some t →
      derefAt s.existedThreadsList j = some t := by
    intro j t ht
    rw [e1, derefAt_map_sweepSlot] at ht
    cases hd : derefAt s.existedThreadsList j with
    | none => rw [hd] at ht; cases ht
    | some t0 =>
      rw [hd] at ht
      simp only at ht
      split_ifs at ht
      exact ht
  refine
    { quanta_nonempty := e4 ▸ h.quanta_nonempty
      ready_sound := ?_
      ready_complete := ?_
      ready_nodup := e2 ▸ h.ready_nodup
      main_alive := ?_
      priority_valid := ?_
      count := ?_
      running := ?_
      running_unique := ?_ }
  · intro i hi
    obtain ⟨t, ht, hs⟩ := h.ready_sound i (e2 ▸ hi)
    exact ⟨t, keep i t ht (by rw [hs]; decide), hs⟩
  · intro i t ht hs
    rw [e2]
    exact h.ready_complete i t (back i t ht) hs
  · obtain ⟨t, ht, hs⟩ := h.main_alive
    refine ⟨t, keep _ t ht ?_, hs⟩
    rcases hs with h1 | h1 <;> rw [h1] <;> decide
  · intro i t ht
    rw [e4]
    exact h.priority_valid i t (back i t ht)
  · rw [e5, e1, liveCount_map_sweepSlot]
    exact h.count
  · obtain ⟨t, ht, hs⟩ := h.running
    rw [e3]
    exact ⟨t, keep _ t ht (by rw [hs]; decide), hs⟩
  · intro i t ht hs
    rw [e3]
    exact h.running_unique i t (back i t ht) hs

theorem uthread_spawn_failure (MAX_THREAD_NUM : Int) {s : Lib} {f : Option Nat} {p : Int}
    (hfr : Slot.freed ∉ s.existedThreadsList)
    (hc : s.quantityThreads = MAX_THREAD_NUM ∨ isValidPriority s p = false ∨ f = none) :
    uthread_spawn MAX_THREAD_NUM s f p =
      Outcome.ret { s with existedThreadsList := s.existedThreadsList.map sweepSlot } FAILURE := by
  have hvp : isValidPriority
      { s with existedThreadsList := s.existedThreadsList.map sweepSlot } p =
      isValidPriority s p := rfl
  simp only [uthread_spawn, getAvailableTid, checkAndDeleteTerminated, hfr, if_false]
  by_cases hq : s.quantityThreads = MAX_THREAD_NUM
  · simp [hq]
  · simp only [hq, if_false, hvp]
    by_cases hp : isValidPriority s p = true
    · have hf : f = none := by
        rcases hc with h1 | h1 | h1
        · exact absurd h1 hq
        · rw [hp] at h1; cases h1
        · exact h1
      simp [hp, hf]
    · simp [hp]

theorem uthread_spawn_undefined (MAX_THREAD_NUM : Int) {s : Lib} {f : Option Nat} {p : Int}
    (hfr : Slot.freed ∈ s.existedThreadsList) :
    uthread_spawn MAX_THREAD_NUM s f p = Outcome.undefined := by
  simp [uthread_spawn, getAvailableTid, checkAndDeleteTerminated, hfr]

theorem WF.table_ne_nil {s : Lib} (h : WF s) : s.existedThreadsList ≠ [] := by
  obtain ⟨t, ht, _⟩ := h.running
  have hb := derefAt_bounds ht
  intro hc
  rw [hc] at hb
  simp at hb
  omega

/-- The slot that a successful spawn fills held no thread. -/
theorem derefAt_firstNull (v : List Slot) : derefAt v (firstNull v 0) = none := by
  unfold derefAt
  rcases indexAt_firstNull v with h | ⟨_, h⟩ <;> rw [h]

theorem derefAt_spawnTable (v : List Slot) (t : Thread) (j : Int) :
    derefAt (if firstNull v 0 = (v.length : Int) then v ++ [Slot.thread t]
      else v.set (firstNull v 0).toNat (Slot.thread t)) j =
      if j = firstNull v 0 then some t else derefAt v j := by
  have hb := firstNull_bounds v 0
  by_cases he : firstNull v 0 = (v.length : Int)
  · rw [if_pos he, derefAt_append_single, he]
  · rw [if_neg he, derefAt_set_thread _ _ _ _ hb.1 (by omega)]

theorem liveCount_spawnTable (v : List Slot) (t : Thread) (ht : t.state ≠ TERMINATED) :
    liveCount (if firstNull v 0 = (v.length : Int) then v ++ [Slot.thread t]
      else v.set (firstNull v 0).toNat (Slot.thread t)) = liveCount v + 1 := by
  by_cases he : firstNull v 0 = (v.length : Int)
  · rw [if_pos he, liveCount_append_single]
    simp [isLiveSlot, ht]
  · rw [if_neg he]
    rcases indexAt_firstNull v with h | ⟨h, _⟩
    · rw [liveCount_set _ _ _ _ h]
      simp [isLiveSlot, ht]
    · exact absurd h he

theorem uthread_spawn_wf (MAX_THREAD_NUM : Int) {s s1 : Lib} {f : Option Nat} {p v : Int}
    (h : WF s) (hsp : uthread_spawn MAX_THREAD_NUM s f p = Outcome.ret s1 v) : WF s1 := by
  by_cases hfr : Slot.freed ∈ s.existedThreadsList
  · rw [uthread_spawn_undefined MAX_THREAD_NUM hfr] at hsp
    cases hsp
  · by_cases hc : s.quantityThreads = MAX_THREAD_NUM ∨ isValidPriority s p = false ∨ f = none
    · rw [uthread_spawn_failure MAX_THREAD_NUM hfr hc] at hsp
      cases hsp
      exact WF_sweep h rfl rfl rfl rfl rfl
    · simp only [not_or, Bool.not_eq_false] at hc
      obtain ⟨hq, hp, hf⟩ := hc
      rw [uthread_spawn_success MAX_THREAD_NUM hfr hq hp hf h.table_ne_nil] at hsp
      cases hsp
      have hA : WF { s with existedThreadsList := s.existedThreadsList.map sweepSlot } :=
        WF_sweep h rfl rfl rfl rfl rfl
      have hnone := derefAt_firstNull (s.existedThreadsList.map sweepSlot)
      have hlen : ((s.existedThreadsList.map sweepSlot).length : Int) =
          (s.existedThreadsList.length : Int) := by simp
      have hnotin : firstNull (s.existedThreadsList.map sweepSlot) 0 ∉ s.readyTidList := by
        intro hc
        obtain ⟨t, ht, _⟩ := hA.ready_sound _ hc
        rw [hnone] at ht
        cases ht
      apply WF_of_single_slot hA (firstNull (s.existedThreadsList.map sweepSlot) 0)
        (some (Thread.new (firstNull (s.existedThreadsList.map sweepSlot) 0) p READY))
      · intro j
        show derefAt (if _ = _ then _ else _) j = _
        rw [← hlen, derefAt_spawnTable]
      · rfl
      · rfl
      · intro hk
        obtain ⟨t, ht, _⟩ := hA.running
        rw [← hk] at ht
        rw [hnone] at ht
        cases ht
      · intro t ht hs
        cases ht
        simp [Thread.new] at hs
      · intro i
        show i ∈ s.readyTidList ++ [_] ↔ _
        by_cases hik : i = firstNull (s.existedThreadsList.map sweepSlot) 0
        · rw [if_pos hik]
          simp [hik, Thread.new]
        · rw [if_neg hik]
          simp [hik]
      · show (s.readyTidList ++ [_]).Nodup
        apply List.Nodup.append h.ready_nodup (List.nodup_singleton _)
        intro a ha hb
        exact hnotin (List.mem_singleton.mp hb ▸ ha)
      · intro hk
        obtain ⟨t, ht, _⟩ := hA.main_alive
        rw [← hk] at ht
        rw [hnone] at ht
        cases ht
      · intro t ht
        cases ht
        exact (isValidPriority_iff s p h.quanta_nonempty).mp hp
      · show s.quantityThreads + 1 = liveCount (if _ = _ then _ else _)
        rw [← hlen, liveCount_spawnTable _ _ (by simp [Thread.new]), liveCount_map_sweepSlot,
          h.count]

end UThreads

namespace UThreads

theorem isValidTid_cases (s : Lib) (tid : Int) :
    isValidTid s tid = none ∨
      (isValidTid s tid = some false ∧ isLive s tid = false) ∨
      (isValidTid s tid = some true ∧
        ∃ t, derefAt s.existedThreadsList tid = some t ∧ t.state ≠ TERMINATED) := by
  rw [isValidTid_eq]
  by_cases hd : isDangling s tid = true
  · left; simp [hd]
  · right
    cases hl : isLive s tid with
    | false => left; simp [hd]
    | true => right; exact ⟨by simp [hd], isLive_iff.mp hl⟩

theorem mem_filter_ne (l : List Int) (tid i : Int) :
    i ∈ l.filter (fun x => decide (x ≠ tid)) ↔ i ≠ tid ∧ i ∈ l := by
  simp [List.mem_filter, and_comm]

theorem switchThread_eq {s : Lib} (h : WF s) :
    ∃ v sA s1,
      updateThread s.existedThreadsList s.currentRunningTid (fun t => t.setState READY) = some v ∧
      sA = { s with readyTidList := s.readyTidList ++ [s.currentRunningTid]
                    existedThreadsList := v } ∧
      WFmid sA ∧ changeNextReadyToRunning sA = some s1 ∧ WF s1 ∧
      switchThread s = Outcome.switched s1 := by
  obtain ⟨tr, htr, _⟩ := h.running
  have hu := updateThread_eq_some (fun t => t.setState READY) htr
  have hmid : WFmid
      { s with
        readyTidList := s.readyTidList ++ [s.currentRunningTid]
        existedThreadsList := s.existedThreadsList.set s.currentRunningTid.toNat
          (Slot.thread (tr.setState READY)) } :=
    WFmid_of_leave h READY (by decide) (Or.inl rfl) hu rfl rfl (by simp) (by simp)
  obtain ⟨s1, hs1, hwf⟩ := changeNextReadyToRunning_wf hmid
  refine ⟨_, _, s1, hu, rfl, hmid, hs1, hwf, ?_⟩
  simp only [switchThread, changeStateRunningToReady, hu, hs1]

theorem uthread_terminate_self_eq {s : Lib} (h : WF s) (hmain : s.currentRunningTid ≠ MAIN_TID) :
    ∃ v sA s1,
      updateThread s.existedThreadsList s.currentRunningTid (fun t => t.setState TERMINATED) =
        some v ∧
      sA = { s with existedThreadsList := v
                    quantityThreads := s.quantityThreads - 1 } ∧
      WFmid sA ∧ changeNextReadyToRunning sA = some s1 ∧ WF s1 ∧
      uthread_terminate s s.currentRunningTid = Outcome.switched s1 := by
  obtain ⟨tr, htr, hsr⟩ := h.running
  have hlive : isLive s s.currentRunningTid = true :=
    isLive_iff.mpr ⟨tr, htr, by rw [hsr]; decide⟩
  have hu := updateThread_eq_some (fun t => t.setState TERMINATED) htr
  have hmid : WFmid
      { s with
        existedThreadsList := s.existedThreadsList.set s.currentRunningTid.toNat
          (Slot.thread (tr.setState TERMINATED))
        quantityThreads := s.quantityThreads - 1 } :=
    WFmid_of_leave h TERMINATED (by decide) (Or.inr hmain) hu rfl rfl (by simp) (by simp)
  obtain ⟨s1, hs1, hwf⟩ := changeNextReadyToRunning_wf hmid
  refine ⟨_, _, s1, hu, rfl, hmid, hs1, hwf, ?_⟩
  simp only [uthread_terminate, isValidTid_of_isLive hlive, if_true, hmain, if_false,
    terminateCurrentRunningThread, hu, hs1]

theorem uthread_block_self_eq {s : Lib} (h : WF s) (hmain : s.currentRunningTid ≠ MAIN_TID) :
    ∃ v sA s1,
      updateThread s.existedThreadsList s.currentRunningTid (fun t => t.setState BLOCKED) =
        some v ∧
      sA = { s with existedThreadsList := v } ∧
      WFmid sA ∧ changeNextReadyToRunning sA = some s1 ∧ WF s1 ∧
      uthread_block s s.currentRunningTid = Outcome.switched s1 := by
  obtain ⟨tr, htr, hsr⟩ := h.running
  have hlive : isLive s s.currentRunningTid = true :=
    isLive_iff.mpr ⟨tr, htr, by rw [hsr]; decide⟩
  have hu := updateThread_eq_some (fun t => t.setState BLOCKED) htr
  have hmid : WFmid
      { s with
        existedThreadsList := s.existedThreadsList.set s.currentRunningTid.toNat
          (Slot.thread (tr.setState BLOCKED)) } :=
    WFmid_of_leave h BLOCKED (by decide) (Or.inr hmain) hu rfl rfl (by simp) (by simp)
  obtain ⟨s1, hs1, hwf⟩ := changeNextReadyToRunning_wf hmid
  refine ⟨_, _, s1, hu, rfl, hmid, hs1, hwf, ?_⟩
  simp only [uthread_block, isValidTid_of_isLive hlive, hmain, ne_eq, not_false_eq_true,
    and_self, if_true, hu, hs1]

theorem uthread_block_other {s : Lib} {tid : Int} {t : Thread}
    (ht : derefAt s.existedThreadsList tid = some t) (hs : t.state ≠ TERMINATED)
    (hmain : tid ≠ MAIN_TID) (hrun : tid ≠ s.currentRunningTid) :
    uthread_block s tid =
      Outcome.ret
        { s with
          existedThreadsList := s.existedThreadsList.set tid.toNat
            (Slot.thread (t.setState BLOCKED))
          readyTidList := s.readyTidList.filter (fun x => x ≠ tid) } SUCCESS := by
  have hlive : isLive s tid = true := isLive_iff.mpr ⟨t, ht, hs⟩
  have hu := updateThread_eq_some (fun t => t.setState BLOCKED) ht
  simp only [uthread_block, isValidTid_of_isLive hlive, hmain, ne_eq, not_false_eq_true,
    and_self, if_true, hu, hrun, if_false]

theorem uthread_resume_live {s : Lib} {tid : Int} {t : Thread}
    (ht : derefAt s.existedThreadsList tid = some t) (hs : t.state ≠ TERMINATED) :
    uthread_resume s tid =
      if t.state = BLOCKED then
        Outcome.ret
          { s with
            existedThreadsList := s.existedThreadsList.set tid.toNat
              (Slot.thread (t.setState READY))
            readyTidList := s.readyTidList ++ [tid] } SUCCESS
      else Outcome.ret s SUCCESS := by
  have hlive : isLive s tid = true := isLive_iff.mpr ⟨t, ht, hs⟩
  have hu := updateThread_eq_some (fun t => t.setState READY) ht
  simp only [uthread_resume, isValidTid_of_isLive hlive, if_true, ht, Thread.getState, hu]

theorem uthread_change_priority_live {s : Lib} {tid priority : Int} {t : Thread}
    (ht : derefAt s.existedThreadsList tid = some t) (hs : t.state ≠ TERMINATED) :
    uthread_change_priority s tid priority =
      if isValidPriority s priority = true then
        Outcome.ret
          { s with
            existedThreadsList := s.existedThreadsList.set tid.toNat
              (Slot.thread (t.setPriority priority)) } SUCCESS
      else Outcome.ret s FAILURE := by
  have hlive : isLive s tid = true := isLive_iff.mpr ⟨t, ht, hs⟩
  have hu := updateThread_eq_some (fun t => t.setPriority priority) ht
  by_cases hp : isValidPriority s priority = true
  · simp [uthread_change_priority, isValidTid_of_isLive hlive, hp, hu]
  · simp [uthread_change_priority, isValidTid_of_isLive hlive, hp]

end UThreads

namespace UThreads

theorem WF_terminate_other {s : Lib} (h : WF s) {tid : Int} {t : Thread}
    (ht : derefAt s.existedThreadsList tid = some t) (hs : t.state ≠ TERMINATED)
    (hmain : tid ≠ MAIN_TID) (hrun : tid ≠ s.currentRunningTid) :
    WF { s with
          readyTidList :=
            if t.state = READY then s.readyTidList.filter (fun x => x ≠ tid) else s.readyTidList
          existedThreadsList := s.existedThreadsList.set tid.toNat Slot.null
          quantityThreads := s.quantityThreads - 1 } := by
  have hb := derefAt_bounds ht
  apply WF_of_single_slot h tid none
  · intro j
    exact derefAt_set_null _ _ _ hb.1
  · rfl
  · rfl
  · intro hc
    exact absurd hc hrun
  · intro t1 h1
    cases h1
  · intro i
    show i ∈ (if t.state = READY then s.readyTidList.filter (fun x => x ≠ tid)
      else s.readyTidList) ↔ _
    by_cases hik : i = tid
    · rw [if_pos hik]
      simp only [false_and, exists_false, iff_false, reduceCtorEq]
      by_cases hr : t.state = READY
      · rw [if_pos hr, mem_filter_ne]
        exact fun hc => hc.1 hik
      · rw [if_neg hr]
        intro hc
        obtain ⟨t1, ht1, hs1⟩ := h.ready_sound i hc
        rw [hik, ht] at ht1
        cases ht1
        exact hr hs1
    · rw [if_neg hik]
      by_cases hr : t.state = READY
      · rw [if_pos hr, mem_filter_ne]
        exact ⟨fun hc => hc.2, fun hc => ⟨hik, hc⟩⟩
      · rw [if_neg hr]
  · show (if t.state = READY then s.readyTidList.filter (fun x => x ≠ tid)
      else s.readyTidList).Nodup
    split_ifs
    · exact h.ready_nodup.filter _
    · exact h.ready_nodup
  · intro hc
    exact absurd hc hmain
  · intro t1 h1
    cases h1
  · show s.quantityThreads - 1 = liveCount (s.existedThreadsList.set tid.toNat Slot.null)
    rw [liveCount_set _ _ _ _ (derefAt_eq_some.mp ht), h.count]
    simp [isLiveSlot, hs]

theorem WF_block_other {s : Lib} (h : WF s) {tid : Int} {t : Thread}
    (ht : derefAt s.existedThreadsList tid = some t) (hs : t.state ≠ TERMINATED)
    (hrun : tid ≠ s.currentRunningTid) (hmain : tid ≠ MAIN_TID) :
    WF { s with
          existedThreadsList := s.existedThreadsList.set tid.toNat
            (Slot.thread (t.setState BLOCKED))
          readyTidList := s.readyTidList.filter (fun x => x ≠ tid) } := by
  have hb := derefAt_bounds ht
  apply WF_of_single_slot h tid (some (t.setState BLOCKED))
  · intro j
    exact derefAt_set_thread _ _ _ _ hb.1 hb.2
  · rfl
  · rfl
  · intro hc
    exact absurd hc hrun
  · intro t1 h1 h2
    cases h1
    simp [Thread.setState] at h2
  · intro i
    show i ∈ s.readyTidList.filter (fun x => x ≠ tid) ↔ _
    rw [mem_filter_ne]
    by_cases hik : i = tid
    · rw [if_pos hik]
      simp [hik, Thread.setState]
    · rw [if_neg hik]
      exact ⟨fun hc => hc.2, fun hc => ⟨hik, hc⟩⟩
  · exact h.ready_nodup.filter _
  · intro hc
    exact absurd hc hmain
  · intro t1 h1
    cases h1
    exact h.priority_valid _ t ht
  · show s.quantityThreads = liveCount (s.existedThreadsList.set tid.toNat _)
    rw [liveCount_set _ _ _ _ (derefAt_eq_some.mp ht), h.count]
    simp [isLiveSlot, hs, Thread.setState]

theorem WF_resume_blocked {s : Lib} (h : WF s) {tid : Int} {t : Thread}
    (ht : derefAt s.existedThreadsList tid = some t) (hs : t.state = BLOCKED) :
    WF { s with
          existedThreadsList := s.existedThreadsList.set tid.toNat
            (Slot.thread (t.setState READY))
          readyTidList := s.readyTidList ++ [tid] } := by
  have hb := derefAt_bounds ht
  have hnotin : tid ∉ s.readyTidList := by
    intro hc
    obtain ⟨t1, ht1, hs1⟩ := h.ready_sound tid hc
    rw [ht] at ht1
    cases ht1
    rw [hs] at hs1
    cases hs1
  apply WF_of_single_slot h tid (some (t.setState READY))
  · intro j
    exact derefAt_set_thread _ _ _ _ hb.1 hb.2
  · rfl
  · rfl
  · intro hc
    obtain ⟨t1, ht1, hs1⟩ := h.running
    rw [← hc, ht] at ht1
    cases ht1
    rw [hs] at hs1
    cases hs1
  · intro t1 h1 h2
    cases h1
    simp [Thread.setState] at h2
  · intro i
    show i ∈ s.readyTidList ++ [tid] ↔ _
    by_cases hik : i = tid
    · rw [if_pos hik]
      simp [hik, Thread.setState]
    · rw [if_neg hik]
      simp [hik]
  · show (s.readyTidList ++ [tid]).Nodup
    apply List.Nodup.append h.ready_nodup (List.nodup_singleton _)
    intro a ha hb1
    exact hnotin (List.mem_singleton.mp hb1 ▸ ha)
  · intro _
    exact ⟨_, rfl, Or.inl rfl⟩
  · intro t1 h1
    cases h1
    exact h.priority_valid _ t ht
  · show s.quantityThreads = liveCount (s.existedThreadsList.set tid.toNat _)
    rw [liveCount_set _ _ _ _ (derefAt_eq_some.mp ht), h.count]
    simp [isLiveSlot, hs, Thread.setState]

theorem WF_change_priority {s : Lib} (h : WF s) {tid priority : Int} {t : Thread}
    (ht : derefAt s.existedThreadsList tid = some t)
    (hp : isValidPriority s priority = true) :
    WF { s with
          existedThreadsList := s.existedThreadsList.set tid.toNat
            (Slot.thread (t.setPriority priority)) } := by
  have hb := derefAt_bounds ht
  apply WF_of_single_slot h tid (some (t.setPriority priority))
  · intro j
    exact derefAt_set_thread _ _ _ _ hb.1 hb.2
  · rfl
  · rfl
  · intro hc
    obtain ⟨t1, ht1, hs1⟩ := h.running
    rw [← hc, ht] at ht1
    cases ht1
    exact ⟨_, rfl, hs1⟩
  · intro t1 h1 h2
    cases h1
    exact h.running_unique tid t ht h2
  · intro i
    show i ∈ s.readyTidList ↔ _
    by_cases hik : i = tid
    · rw [if_pos hik, hik]
      constructor
      · intro hc
        obtain ⟨t1, ht1, hs1⟩ := h.ready_sound tid hc
        rw [ht] at ht1
        cases ht1
        exact ⟨_, rfl, hs1⟩
      · rintro ⟨t1, h1, h2⟩
        cases h1
        exact h.ready_complete tid t ht h2
    · rw [if_neg hik]
  · exact h.ready_nodup
  · intro hc
    obtain ⟨t1, ht1, hs1⟩ := h.main_alive
    rw [← hc, ht] at ht1
    cases ht1
    exact ⟨_, rfl, hs1⟩
  · intro t1 h1
    cases h1
    exact (isValidPriority_iff s priority h.quanta_nonempty).mp hp
  · show s.quantityThreads = liveCount (s.existedThreadsList.set tid.toNat _)
    rw [liveCount_set _ _ _ _ (derefAt_eq_some.mp ht), h.count]
    by_cases hs : t.state = TERMINATED <;> simp [isLiveSlot, hs, Thread.setPriority]

end UThreads

namespace UThreads

theorem state?_ret {s s1 : Lib} {v : Int} (h : (Outcome.ret s v).state? = some s1) : s = s1 := by
  simpa [Outcome.state?] using h

theorem state?_switched {s s1 : Lib} (h : (Outcome.switched s).state? = some s1) : s = s1 := by
  simpa [Outcome.state?] using h

theorem uthread_spawn_state_wf (MAX_THREAD_NUM : Int) {s s1 : Lib} {f : Option Nat} {p : Int}
    (h : WF s) (hsp : (uthread_spawn MAX_THREAD_NUM s f p).state? = some s1) : WF s1 := by
  cases ho : uthread_spawn MAX_THREAD_NUM s f p with
  | ret s2 v =>
    rw [ho] at hsp
    exact state?_ret hsp ▸ uthread_spawn_wf MAX_THREAD_NUM h ho
  | switched s2 =>
    exfalso
    by_cases hfr : Slot.freed ∈ s.existedThreadsList
    · rw [uthread_spawn_undefined MAX_THREAD_NUM hfr] at ho
      cases ho
    · by_cases hc : s.quantityThreads = MAX_THREAD_NUM ∨ isValidPriority s p = false ∨ f = none
      · rw [uthread_spawn_failure MAX_THREAD_NUM hfr hc] at ho
        cases ho
      · simp only [not_or, Bool.not_eq_false] at hc
        rw [uthread_spawn_success MAX_THREAD_NUM hfr hc.1 hc.2.1 hc.2.2 h.table_ne_nil] at ho
        cases ho
  | exited c => rw [ho] at hsp; cases hsp
  | undefined => rw [ho] at hsp; cases hsp

theorem uthread_change_priority_state_wf {s s1 : Lib} {tid priority : Int}
    (h : WF s) (hsp : (uthread_change_priority s tid priority).state? = some s1) : WF s1 := by
  rcases isValidTid_cases s tid with hv | ⟨hv, _⟩ | ⟨hv, t, ht, hs⟩
  · simp [uthread_change_priority, hv, Outcome.state?] at hsp
  · rw [uthread_change_priority_of_invalid _ hv] at hsp
    exact state?_ret hsp ▸ h
  · rw [uthread_change_priority_live ht hs] at hsp
    by_cases hp : isValidPriority s priority = true
    · rw [if_pos hp] at hsp
      exact state?_ret hsp ▸ WF_change_priority h ht hp
    · rw [if_neg hp] at hsp
      exact state?_ret hsp ▸ h

theorem uthread_terminate_state_wf {s s1 : Lib} {tid : Int}
    (h : WF s) (hsp : (uthread_terminate s tid).state? = some s1) : WF s1 := by
  rcases isValidTid_cases s tid with hv | ⟨hv, _⟩ | ⟨hv, t, ht, hs⟩
  · simp [uthread_terminate, hv, Outcome.state?] at hsp
  · simp only [uthread_terminate, hv] at hsp
    exact state?_ret hsp ▸ h
  · by_cases hmain : tid = MAIN_TID
    · exfalso
      subst hmain
      simp only [uthread_terminate, hv, if_true, terminateMainThread] at hsp
      split at hsp <;> cases hsp
    · by_cases hrun : tid = s.currentRunningTid
      · obtain ⟨_, _, s2, _, _, _, _, hwf, heq⟩ := uthread_terminate_self_eq h (hrun ▸ hmain)
        rw [hrun, heq] at hsp
        exact state?_switched hsp ▸ hwf
      · rw [uthread_terminate_other ht hs hmain hrun] at hsp
        exact state?_ret hsp ▸ WF_terminate_other h ht hs hmain hrun

theorem uthread_block_state_wf {s s1 : Lib} {tid : Int}
    (h : WF s) (hsp : (uthread_block s tid).state? = some s1) : WF s1 := by
  rcases isValidTid_cases s tid with hv | ⟨hv, _⟩ | ⟨hv, t, ht, hs⟩
  · simp [uthread_block, hv, Outcome.state?] at hsp
  · simp only [uthread_block, hv] at hsp
    exact state?_ret (by simpa using hsp) ▸ h
  · by_cases hmain : tid = MAIN_TID
    · subst hmain
      simp only [uthread_block, hv] at hsp
      exact state?_ret (by simpa using hsp) ▸ h
    · by_cases hrun : tid = s.currentRunningTid
      · obtain ⟨_, _, s2, _, _, _, _, hwf, heq⟩ := uthread_block_self_eq h (hrun ▸ hmain)
        rw [hrun, heq] at hsp
        exact state?_switched hsp ▸ hwf
      · rw [uthread_block_other ht hs hmain hrun] at hsp
        exact state?_ret hsp ▸ WF_block_other h ht hs hrun hmain

theorem uthread_resume_state_wf {s s1 : Lib} {tid : Int}
    (h : WF s) (hsp : (uthread_resume s tid).state? = some s1) : WF s1 := by
  rcases isValidTid_cases s tid with hv | ⟨hv, _⟩ | ⟨hv, t, ht, hs⟩
  · simp [uthread_resume, hv, Outcome.state?] at hsp
  · simp only [uthread_resume, hv] at hsp
    exact state?_ret (by simpa using hsp) ▸ h
  · rw [uthread_resume_live ht hs] at hsp
    by_cases hb : t.state = BLOCKED
    · rw [if_pos hb] at hsp
      exact state?_ret hsp ▸ WF_resume_blocked h ht hb
    · rw [if_neg hb] at hsp
      exact state?_ret hsp ▸ h

/-- Every event keeps the scheduler invariant. -/
theorem step_wf (MAX_THREAD_NUM : Int) {s s1 : Lib} (e : Event) (h : WF s)
    (hs : (step MAX_THREAD_NUM s e).state? = some s1) : WF s1 := by
  cases e with
  | expiry =>
    obtain ⟨_, _, s2, _, _, _, _, hwf, heq⟩ := switchThread_eq h
    simp only [step, heq] at hs
    exact state?_switched hs ▸ hwf
  | spawn f p => exact uthread_spawn_state_wf MAX_THREAD_NUM h hs
  | change_priority tid p => exact uthread_change_priority_state_wf h hs
  | terminate tid => exact uthread_terminate_state_wf h hs
  | block tid => exact uthread_block_state_wf h hs
  | resume tid => exact uthread_resume_state_wf h hs

/-- A successful `uthread_init` establishes the scheduler invariant. -/
theorem uthread_init_wf {quantum_usecs : Nat → Int} {size : Int} {s : Lib}
    (h : uthread_init Lib.initial quantum_usecs size = Outcome.ret s SUCCESS) : WF s := by
  cases hv : isValidQuantum quantum_usecs size with
  | false =>
    rw [uthread_init_invalid _ _ _ hv] at h
    cases h
  | true =>
    rw [uthread_init_valid _ _ hv] at h
    cases h
    have hs : 0 < size := by
      by_contra hc
      have : isValidQuantum quantum_usecs size = false :=
        (isValidQuantum_eq_false_iff _ _).mpr (Or.inl (by omega))
      rw [this] at hv
      cases hv
    have hpos : 0 < size.toNat := by omega
    have hd : ∀ j t, derefAt [Slot.thread (Thread.new MAIN_TID 0 RUNNING)] j = some t →
        j = MAIN_TID ∧ t = Thread.new MAIN_TID 0 RUNNING := by
      intro j t ht
      have hb := derefAt_bounds ht
      simp only [List.length_singleton, Nat.cast_one] at hb
      have hj : j = 0 := by omega
      subst hj
      exact ⟨rfl, by cases ht; rfl⟩
    refine
      { quanta_nonempty := ?_
        ready_sound := ?_
        ready_complete := ?_
        ready_nodup := List.nodup_nil
        main_alive := ⟨_, rfl, Or.inr rfl⟩
        priority_valid := ?_
        count := rfl
        running := ⟨_, rfl, rfl⟩
        running_unique := ?_ }
    · show (List.range size.toNat).map quantum_usecs ≠ []
      apply List.ne_nil_of_length_pos
      simpa using hpos
    · intro i hi
      cases hi
    · intro i t ht hst
      obtain ⟨_, rfl⟩ := hd i t ht
      simp [Thread.new] at hst
    · intro i t ht
      obtain ⟨_, rfl⟩ := hd i t ht
      show 0 ≤ (0 : Int) ∧ (0 : Int) < (((List.range size.toNat).map quantum_usecs).length : Int)
      simp only [List.length_map, List.length_range]
      omega
    · intro i t ht _
      exact (hd i t ht).1

theorem Hist.step_lib {MAX_THREAD_NUM : Int} {h h1 : Hist} {e : Event}
    (hs : h.step MAX_THREAD_NUM e = some h1) :
    (UThreads.step MAX_THREAD_NUM h.lib e).state? = some h1.lib := by
  unfold Hist.step at hs
  cases ho : UThreads.step MAX_THREAD_NUM h.lib e with
  | ret s v =>
    rw [ho] at hs
    simp only at hs
    split at hs <;> cases hs <;> rfl
  | switched s => rw [ho] at hs; cases hs; rfl
  | exited c => rw [ho] at hs; cases hs
  | undefined => rw [ho] at hs; cases hs

theorem Hist.run_wf {MAX_THREAD_NUM : Int} {es : List Event} {h h1 : Hist}
    (hw : WF h.lib) (hr : h.run MAX_THREAD_NUM es = some h1) : WF h1.lib := by
  induction es generalizing h with
  | nil =>
    cases hr
    exact hw
  | cons e es ih =>
    simp only [Hist.run] at hr
    cases hst : h.step MAX_THREAD_NUM e with
    | none => rw [hst] at hr; cases hr
    | some h2 =>
      rw [hst] at hr
      exact ih (step_wf MAX_THREAD_NUM e hw (Hist.step_lib hst)) hr

/-- Every reachable state satisfies the scheduler invariant. -/
theorem Reachable.wf {MAX_THREAD_NUM : Int} {s : Lib} (h : Reachable MAX_THREAD_NUM s) : WF s := by
  obtain ⟨h1, ⟨q, size, s0, es, hinit, hrun⟩, rfl⟩ := h
  exact Hist.run_wf (uthread_init_wf hinit) hrun

end UThreads

namespace UThreads

/-! ## Round robin -/

theorem changeNextReadyToRunning_fields {s s1 : Lib} (h : changeNextReadyToRunning s = some s1) :
    ∃ next rest, s.readyTidList = next :: rest ∧ s1.currentRunningTid = next ∧
      s1.readyTidList = rest ∧ s1.totalQuantumElapsed = toInt (s.totalQuantumElapsed + 1) ∧
      s1.quantityThreads = s.quantityThreads ∧
      s1.quantumPriorityList = s.quantumPriorityList ∧
      s1.handlerInstalled = s.handlerInstalled := by
  unfold changeNextReadyToRunning at h
  split at h
  · cases h
  · split at h
    · cases h
    · rename_i next rest hq
      split at h
      · cases h
      · split at h
        · cases h
        · split at h
          · cases h
          · cases h
            exact ⟨next, rest, hq, rfl, rfl, rfl, rfl, rfl, rfl⟩

/-- A quantum expiry from a state that satisfies the invariant: the outgoing
thread joins the tail of the queue and the head of the queue runs. -/
theorem switchThread_queue {s : Lib} (h : WF s) :
    ∃ s1, switchThread s = Outcome.switched s1 ∧ WF s1 ∧
      s1.currentRunningTid :: s1.readyTidList = s.readyTidList ++ [s.currentRunningTid] ∧
      s1.totalQuantumElapsed = toInt (s.totalQuantumElapsed + 1) ∧
      s1.quantityThreads = s.quantityThreads := by
  obtain ⟨v, sA, s1, _, hsA, _, hnext, hwf, heq⟩ := switchThread_eq h
  obtain ⟨next, rest, hq, hc, hr, ht, hn, _, _⟩ := changeNextReadyToRunning_fields hnext
  refine ⟨s1, heq, hwf, ?_, ?_, ?_⟩
  · rw [hc, hr, ← hq, hsA]
  · rw [ht, hsA]
  · rw [hn, hsA]

theorem runningAfterExpiries_take (n : Nat) (s : Lib) (h : WF s)
    (hn : n ≤ s.readyTidList.length) :
    runningAfterExpiries n s = s.readyTidList.take n := by
  induction n generalizing s with
  | zero => simp [runningAfterExpiries]
  | succ n ih =>
    obtain ⟨s1, heq, hwf, hq, _, _⟩ := switchThread_queue h
    cases hl : s.readyTidList with
    | nil => rw [hl] at hn; simp at hn
    | cons t1 rest =>
      rw [hl] at hq hn
      simp only [List.cons_append, List.cons.injEq] at hq
      simp only [List.length_cons, Nat.add_le_add_iff_right] at hn
      simp only [runningAfterExpiries, heq, List.take_succ_cons]
      rw [hq.1, ih s1 hwf (by rw [hq.2]; simp; omega), hq.2, List.take_append_of_le_length hn]

theorem exampleHist_reachable (es : List Event)
    (hne : (exampleHist es).lib.quantityThreads ≠ 0) :
    Hist.Reachable 100 (exampleHist es) := by
  have hinit := uthread_init_valid exampleQuanta 2 (by decide)
  unfold exampleHist at hne ⊢
  rw [hinit] at hne ⊢
  simp only [Outcome.state?] at hne ⊢
  cases hrun : (Hist.start (setTimer
      { Lib.initial with
        quantumPriorityList := (List.range (2 : Int).toNat).map exampleQuanta
        handlerInstalled := true
        existedThreadsList := [Slot.thread (Thread.new MAIN_TID 0 RUNNING)]
        quantityThreads := 1 } (exampleQuanta 0))).run 100 es with
  | none =>
    rw [hrun] at hne
    exact absurd rfl hne
  | some h => exact ⟨exampleQuanta, 2, _, es, hinit, hrun⟩

theorem exampleRun_reachable (es : List Event) (hne : (exampleRun es).quantityThreads ≠ 0) :
    Reachable 100 (exampleRun es) :=
  ⟨exampleHist es, exampleHist_reachable es hne, rfl⟩

/-- C3: from a reachable state whose ready queue is `[t1, ..., tN]`, `N`
consecutive quantum expiries are all defined and the identities that run after
them are `t1, ..., tN` in this order, whatever the priorities; the queue holds
no identity twice, so each of them runs exactly once. -/
theorem round_robin_order (MAX_THREAD_NUM : Int) (s : Lib) (hr : Reachable MAX_THREAD_NUM s) :
    runningAfterExpiries s.readyTidList.length s = s.readyTidList ∧
      s.readyTidList.Nodup ∧
      ∀ k, k < s.readyTidList.length →
        (runningAfterExpiries s.readyTidList.length s)[k]? = s.readyTidList[k]? := by
  have hw := hr.wf
  have h1 := runningAfterExpiries_take s.readyTidList.length s hw (le_refl _)
  rw [List.take_length] at h1
  exact ⟨h1, hw.ready_nodup, fun k _ => by rw [h1]⟩

theorem round_robin_order_witness :
    exampleTwoSpawned.readyTidList = [1, 2] ∧
      runningAfterExpiries exampleTwoSpawned.readyTidList.length exampleTwoSpawned =
        exampleTwoSpawned.readyTidList ∧
      exampleTwoSpawned.readyTidList.Nodup ∧
      ∀ k, k < exampleTwoSpawned.readyTidList.length →
        (runningAfterExpiries exampleTwoSpawned.readyTidList.length exampleTwoSpawned)[k]? =
          exampleTwoSpawned.readyTidList[k]? :=
  ⟨by decide, round_robin_order 100 exampleTwoSpawned (exampleRun_reachable _ (by decide))⟩

end UThreads

namespace UThreads

/-! ## The effect of an event on the counters -/

theorem KeepsQuanta.refl (s : Lib) : KeepsQuanta s s none :=
  { current := rfl
    total := rfl
    threads := fun _ t1 ht hs => Or.inr ⟨by simp, t1, ht, hs, rfl⟩ }

theorem KeepsQuanta_of_single_slot {s s1 : Lib} (k : Int) (new : Option Thread)
    (hv : ∀ j, derefAt s1.existedThreadsList j =
      if j = k then new else derefAt s.existedThreadsList j)
    (hcur : s1.currentRunningTid = s.currentRunningTid)
    (htot : s1.totalQuantumElapsed = s.totalQuantumElapsed)
    (hnew : ∀ t1, new = some t1 → ∃ t, derefAt s.existedThreadsList k = some t ∧
      t.state ≠ TERMINATED ∧ t1.quantum_elapsed = t.quantum_elapsed) :
    KeepsQuanta s s1 none := by
  refine { current := hcur, total := htot, threads := ?_ }
  intro j t1 ht hs
  right
  refine ⟨by simp, ?_⟩
  rw [hv j] at ht
  by_cases hjk : j = k
  · rw [if_pos hjk] at ht
    rw [hjk]
    exact hnew t1 ht
  · rw [if_neg hjk] at ht
    exact ⟨t1, ht, hs, rfl⟩

theorem derefAt_sweep_back {v : List Slot} {j : Int} {t : Thread}
    (h : derefAt (v.map sweepSlot) j = some t) : derefAt v j = some t := by
  rw [derefAt_map_sweepSlot] at h
  cases hd : derefAt v j with
  | none => rw [hd] at h; cases h
  | some t0 =>
    rw [hd] at h
    simp only at h
    split_ifs at h
    exact h

theorem uthread_spawn_keeps (MAX_THREAD_NUM : Int) {s s1 : Lib} {f : Option Nat} {p v : Int}
    (h : WF s) (hsp : uthread_spawn MAX_THREAD_NUM s f p = Outcome.ret s1 v) :
    KeepsQuanta s s1 (if v = FAILURE then none else some v) := by
  by_cases hfr : Slot.freed ∈ s.existedThreadsList
  · rw [uthread_spawn_undefined MAX_THREAD_NUM hfr] at hsp
    cases hsp
  · by_cases hc : s.quantityThreads = MAX_THREAD_NUM ∨ isValidPriority s p = false ∨ f = none
    · rw [uthread_spawn_failure MAX_THREAD_NUM hfr hc] at hsp
      cases hsp
      rw [if_pos rfl]
      refine { current := rfl, total := rfl, threads := ?_ }
      intro j t1 ht hs
      exact Or.inr ⟨by simp, t1, derefAt_sweep_back ht, hs, rfl⟩
    · simp only [not_or, Bool.not_eq_false] at hc
      rw [uthread_spawn_success MAX_THREAD_NUM hfr hc.1 hc.2.1 hc.2.2 h.table_ne_nil] at hsp
      cases hsp
      have hb := firstNull_bounds (s.existedThreadsList.map sweepSlot) 0
      have hnf : firstNull (s.existedThreadsList.map sweepSlot) 0 ≠ FAILURE := by
        intro hc1; rw [hc1] at hb; simp at hb
      have hlen : ((s.existedThreadsList.map sweepSlot).length : Int) =
          (s.existedThreadsList.length : Int) := by simp
      rw [if_neg hnf]
      refine { current := rfl, total := rfl, threads := ?_ }
      intro j t1 ht hs
      have ht1 : derefAt (if _ = _ then _ else _) j = some t1 := ht
      rw [← hlen, derefAt_spawnTable] at ht1
      by_cases hj : j = firstNull (s.existedThreadsList.map sweepSlot) 0
      · left
        rw [if_pos hj] at ht1
        cases ht1
        refine ⟨by rw [hj], rfl, ?_⟩
        intro hcur
        obtain ⟨tr, htr, hsr⟩ := h.running
        have hnone := derefAt_firstNull (s.existedThreadsList.map sweepSlot)
        rw [← hj, hcur, derefAt_map_sweepSlot, htr] at hnone
        simp [hsr] at hnone
      · right
        rw [if_neg hj] at ht1
        refine ⟨?_, t1, derefAt_sweep_back ht1, hs, rfl⟩
        intro hc1
        exact hj (Option.some.inj hc1).symm

theorem step_ret_effect (MAX_THREAD_NUM : Int) {s s1 : Lib} {v : Int} (e : Event) (h : WF s)
    (hs : step MAX_THREAD_NUM s e = Outcome.ret s1 v) :
    KeepsQuanta s s1 (freshTid e v) ∧ isSchedulingEvent s e = false := by
  obtain ⟨tr, htr, hsr⟩ := h.running
  have hrlive : isLive s s.currentRunningTid = true :=
    isLive_iff.mpr ⟨tr, htr, by rw [hsr]; decide⟩
  cases e with
  | expiry =>
    obtain ⟨_, _, s2, _, _, _, _, _, heq⟩ := switchThread_eq h
    simp only [step, heq] at hs
    cases hs
  | spawn f p => exact ⟨uthread_spawn_keeps MAX_THREAD_NUM h hs, rfl⟩
  | change_priority tid p =>
    refine ⟨?_, rfl⟩
    simp only [step] at hs
    simp only [freshTid]
    rcases isValidTid_cases s tid with hv | ⟨hv, _⟩ | ⟨hv, t, ht, hst⟩
    · simp [uthread_change_priority, hv] at hs
    · rw [uthread_change_priority_of_invalid _ hv] at hs
      cases hs
      exact KeepsQuanta.refl s
    · rw [uthread_change_priority_live ht hst] at hs
      split_ifs at hs
      · cases hs
        have hb := derefAt_bounds ht
        exact KeepsQuanta_of_single_slot tid (some (t.setPriority p))
          (fun j => derefAt_set_thread _ _ _ _ hb.1 hb.2) rfl rfl
          (fun t1 h1 => by cases h1; exact ⟨t, ht, hst, rfl⟩)
      · cases hs
        exact KeepsQuanta.refl s
  | terminate tid =>
    simp only [step] at hs
    simp only [freshTid, isSchedulingEvent]
    rcases isValidTid_cases s tid with hv | ⟨hv, hl⟩ | ⟨hv, t, ht, hst⟩
    · simp [uthread_terminate, hv] at hs
    · simp only [uthread_terminate, hv] at hs
      cases hs
      refine ⟨KeepsQuanta.refl s, ?_⟩
      have : tid ≠ s.currentRunningTid := by
        intro hc; rw [hc, hrlive] at hl; cases hl
      simp [this]
    · by_cases hmain : tid = MAIN_TID
      · simp [hmain]
        subst hmain
        simp only [uthread_terminate, hv, if_true, terminateMainThread] at hs
        split at hs <;> cases hs
      · by_cases hrun : tid = s.currentRunningTid
        · obtain ⟨_, _, s2, _, _, _, _, _, heq⟩ := uthread_terminate_self_eq h (hrun ▸ hmain)
          rw [hrun, heq] at hs
          cases hs
        · rw [uthread_terminate_other ht hst hmain hrun] at hs
          cases hs
          have hb := derefAt_bounds ht
          refine ⟨KeepsQuanta_of_single_slot tid none
            (fun j => derefAt_set_null _ _ _ hb.1) rfl rfl (fun t1 h1 => by cases h1), ?_⟩
          simp [hrun]
  | block tid =>
    simp only [step] at hs
    simp only [freshTid, isSchedulingEvent]
    rcases isValidTid_cases s tid with hv | ⟨hv, hl⟩ | ⟨hv, t, ht, hst⟩
    · simp [uthread_block, hv] at hs
    · simp only [uthread_block, hv] at hs
      simp at hs
      cases hs.1
      refine ⟨KeepsQuanta.refl s, ?_⟩
      have : tid ≠ s.currentRunningTid := by
        intro hc; rw [hc, hrlive] at hl; cases hl
      simp [this]
    · by_cases hmain : tid = MAIN_TID
      · simp [hmain]
        subst hmain
        simp only [uthread_block, hv] at hs
        simp at hs
        cases hs.1
        exact KeepsQuanta.refl s
      · by_cases hrun : tid = s.currentRunningTid
        · obtain ⟨_, _, s2, _, _, _, _, _, heq⟩ := uthread_block_self_eq h (hrun ▸ hmain)
          rw [hrun, heq] at hs
          cases hs
        · rw [uthread_block_other ht hst hmain hrun] at hs
          cases hs
          have hb := derefAt_bounds ht
          refine ⟨KeepsQuanta_of_single_slot tid (some (t.setState BLOCKED))
            (fun j => derefAt_set_thread _ _ _ _ hb.1 hb.2) rfl rfl
            (fun t1 h1 => by cases h1; exact ⟨t, ht, hst, rfl⟩), ?_⟩
          simp [hrun]
  | resume tid =>
    refine ⟨?_, rfl⟩
    simp only [step] at hs
    simp only [freshTid]
    rcases isValidTid_cases s tid with hv | ⟨hv, _⟩ | ⟨hv, t, ht, hst⟩
    · simp [uthread_resume, hv] at hs
    · simp only [uthread_resume, hv] at hs
      simp at hs
      cases hs.1
      exact KeepsQuanta.refl s
    · rw [uthread_resume_live ht hst] at hs
      split_ifs at hs
      · cases hs
        have hb := derefAt_bounds ht
        exact KeepsQuanta_of_single_slot tid (some (t.setState READY))
          (fun j => derefAt_set_thread _ _ _ _ hb.1 hb.2) rfl rfl
          (fun t1 h1 => by cases h1; exact ⟨t, ht, hst, rfl⟩)
      · cases hs
        exact KeepsQuanta.refl s

end UThreads

namespace UThreads

theorem derefAt_switchTable {v : List Slot} {r next : Int} {tr tn : Thread}
    (hr : derefAt v r = some tr) (hn : derefAt v next = some tn) (x y : Thread) (j : Int) :
    derefAt ((v.set r.toNat (Slot.thread x)).set next.toNat (Slot.thread y)) j =
      if j = next then some y else if j = r then some x else derefAt v j := by
  have hbr := derefAt_bounds hr
  have hbn := derefAt_bounds hn
  rw [derefAt_set_thread _ _ _ _ hbn.1 (by rw [List.length_set]; exact hbn.2),
    derefAt_set_thread _ _ _ _ hbr.1 hbr.2]

theorem switch_frame {s sA s1 : Lib} (h : WF s) (st : Int)
    (hv : updateThread s.existedThreadsList s.currentRunningTid (fun t => t.setState st) =
      some sA.existedThreadsList)
    (hcur : sA.currentRunningTid = s.currentRunningTid)
    (htot : sA.totalQuantumElapsed = s.totalQuantumElapsed)
    (hmid : WFmid sA) (hnext : changeNextReadyToRunning sA = some s1) :
    SwitchesQuanta s s1 := by
  obtain ⟨tr, htr, hsr⟩ := h.running
  have hrl : tr.state ≠ TERMINATED := by rw [hsr]; decide
  obtain ⟨trA, tn, next, rest, q, hrA, hq, hn, hsn, hp⟩ := hmid.next_exists
  have hnl : tn.state ≠ TERMINATED := by rw [hsn]; decide
  have hd := derefAt_updateThread hv
  have htrA : trA = tr.setState st := by
    have := hd s.currentRunningTid
    rw [if_pos rfl, htr, ← hcur, hrA] at this
    exact Option.some.inj this
  rw [changeNextReadyToRunning_eq hrA hq hn hp] at hnext
  cases hnext
  refine { total := ?_, threads := ?_ }
  · show toInt (sA.totalQuantumElapsed + 1) = _
    rw [htot]
  · intro j t1 ht hs
    have ht1 : derefAt ((sA.existedThreadsList.set sA.currentRunningTid.toNat
        (Slot.thread trA.increaseQuantumElapsed)).set next.toNat
        (Slot.thread ((if next = sA.currentRunningTid then trA.increaseQuantumElapsed
          else tn).setState RUNNING))) j = some t1 := ht
    rw [derefAt_switchTable hrA hn] at ht1
    by_cases hjn : j = next
    · rw [if_pos hjn] at ht1
      by_cases hnr : next = sA.currentRunningTid
      · rw [if_pos hnr] at ht1
        have hjr : j = s.currentRunningTid := by rw [hjn, hnr, hcur]
        refine ⟨tr, hjr ▸ htr, hrl, ?_⟩
        rw [if_pos hjr, ← Option.some.inj ht1, htrA]
        rfl
      · rw [if_neg hnr] at ht1
        have hjr : j ≠ s.currentRunningTid := by rw [hjn, ← hcur]; exact hnr
        have hsn1 : derefAt s.existedThreadsList next = some tn := by
          have := hd next
          rw [if_neg (by rw [← hcur]; exact hnr), hn] at this
          exact this.symm
        refine ⟨tn, hjn ▸ hsn1, hnl, ?_⟩
        rw [if_neg hjr, ← Option.some.inj ht1]
        rfl
    · rw [if_neg hjn] at ht1
      by_cases hjr : j = sA.currentRunningTid
      · rw [if_pos hjr] at ht1
        have hjr1 : j = s.currentRunningTid := by rw [hjr, hcur]
        refine ⟨tr, hjr1 ▸ htr, hrl, ?_⟩
        rw [if_pos hjr1, ← Option.some.inj ht1, htrA]
        rfl
      · rw [if_neg hjr] at ht1
        have hjr1 : j ≠ s.currentRunningTid := by rw [← hcur]; exact hjr
        have := hd j
        rw [if_neg hjr1, ht1] at this
        refine ⟨t1, this.symm, hs, ?_⟩
        rw [if_neg hjr1]

theorem step_switched_effect (MAX_THREAD_NUM : Int) {s s1 : Lib} (e : Event) (h : WF s)
    (hs : step MAX_THREAD_NUM s e = Outcome.switched s1) :
    SwitchesQuanta s s1 ∧ isSchedulingEvent s e = true := by
  cases e with
  | expiry =>
    obtain ⟨v, sA, s2, hu, hsA, hmid, hnext, _, heq⟩ := switchThread_eq h
    simp only [step, heq] at hs
    cases hs
    refine ⟨switch_frame h READY ?_ ?_ ?_ hmid hnext, rfl⟩
    · rw [hsA]; exact hu
    · rw [hsA]
    · rw [hsA]
  | spawn f p =>
    exfalso
    simp only [step] at hs
    by_cases hfr : Slot.freed ∈ s.existedThreadsList
    · rw [uthread_spawn_undefined MAX_THREAD_NUM hfr] at hs
      cases hs
    · by_cases hc : s.quantityThreads = MAX_THREAD_NUM ∨ isValidPriority s p = false ∨ f = none
      · rw [uthread_spawn_failure MAX_THREAD_NUM hfr hc] at hs
        cases hs
      · simp only [not_or, Bool.not_eq_false] at hc
        rw [uthread_spawn_success MAX_THREAD_NUM hfr hc.1 hc.2.1 hc.2.2 h.table_ne_nil] at hs
        cases hs
  | change_priority tid p =>
    exfalso
    simp only [step] at hs
    rcases isValidTid_cases s tid with hv | ⟨hv, _⟩ | ⟨hv, t, ht, hst⟩
    · simp [uthread_change_priority, hv] at hs
    · rw [uthread_change_priority_of_invalid _ hv] at hs
      cases hs
    · rw [uthread_change_priority_live ht hst] at hs
      split_ifs at hs
  | terminate tid =>
    simp only [step] at hs
    simp only [isSchedulingEvent]
    rcases isValidTid_cases s tid with hv | ⟨hv, hl⟩ | ⟨hv, t, ht, hst⟩
    · simp [uthread_terminate, hv] at hs
    · simp [uthread_terminate, hv] at hs
    · by_cases hmain : tid = MAIN_TID
      · exfalso
        subst hmain
        simp only [uthread_terminate, hv, if_true, terminateMainThread] at hs
        split at hs <;> cases hs
      · by_cases hrun : tid = s.currentRunningTid
        · obtain ⟨v, sA, s2, hu, hsA, hmid, hnext, _, heq⟩ :=
            uthread_terminate_self_eq h (hrun ▸ hmain)
          rw [hrun, heq] at hs
          cases hs
          refine ⟨switch_frame h TERMINATED ?_ ?_ ?_ hmid hnext, by simpa [hrun] using (hrun ▸ hmain)⟩
          · rw [hsA]; exact hu
          · rw [hsA]
          · rw [hsA]
        · rw [uthread_terminate_other ht hst hmain hrun] at hs
          cases hs
  | block tid =>
    simp only [step] at hs
    simp only [isSchedulingEvent]
    rcases isValidTid_cases s tid with hv | ⟨hv, hl⟩ | ⟨hv, t, ht, hst⟩
    · simp [uthread_block, hv] at hs
    · simp [uthread_block, hv] at hs
    · by_cases hmain : tid = MAIN_TID
      · exfalso
        subst hmain
        simp [uthread_block, hv] at hs
      · by_cases hrun : tid = s.currentRunningTid
        · obtain ⟨v, sA, s2, hu, hsA, hmid, hnext, _, heq⟩ :=
            uthread_block_self_eq h (hrun ▸ hmain)
          rw [hrun, heq] at hs
          cases hs
          refine ⟨switch_frame h BLOCKED ?_ ?_ ?_ hmid hnext, by simpa [hrun] using (hrun ▸ hmain)⟩
          · rw [hsA]; exact hu
          · rw [hsA]
          · rw [hsA]
        · rw [uthread_block_other ht hst hmain hrun] at hs
          cases hs
  | resume tid =>
    exfalso
    simp only [step] at hs
    rcases isValidTid_cases s tid with hv | ⟨hv, _⟩ | ⟨hv, t, ht, hst⟩
    · simp [uthread_resume, hv] at hs
    · simp [uthread_resume, hv] at hs
    · rw [uthread_resume_live ht hst] at hs
      split_ifs at hs

end UThreads

namespace UThreads

/-! ## The counters and the history -/

theorem Hist.start_counted {quantum_usecs : Nat → Int} {size : Int} {s : Lib}
    (h : uthread_init Lib.initial quantum_usecs size = Outcome.ret s SUCCESS) :
    (Hist.start s).Counted := by
  have hw := uthread_init_wf h
  cases hv : isValidQuantum quantum_usecs size with
  | false =>
    rw [uthread_init_invalid _ _ _ hv] at h
    cases h
  | true =>
    rw [uthread_init_valid _ _ hv] at h
    cases h
    have hd : ∀ j t, derefAt [Slot.thread (Thread.new MAIN_TID 0 RUNNING)] j = some t →
        j = MAIN_TID ∧ t = Thread.new MAIN_TID 0 RUNNING := by
      intro j t ht
      have hb := derefAt_bounds ht
      simp only [List.length_singleton, Nat.cast_one] at hb
      have hj : j = 0 := by omega
      subst hj
      exact ⟨rfl, by cases ht; rfl⟩
    refine { wf := hw, total := toInt_zero.symm, completed := ?_, events_nonneg := le_refl _,
             completed_nonneg := fun _ => le_refl _, started := ?_ }
    · intro j t ht _
      obtain ⟨_, rfl⟩ := hd j t ht
      exact toInt_zero.symm
    · intro j t ht _
      obtain ⟨rfl, _⟩ := hd j t ht
      rfl

theorem Hist.step_counted {MAX_THREAD_NUM : Int} {h h1 : Hist} {e : Event}
    (hc : h.Counted) (hs : h.step MAX_THREAD_NUM e = some h1) : h1.Counted := by
  have hw1 : WF h1.lib := step_wf MAX_THREAD_NUM e hc.wf (Hist.step_lib hs)
  unfold Hist.step at hs
  cases ho : UThreads.step MAX_THREAD_NUM h.lib e with
  | exited c => rw [ho] at hs; cases hs
  | undefined => rw [ho] at hs; cases hs
  | ret s v =>
    obtain ⟨hk, hsched⟩ := step_ret_effect MAX_THREAD_NUM e hc.wf ho
    rw [ho] at hs
    simp only [hsched, Bool.false_eq_true, if_false, add_zero] at hs
    cases hf : freshTid e v with
    | none =>
      rw [hf] at hs hk
      simp only at hs
      cases hs
      refine { wf := hw1, total := hk.total.trans hc.total, completed := ?_,
               events_nonneg := hc.events_nonneg, completed_nonneg := hc.completed_nonneg,
               started := ?_ }
      · intro j t1 ht1 hl1
        rcases hk.threads j t1 ht1 hl1 with ⟨hfr, _⟩ | ⟨_, t, ht, hl, hq⟩
        · cases hfr
        · rw [hq]
          exact hc.completed j t ht hl
      · intro j t1 ht1 hl1
        rcases hk.threads j t1 ht1 hl1 with ⟨hfr, _⟩ | ⟨_, t, ht, hl, hq⟩
        · cases hfr
        · show h.started j = h.completed j + (if j = s.currentRunningTid then 1 else 0)
          rw [hk.current]
          exact hc.started j t ht hl
    | some w =>
      rw [hf] at hs hk
      simp only at hs
      cases hs
      refine { wf := hw1, total := hk.total.trans hc.total, completed := ?_,
               events_nonneg := hc.events_nonneg, completed_nonneg := ?_, started := ?_ }
      · intro j t1 ht1 hl1
        show t1.quantum_elapsed = toInt (Function.update h.completed w 0 j)
        rcases hk.threads j t1 ht1 hl1 with ⟨hfr, hq, _⟩ | ⟨hfr, t, ht, hl, hq⟩
        · cases hfr
          rw [Function.update_same, toInt_zero]
          exact hq
        · have hjw : j ≠ w := fun hc1 => hfr (by rw [hc1])
          rw [Function.update_noteq hjw, hq]
          exact hc.completed j t ht hl
      · intro j
        show 0 ≤ Function.update h.completed w 0 j
        by_cases hjw : j = w
        · rw [hjw, Function.update_same]
        · rw [Function.update_noteq hjw]
          exact hc.completed_nonneg j
      · intro j t1 ht1 hl1
        show Function.update h.started w 0 j =
          Function.update h.completed w 0 j + (if j = s.currentRunningTid then 1 else 0)
        rcases hk.threads j t1 ht1 hl1 with ⟨hfr, _, hjr⟩ | ⟨hfr, t, ht, hl, hq⟩
        · cases hfr
          rw [Function.update_same, Function.update_same, hk.current, if_neg hjr]
          rfl
        · have hjw : j ≠ w := fun hc1 => hfr (by rw [hc1])
          rw [Function.update_noteq hjw, Function.update_noteq hjw, hk.current]
          exact hc.started j t ht hl
  | switched s =>
    obtain ⟨hk, hsched⟩ := step_switched_effect MAX_THREAD_NUM e hc.wf ho
    rw [ho] at hs
    simp only [hsched, if_true] at hs
    cases hs
    refine { wf := hw1, total := ?_, completed := ?_, events_nonneg := ?_,
             completed_nonneg := ?_, started := ?_ }
    · show s.totalQuantumElapsed = toInt (h.events + 1)
      rw [hk.total, hc.total, toInt_succ_toInt]
    · intro j t1 ht1 hl1
      show t1.quantum_elapsed = toInt (Function.update h.completed h.lib.currentRunningTid
        (h.completed h.lib.currentRunningTid + 1) j)
      obtain ⟨t, ht, hl, hq⟩ := hk.threads j t1 ht1 hl1
      have hcomp := hc.completed j t ht hl
      by_cases hjr : j = h.lib.currentRunningTid
      · rw [hjr, Function.update_same, ← hjr, hq, if_pos hjr, hcomp, toInt_succ_toInt]
      · rw [Function.update_noteq hjr, hq, if_neg hjr, hcomp]
    · show 0 ≤ h.events + 1
      have := hc.events_nonneg
      omega
    · intro j
      show 0 ≤ Function.update h.completed h.lib.currentRunningTid
        (h.completed h.lib.currentRunningTid + 1) j
      by_cases hjr : j = h.lib.currentRunningTid
      · rw [hjr, Function.update_same]
        have := hc.completed_nonneg h.lib.currentRunningTid
        omega
      · rw [Function.update_noteq hjr]
        exact hc.completed_nonneg j
    · intro j t1 ht1 hl1
      show Function.update h.started s.currentRunningTid (h.started s.currentRunningTid + 1) j =
        Function.update h.completed h.lib.currentRunningTid
          (h.completed h.lib.currentRunningTid + 1) j +
          (if j = s.currentRunningTid then 1 else 0)
      obtain ⟨t, ht, hl, hq⟩ := hk.threads j t1 ht1 hl1
      have hst := hc.started j t ht hl
      by_cases hjr : j = h.lib.currentRunningTid
      · by_cases hjn : j = s.currentRunningTid
        · rw [← hjr, ← hjn, Function.update_same, Function.update_same, if_pos rfl, hst,
            if_pos hjr]
        · rw [Function.update_noteq hjn, ← hjr, Function.update_same, if_neg hjn, hst,
            if_pos hjr, add_zero]
      · by_cases hjn : j = s.currentRunningTid
        · rw [← hjn, Function.update_same, Function.update_noteq hjr, if_pos rfl, hst,
            if_neg hjr, add_zero]
        · rw [Function.update_noteq hjn, Function.update_noteq hjr, if_neg hjn, hst,
            if_neg hjr]

theorem Hist.run_counted {MAX_THREAD_NUM : Int} {es : List Event} {h h1 : Hist}
    (hc : h.Counted) (hr : h.run MAX_THREAD_NUM es = some h1) : h1.Counted := by
  induction es generalizing h with
  | nil =>
    cases hr
    exact hc
  | cons e es ih =>
    simp only [Hist.run] at hr
    cases hst : h.step MAX_THREAD_NUM e with
    | none => rw [hst] at hr; cases hr
    | some h2 =>
      rw [hst] at hr
      exact ih (Hist.step_counted hc hst) hr

theorem Hist.Reachable.counted {MAX_THREAD_NUM : Int} {h : Hist}
    (hr : Hist.Reachable MAX_THREAD_NUM h) : h.Counted := by
  obtain ⟨q, size, s0, es, hinit, hrun⟩ := hr
  exact Hist.run_counted (Hist.start_counted hinit) hrun

theorem Hist.Reachable.step {MAX_THREAD_NUM : Int} {h h1 : Hist} {e : Event}
    (hr : Hist.Reachable MAX_THREAD_NUM h) (hs : h.step MAX_THREAD_NUM e = some h1) :
    Hist.Reachable MAX_THREAD_NUM h1 := by
  obtain ⟨q, size, s0, es, hinit, hrun⟩ := hr
  refine ⟨q, size, s0, es ++ [e], hinit, ?_⟩
  have key : ∀ (es : List Event) (g : Hist), g.run MAX_THREAD_NUM es = some h →
      g.run MAX_THREAD_NUM (es ++ [e]) = some h1 := by
    intro es
    induction es with
    | nil =>
      intro g hg
      cases hg
      simp [Hist.run, hs]
    | cons e1 es ih =>
      intro g hg
      simp only [Hist.run, List.cons_append] at hg ⊢
      cases hst : g.step MAX_THREAD_NUM e1 with
      | none => rw [hst] at hg; cases hg
      | some g1 =>
        rw [hst] at hg
        exact ih g1 hg
  exact key es _ hrun

end UThreads

namespace UThreads

theorem Hist.step_events {MAX_THREAD_NUM : Int} {h h1 : Hist} {e : Event}
    (hs : h.step MAX_THREAD_NUM e = some h1) :
    h1.events = h.events + (if isSchedulingEvent h.lib e = true then 1 else 0) := by
  unfold Hist.step at hs
  cases ho : UThreads.step MAX_THREAD_NUM h.lib e with
  | ret s v =>
    rw [ho] at hs
    simp only at hs
    split at hs <;> cases hs <;> rfl
  | switched s => rw [ho] at hs; cases hs; rfl
  | exited c => rw [ho] at hs; cases hs
  | undefined => rw [ho] at hs; cases hs

/-- From a state that satisfies the invariant every scheduling event ends in a
switch, so it has a defined behaviour. -/
theorem scheduling_event_switches (MAX_THREAD_NUM : Int) {s : Lib} (h : WF s) (e : Event)
    (hs : isSchedulingEvent s e = true) :
    ∃ s1, step MAX_THREAD_NUM s e = Outcome.switched s1 := by
  cases e with
  | expiry =>
    obtain ⟨_, _, s1, _, _, _, _, _, heq⟩ := switchThread_eq h
    exact ⟨s1, heq⟩
  | spawn f p => cases hs
  | change_priority tid p => cases hs
  | resume tid => cases hs
  | terminate tid =>
    simp only [isSchedulingEvent, Bool.and_eq_true, decide_eq_true_eq] at hs
    obtain ⟨hrun, hmain⟩ := hs
    obtain ⟨_, _, s1, _, _, _, _, _, heq⟩ := uthread_terminate_self_eq h (hrun ▸ hmain)
    exact ⟨s1, by rw [hrun]; exact heq⟩
  | block tid =>
    simp only [isSchedulingEvent, Bool.and_eq_true, decide_eq_true_eq] at hs
    obtain ⟨hrun, hmain⟩ := hs
    obtain ⟨_, _, s1, _, _, _, _, _, heq⟩ := uthread_block_self_eq h (hrun ▸ hmain)
    exact ⟨s1, by rw [hrun]; exact heq⟩

theorem uthread_get_quantums_state {s s1 : Lib} {tid v : Int}
    (h : uthread_get_quantums s tid = Outcome.ret s1 v) : s1 = s := by
  rcases isValidTid_cases s tid with hv | ⟨hv, _⟩ | ⟨hv, t, ht, _⟩
  · simp [uthread_get_quantums, hv] at h
  · simp only [uthread_get_quantums, hv] at h
    simp at h
    exact h.1.symm
  · simp only [uthread_get_quantums, hv, if_true, ht] at h
    split_ifs at h <;> cases h <;> rfl

/-- C5, amended: in every history reachable from a successful `uthread_init`
the number `n` of scheduling events (quantum expiry, self-block,
self-terminate) is not negative and `uthread_get_total_quantums` is `1 + n`
taken as an `int`; it is `1 + n` itself as long as `n` is below `INT_MAX`.
Every event that is defined and is no scheduling event leaves the value as it
is; a scheduling event increments it as an `int`, which is an increase by 1 as
long as the new number of events is below `INT_MAX`. Scheduling events are
always defined, and `uthread_get_quantums` returns the state it was called
in. -/
theorem total_quantums_counts_events (MAX_THREAD_NUM : Int) (h : Hist)
    (hr : Hist.Reachable MAX_THREAD_NUM h) :
    0 ≤ h.events ∧
      uthread_get_total_quantums h.lib = toInt (1 + h.events) ∧
      (h.events < INT_MAX → uthread_get_total_quantums h.lib = 1 + h.events) ∧
      (∀ e h1, h.step MAX_THREAD_NUM e = some h1 →
        h1.events = h.events + (if isSchedulingEvent h.lib e = true then 1 else 0) ∧
        (isSchedulingEvent h.lib e = false →
          uthread_get_total_quantums h1.lib = uthread_get_total_quantums h.lib) ∧
        (isSchedulingEvent h.lib e = true →
          uthread_get_total_quantums h1.lib = toInt (uthread_get_total_quantums h.lib + 1)) ∧
        (isSchedulingEvent h.lib e = true → h1.events < INT_MAX →
          uthread_get_total_quantums h1.lib = uthread_get_total_quantums h.lib + 1)) ∧
      (∀ e, isSchedulingEvent h.lib e = true → ∃ h1, h.step MAX_THREAD_NUM e = some h1) ∧
      (∀ tid s1 v, uthread_get_quantums h.lib tid = Outcome.ret s1 v → s1 = h.lib) := by
  have hc := hr.counted
  have hn := hc.events_nonneg
  have hget : ∀ g : Hist, g.Counted →
      uthread_get_total_quantums g.lib = toInt (g.events + 1) := by
    intro g hg
    unfold uthread_get_total_quantums
    rw [hg.total, toInt_succ_toInt]
  refine ⟨hn, ?_, ?_, ?_, ?_, ?_⟩
  · rw [hget h hc, add_comm]
  · intro hlt
    simp only [INT_MAX] at hlt
    rw [hget h hc, toInt_of_range (by omega) (by omega)]
    ring
  · intro e h1 hs
    have hc1 := (hr.step hs).counted
    have he := Hist.step_events hs
    refine ⟨he, ?_, ?_, ?_⟩
    · intro hns
      rw [hns] at he
      simp only [Bool.false_eq_true, if_false, add_zero] at he
      rw [hget h1 hc1, hget h hc, he]
    · intro hsch
      rw [hsch, if_pos rfl] at he
      rw [hget h1 hc1, hget h hc, he, toInt_succ_toInt]
    · intro hsch hlt
      rw [hsch, if_pos rfl] at he
      simp only [INT_MAX] at hlt
      rw [hget h1 hc1, hget h hc, he, toInt_of_range (by omega) (by omega),
        toInt_of_range (by omega) (by omega)]
  · intro e he
    obtain ⟨s1, hs1⟩ := scheduling_event_switches MAX_THREAD_NUM hc.wf e he
    unfold Hist.step
    rw [hs1]
    exact ⟨_, rfl⟩
  · intro tid s1 v hq
    exact uthread_get_quantums_state hq

theorem total_quantums_counts_events_witness :
    (exampleHist [Event.spawn (some 1) 0, Event.expiry, Event.terminate 1]).events = 2 ∧
    uthread_get_total_quantums
      (exampleHist [Event.spawn (some 1) 0, Event.expiry, Event.terminate 1]).lib = 3 ∧
    (0 ≤ (exampleHist [Event.spawn (some 1) 0, Event.expiry, Event.terminate 1]).events ∧
      uthread_get_total_quantums
          (exampleHist [Event.spawn (some 1) 0, Event.expiry, Event.terminate 1]).lib =
        toInt (1 + (exampleHist [Event.spawn (some 1) 0, Event.expiry, Event.terminate 1]).events) ∧
      ((exampleHist [Event.spawn (some 1) 0, Event.expiry, Event.terminate 1]).events < INT_MAX →
        uthread_get_total_quantums
            (exampleHist [Event.spawn (some 1) 0, Event.expiry, Event.terminate 1]).lib =
          1 + (exampleHist [Event.spawn (some 1) 0, Event.expiry, Event.terminate 1]).events) ∧
      (∀ e h1,
        (exampleHist [Event.spawn (some 1) 0, Event.expiry, Event.terminate 1]).step 100 e =
          some h1 →
        h1.events =
          (exampleHist [Event.spawn (some 1) 0, Event.expiry, Event.terminate 1]).events +
          (if isSchedulingEvent
            (exampleHist [Event.spawn (some 1) 0, Event.expiry, Event.terminate 1]).lib e = true
            then 1 else 0) ∧
        (isSchedulingEvent
            (exampleHist [Event.spawn (some 1) 0, Event.expiry, Event.terminate 1]).lib e = false →
          uthread_get_total_quantums h1.lib =
            uthread_get_total_quantums
              (exampleHist [Event.spawn (some 1) 0, Event.expiry, Event.terminate 1]).lib) ∧
        (isSchedulingEvent
            (exampleHist [Event.spawn (some 1) 0, Event.expiry, Event.terminate 1]).lib e = true →
          uthread_get_total_quantums h1.lib =
            toInt (uthread_get_total_quantums
              (exampleHist [Event.spawn (some 1) 0, Event.expiry, Event.terminate 1]).lib + 1)) ∧
        (isSchedulingEvent
            (exampleHist [Event.spawn (some 1) 0, Event.expiry, Event.terminate 1]).lib e = true →
          h1.events < INT_MAX →
          uthread_get_total_quantums h1.lib =
            uthread_get_total_quantums
              (exampleHist [Event.spawn (some 1) 0, Event.expiry, Event.terminate 1]).lib + 1)) ∧
      (∀ e,
        isSchedulingEvent
          (exampleHist [Event.spawn (some 1) 0, Event.expiry, Event.terminate 1]).lib e = true →
        ∃ h1,
          (exampleHist [Event.spawn (some 1) 0, Event.expiry, Event.terminate 1]).step 100 e =
            some h1) ∧
      (∀ tid s1 v,
        uthread_get_quantums
          (exampleHist [Event.spawn (some 1) 0, Event.expiry, Event.terminate 1]).lib tid =
          Outcome.ret s1 v →
        s1 = (exampleHist [Event.spawn (some 1) 0, Event.expiry, Event.terminate 1]).lib)) :=
  ⟨by decide, by decide,
    total_quantums_counts_events 100 _ (exampleHist_reachable _ (by decide))⟩

/-- C4, amended: in every history reachable from a successful `uthread_init`
and for every live identity, the number of quantums that the thread has started
(main's first quantum included, 0 for a thread that has been spawned and has
not run) is not negative and is the number of quantums the thread has
completed, plus 1 exactly when the thread is the running one;
`uthread_get_quantums` returns this number taken as an `int`, which is the
number itself as long as it is at most `INT_MAX`. -/
theorem quantums_counts_starts (MAX_THREAD_NUM : Int) (h : Hist)
    (hr : Hist.Reachable MAX_THREAD_NUM h) (tid : Int) (hl : isLive h.lib tid = true) :
    0 ≤ h.started tid ∧
      h.started tid = h.completed tid + (if tid = h.lib.currentRunningTid then 1 else 0) ∧
      uthread_get_quantums h.lib tid = Outcome.ret h.lib (toInt (h.started tid)) ∧
      (h.started tid ≤ INT_MAX →
        uthread_get_quantums h.lib tid = Outcome.ret h.lib (h.started tid)) := by
  have hc := hr.counted
  obtain ⟨t, ht, hst⟩ := isLive_iff.mp hl
  have h1 := hc.completed tid t ht hst
  have h2 := hc.started tid t ht hst
  have h3 := hc.completed_nonneg tid
  have hnn : 0 ≤ h.started tid := by
    rw [h2]
    split_ifs <;> omega
  have hget : uthread_get_quantums h.lib tid = Outcome.ret h.lib (toInt (h.started tid)) := by
    simp only [uthread_get_quantums, isValidTid_of_isLive hl, if_true, ht,
      Thread.getQuantumElapsed]
    by_cases hrun : tid = h.lib.currentRunningTid
    · rw [if_pos hrun] at h2 ⊢
      rw [h2, h1, toInt_succ_toInt]
    · rw [if_neg hrun] at h2 ⊢
      rw [h2, h1, add_zero]
  refine ⟨hnn, h2, hget, ?_⟩
  intro hle
  simp only [INT_MAX] at hle
  rw [hget, toInt_of_range (by omega) hle]

theorem quantums_counts_starts_witness :
    (isLive (exampleHist [Event.spawn (some 1) 0, Event.spawn (some 2) 1, Event.expiry]).lib 1 =
        true ∧
      (exampleHist [Event.spawn (some 1) 0, Event.spawn (some 2) 1, Event.expiry]).started 1 = 1 ∧
      (exampleHist [Event.spawn (some 1) 0, Event.spawn (some 2) 1, Event.expiry]).started 2 = 0 ∧
      (exampleHist [Event.spawn (some 1) 0, Event.spawn (some 2) 1, Event.expiry]).started 0 = 1) ∧
    (0 ≤ (exampleHist [Event.spawn (some 1) 0, Event.spawn (some 2) 1, Event.expiry]).started 1 ∧
      (exampleHist [Event.spawn (some 1) 0, Event.spawn (some 2) 1, Event.expiry]).started 1 =
        (exampleHist [Event.spawn (some 1) 0, Event.spawn (some 2) 1, Event.expiry]).completed 1 +
        (if 1 = (exampleHist
            [Event.spawn (some 1) 0, Event.spawn (some 2) 1, Event.expiry]).lib.currentRunningTid
          then 1 else 0) ∧
      uthread_get_quantums
          (exampleHist [Event.spawn (some 1) 0, Event.spawn (some 2) 1, Event.expiry]).lib 1 =
        Outcome.ret
          (exampleHist [Event.spawn (some 1) 0, Event.spawn (some 2) 1, Event.expiry]).lib
          (toInt
            ((exampleHist [Event.spawn (some 1) 0, Event.spawn (some 2) 1, Event.expiry]).started
              1)) ∧
      ((exampleHist [Event.spawn (some 1) 0, Event.spawn (some 2) 1, Event.expiry]).started 1 ≤
          INT_MAX →
        uthread_get_quantums
            (exampleHist [Event.spawn (some 1) 0, Event.spawn (some 2) 1, Event.expiry]).lib 1 =
          Outcome.ret
            (exampleHist [Event.spawn (some 1) 0, Event.spawn (some 2) 1, Event.expiry]).lib
            ((exampleHist [Event.spawn (some 1) 0, Event.spawn (some 2) 1, Event.expiry]).started
              1))) :=
  ⟨⟨by decide, by decide, by decide, by decide⟩,
    quantums_counts_starts 100 _ (exampleHist_reachable _ (by decide)) 1 (by decide)⟩

end UThreads

namespace UThreads

/-! ## Failure of `uthread_spawn` -/

theorem uthread_spawn_ret_failure (MAX_THREAD_NUM : Int) {s s1 : Lib} {f : Option Nat} {p : Int}
    (h : WF s) (hsp : uthread_spawn MAX_THREAD_NUM s f p = Outcome.ret s1 FAILURE) :
    s1 = { s with existedThreadsList := s.existedThreadsList.map sweepSlot } ∧
      (s.quantityThreads = MAX_THREAD_NUM ∨ isValidPriority s p = false ∨ f = none) := by
  by_cases hfr : Slot.freed ∈ s.existedThreadsList
  · rw [uthread_spawn_undefined MAX_THREAD_NUM hfr] at hsp
    cases hsp
  · by_cases hc : s.quantityThreads = MAX_THREAD_NUM ∨ isValidPriority s p = false ∨ f = none
    · rw [uthread_spawn_failure MAX_THREAD_NUM hfr hc] at hsp
      cases hsp
      exact ⟨rfl, hc⟩
    · exfalso
      simp only [not_or, Bool.not_eq_false] at hc
      rw [uthread_spawn_success MAX_THREAD_NUM hfr hc.1 hc.2.1 hc.2.2 h.table_ne_nil] at hsp
      have hb := firstNull_bounds (s.existedThreadsList.map sweepSlot) 0
      injection hsp with _ hval
      rw [hval] at hb
      simp at hb

theorem sweepSlot_of_not_terminated {x : Slot}
    (hx : ∀ t, x = Slot.thread t → t.state ≠ TERMINATED) : sweepSlot x = x := by
  cases x with
  | null => rfl
  | freed => rfl
  | thread t => simp [sweepSlot, Thread.getState, hx t rfl]

/-- C8, amended: in a reachable state whose table holds no pointer to a
deleted thread, `uthread_spawn` returns, and it returns -1 exactly when the live
count equals `MAX_THREAD_NUM`, or the priority is outside `0 .. n-1` for the
`n` quantum lengths, or `f` is null. Whenever it returns -1 the ready queue, the
live count, the running identity, the total-quantum counter, the quantum table
and the timer are unchanged, the table keeps its length, and every slot other
than that of a TERMINATED thread keeps its content. -/
theorem spawn_failure_iff (MAX_THREAD_NUM : Int) (s : Lib) (hr : Reachable MAX_THREAD_NUM s)
    (f : Option Nat) (p : Int) (hfr : Slot.freed ∉ s.existedThreadsList) :
    ((∃ s1, uthread_spawn MAX_THREAD_NUM s f p = Outcome.ret s1 FAILURE) ↔
      (liveCount s.existedThreadsList = MAX_THREAD_NUM ∨ p < 0 ∨
        (s.quantumPriorityList.length : Int) ≤ p ∨ f = none)) ∧
    (∃ s1 v, uthread_spawn MAX_THREAD_NUM s f p = Outcome.ret s1 v) ∧
    (∀ s1, uthread_spawn MAX_THREAD_NUM s f p = Outcome.ret s1 FAILURE →
      s1.readyTidList = s.readyTidList ∧
      s1.quantityThreads = s.quantityThreads ∧
      liveCount s1.existedThreadsList = liveCount s.existedThreadsList ∧
      s1.currentRunningTid = s.currentRunningTid ∧
      s1.totalQuantumElapsed = s.totalQuantumElapsed ∧
      s1.quantumPriorityList = s.quantumPriorityList ∧
      s1.armed = s.armed ∧ s1.timer = s.timer ∧
      s1.existedThreadsList.length = s.existedThreadsList.length ∧
      ∀ j x, indexAt s.existedThreadsList j = some x →
        (∀ t, x = Slot.thread t → t.state ≠ TERMINATED) →
        indexAt s1.existedThreadsList j = some x) := by
  have hw := hr.wf
  have hprio : isValidPriority s p = false ↔
      (p < 0 ∨ (s.quantumPriorityList.length : Int) ≤ p) := by
    rw [Bool.eq_false_iff, ne_eq, isValidPriority_iff s p hw.quanta_nonempty]
    omega
  have hcond : (s.quantityThreads = MAX_THREAD_NUM ∨ isValidPriority s p = false ∨ f = none) ↔
      (liveCount s.existedThreadsList = MAX_THREAD_NUM ∨ p < 0 ∨
        (s.quantumPriorityList.length : Int) ≤ p ∨ f = none) := by
    rw [hprio, hw.count, or_assoc]
  refine ⟨⟨?_, ?_⟩, ?_, ?_⟩
  · rintro ⟨s1, hs1⟩
    exact hcond.mp (uthread_spawn_ret_failure MAX_THREAD_NUM hw hs1).2
  · intro hc
    exact ⟨_, uthread_spawn_failure MAX_THREAD_NUM hfr (hcond.mpr hc)⟩
  · by_cases hc : s.quantityThreads = MAX_THREAD_NUM ∨ isValidPriority s p = false ∨ f = none
    · exact ⟨_, _, uthread_spawn_failure MAX_THREAD_NUM hfr hc⟩
    · simp only [not_or, Bool.not_eq_false] at hc
      exact ⟨_, _, uthread_spawn_success MAX_THREAD_NUM hfr hc.1 hc.2.1 hc.2.2 hw.table_ne_nil⟩
  · intro s1 hs1
    obtain ⟨rfl, _⟩ := uthread_spawn_ret_failure MAX_THREAD_NUM hw hs1
    refine ⟨rfl, rfl, liveCount_map_sweepSlot _, rfl, rfl, rfl, rfl, rfl, by simp, ?_⟩
    intro j x hx hnt
    show indexAt (s.existedThreadsList.map sweepSlot) j = some x
    rw [indexAt_map, hx, Option.map_some', sweepSlot_of_not_terminated hnt]

theorem spawn_failure_iff_witness :
    Slot.freed ∉ exampleTwoSpawned.existedThreadsList ∧
    (((∃ s1, uthread_spawn 100 exampleTwoSpawned (some 3) 2 = Outcome.ret s1 FAILURE) ↔
      (liveCount exampleTwoSpawned.existedThreadsList = 100 ∨ (2 : Int) < 0 ∨
        (exampleTwoSpawned.quantumPriorityList.length : Int) ≤ 2 ∨ some 3 = none)) ∧
    (∃ s1 v, uthread_spawn 100 exampleTwoSpawned (some 3) 2 = Outcome.ret s1 v) ∧
    (∀ s1, uthread_spawn 100 exampleTwoSpawned (some 3) 2 = Outcome.ret s1 FAILURE →
      s1.readyTidList = exampleTwoSpawned.readyTidList ∧
      s1.quantityThreads = exampleTwoSpawned.quantityThreads ∧
      liveCount s1.existedThreadsList = liveCount exampleTwoSpawned.existedThreadsList ∧
      s1.currentRunningTid = exampleTwoSpawned.currentRunningTid ∧
      s1.totalQuantumElapsed = exampleTwoSpawned.totalQuantumElapsed ∧
      s1.quantumPriorityList = exampleTwoSpawned.quantumPriorityList ∧
      s1.armed = exampleTwoSpawned.armed ∧ s1.timer = exampleTwoSpawned.timer ∧
      s1.existedThreadsList.length = exampleTwoSpawned.existedThreadsList.length ∧
      ∀ j x, indexAt exampleTwoSpawned.existedThreadsList j = some x →
        (∀ t, x = Slot.thread t → t.state ≠ TERMINATED) →
        indexAt s1.existedThreadsList j = some x)) :=
  ⟨by decide,
    spawn_failure_iff 100 exampleTwoSpawned (exampleRun_reachable _ (by decide)) (some 3) 2
      (by decide)⟩

/-- C8, as stated, fails: `exampleSelfTerminated` is reachable (init, spawn
of thread 1, quantum expiry, thread 1 terminates itself) and a spawn with the
priority 7, which is out of range, returns -1 from it, yet the table after the
call differs from the table before it: the sweep has deleted thread 1. -/
theorem spawn_failure_changes_table :
    Reachable 100 exampleSelfTerminated ∧
      exampleSelfTerminated.existedThreadsList =
        [Slot.thread { tid := 0, priority := 0, state := RUNNING, quantum_elapsed := 1 },
          Slot.thread { tid := 1, priority := 0, state := TERMINATED, quantum_elapsed := 1 }] ∧
      uthread_spawn 100 exampleSelfTerminated (some 2) 7 =
        Outcome.ret
          { exampleSelfTerminated with
            existedThreadsList :=
              [Slot.thread { tid := 0, priority := 0, state := RUNNING, quantum_elapsed := 1 },
                Slot.freed] } FAILURE ∧
      ¬ (∀ s1, uthread_spawn 100 exampleSelfTerminated (some 2) 7 = Outcome.ret s1 FAILURE →
        s1.existedThreadsList = exampleSelfTerminated.existedThreadsList) :=
  ⟨exampleRun_reachable _ (by decide), by decide, by decide,
    fun hc => absurd (hc _ (by decide : uthread_spawn 100 exampleSelfTerminated (some 2) 7 =
      Outcome.ret
        { exampleSelfTerminated with
          existedThreadsList :=
            [Slot.thread { tid := 0, priority := 0, state := RUNNING, quantum_elapsed := 1 },
              Slot.freed] } FAILURE)) (by decide)⟩

/-! ## Reuse of the identity of a thread that terminated itself -/

/-- C1, evaluated: in `exampleSelfTerminated` (init, spawn of thread 1, quantum
expiry, thread 1 terminates itself) identity 0 is live and identity 1 is not,
so 1 is the smallest identity that is not live; the next spawn returns 2. The
sweep has deleted thread 1 and has left the pointer in slot 1, which is not
null, and the new thread is appended behind it. The behaviour of the spawn
after that one is not defined, because its sweep reads the deleted thread. -/
theorem spawn_after_self_terminate :
    Reachable 100 exampleSelfTerminated ∧
      isLive exampleSelfTerminated 0 = true ∧ isLive exampleSelfTerminated 1 = false ∧
      uthread_spawn 100 exampleSelfTerminated (some 2) 0 =
        Outcome.ret
          { exampleSelfTerminated with
            existedThreadsList :=
              [Slot.thread { tid := 0, priority := 0, state := RUNNING, quantum_elapsed := 1 },
                Slot.freed,
                Slot.thread { tid := 2, priority := 0, state := READY, quantum_elapsed := 0 }]
            readyTidList := [2]
            quantityThreads := 2 } 2 ∧
      uthread_spawn 100
          { exampleSelfTerminated with
            existedThreadsList :=
              [Slot.thread { tid := 0, priority := 0, state := RUNNING, quantum_elapsed := 1 },
                Slot.freed,
                Slot.thread { tid := 2, priority := 0, state := READY, quantum_elapsed := 0 }]
            readyTidList := [2]
            quantityThreads := 2 } (some 3) 0 = Outcome.undefined :=
  ⟨exampleRun_reachable _ (by decide), by decide, by decide, by decide, by decide⟩

end UThreads

namespace UThreads

/-! ## The scheduler invariant of the specification -/

theorem WF.schedulerInvariant {s : Lib} (h : WF s) : SchedulerInvariant s := by
  refine
    { running_is_current := ?_
      ready_nodup := h.ready_nodup
      ready_exact := ?_
      main_alive := ?_ }
  · intro i
    constructor
    · rintro ⟨t, ht, hs⟩
      exact h.running_unique i t ht hs
    · intro hi
      rw [hi]
      exact h.running
  · intro i
    constructor
    · intro hi
      obtain ⟨t, ht, hs⟩ := h.ready_sound i hi
      exact ⟨t, ht, by rw [hs]; decide, hs⟩
    · rintro ⟨t, ht, _, hs⟩
      exact h.ready_complete i t ht hs
  · obtain ⟨t, ht, hs⟩ := h.main_alive
    refine ⟨t, ht, hs, ?_⟩
    rcases hs with h1 | h1 <;> rw [h1] <;> decide

/-- C13: the predicate `SchedulerInvariant` (exactly one RUNNING thread, the
one named by `currentRunningTid`; a duplicate-free ready queue that holds
exactly the live READY threads; main in slot 0, READY or RUNNING and never
BLOCKED) holds after a successful `uthread_init`, holds in every reachable
state, and holds again after every library call and every quantum expiry that
ends in a state when started from a reachable state. -/
theorem scheduler_invariant (MAX_THREAD_NUM : Int) :
    (∀ quantum_usecs size s,
      uthread_init Lib.initial quantum_usecs size = Outcome.ret s SUCCESS →
        SchedulerInvariant s) ∧
    (∀ s, Reachable MAX_THREAD_NUM s → SchedulerInvariant s) ∧
    (∀ s e s1, Reachable MAX_THREAD_NUM s → SchedulerInvariant s →
      (step MAX_THREAD_NUM s e).state? = some s1 → SchedulerInvariant s1) := by
  refine ⟨?_, ?_, ?_⟩
  · intro q size s hs
    exact (uthread_init_wf hs).schedulerInvariant
  · intro s hr
    exact hr.wf.schedulerInvariant
  · intro s e s1 hr _ hs
    exact (step_wf MAX_THREAD_NUM e hr.wf hs).schedulerInvariant

theorem scheduler_invariant_witness :
    SchedulerInvariant exampleTwoSpawned ∧
      SchedulerInvariant
        (exampleRun [Event.spawn (some 1) 0, Event.spawn (some 2) 1, Event.expiry]) ∧
      SchedulerInvariant
        (exampleRun [Event.spawn (some 1) 0, Event.spawn (some 2) 1, Event.expiry,
          Event.block 1]) :=
  ⟨(scheduler_invariant 100).2.1 _ (exampleRun_reachable _ (by decide)),
    (scheduler_invariant 100).2.1 _ (exampleRun_reachable _ (by decide)),
    (scheduler_invariant 100).2.1 _ (exampleRun_reachable _ (by decide))⟩

end UThreads

namespace UThreads

/-! ## Resume, block and terminate of a thread that is not running -/

theorem set_thread_self {v : List Slot} {i : Int} {t : Thread}
    (h : derefAt v i = some t) : v.set i.toNat (Slot.thread t) = v := by
  obtain ⟨_, h1⟩ := indexAt_eq_some.mp (derefAt_eq_some.mp h)
  apply List.ext_getElem?
  intro n
  rw [List.getElem?_set]
  by_cases hn : i.toNat = n
  · rw [if_pos hn, ← hn, h1]
    have hlt : i.toNat < v.length := (List.getElem?_eq_some.mp h1).1
    rw [if_pos hlt]
  · rw [if_neg hn]

/-- C17: for a live identity `uthread_resume` returns 0. If the thread is
BLOCKED, its state becomes READY, its other fields are kept, the identity is
appended at the tail of the ready queue, and nothing else changes; in every
other state (READY, RUNNING) the call returns the state it was given. -/
theorem resume_post (s : Lib) (tid : Int) (hl : isLive s tid = true) :
    ∃ t, derefAt s.existedThreadsList tid = some t ∧
      (t.state ≠ BLOCKED → uthread_resume s tid = Outcome.ret s SUCCESS) ∧
      (t.state = BLOCKED →
        ∃ s1, uthread_resume s tid = Outcome.ret s1 SUCCESS ∧
          derefAt s1.existedThreadsList tid = some { t with state := READY } ∧
          s1.readyTidList = s.readyTidList ++ [tid] ∧
          (∀ j, j ≠ tid → indexAt s1.existedThreadsList j = indexAt s.existedThreadsList j) ∧
          s1.existedThreadsList.length = s.existedThreadsList.length ∧
          s1.currentRunningTid = s.currentRunningTid ∧
          s1.quantityThreads = s.quantityThreads ∧
          s1.totalQuantumElapsed = s.totalQuantumElapsed ∧
          s1.quantumPriorityList = s.quantumPriorityList ∧
          s1.armed = s.armed ∧ s1.timer = s.timer ∧
          s1.handlerInstalled = s.handlerInstalled) := by
  obtain ⟨t, ht, hst⟩ := isLive_iff.mp hl
  have hb := derefAt_bounds ht
  refine ⟨t, ht, ?_, ?_⟩
  · intro hnb
    rw [uthread_resume_live ht hst, if_neg hnb]
  · intro hbl
    refine ⟨{ s with
        existedThreadsList := s.existedThreadsList.set tid.toNat (Slot.thread (t.setState READY))
        readyTidList := s.readyTidList ++ [tid] },
      by rw [uthread_resume_live ht hst, if_pos hbl], ?_, rfl, ?_, ?_, rfl, rfl, rfl,
      rfl, rfl, rfl, rfl⟩
    · show derefAt (s.existedThreadsList.set tid.toNat _) tid = _
      rw [derefAt_set_thread _ _ _ _ hb.1 hb.2, if_pos rfl]
      rfl
    · intro j hj
      show indexAt (s.existedThreadsList.set tid.toNat _) j = _
      rw [indexAt_set _ _ _ _ hb.1, if_neg hj]
    · show (s.existedThreadsList.set tid.toNat _).length = _
      rw [List.length_set]

theorem resume_post_witness :
    isLive exampleOneBlocked 1 = true ∧
      ∃ t, derefAt exampleOneBlocked.existedThreadsList 1 = some t ∧
        (t.state ≠ BLOCKED → uthread_resume exampleOneBlocked 1 =
          Outcome.ret exampleOneBlocked SUCCESS) ∧
        (t.state = BLOCKED →
          ∃ s1, uthread_resume exampleOneBlocked 1 = Outcome.ret s1 SUCCESS ∧
            derefAt s1.existedThreadsList 1 = some { t with state := READY } ∧
            s1.readyTidList = exampleOneBlocked.readyTidList ++ [1] ∧
            (∀ j, j ≠ 1 → indexAt s1.existedThreadsList j =
              indexAt exampleOneBlocked.existedThreadsList j) ∧
            s1.existedThreadsList.length = exampleOneBlocked.existedThreadsList.length ∧
            s1.currentRunningTid = exampleOneBlocked.currentRunningTid ∧
            s1.quantityThreads = exampleOneBlocked.quantityThreads ∧
            s1.totalQuantumElapsed = exampleOneBlocked.totalQuantumElapsed ∧
            s1.quantumPriorityList = exampleOneBlocked.quantumPriorityList ∧
            s1.armed = exampleOneBlocked.armed ∧ s1.timer = exampleOneBlocked.timer ∧
            s1.handlerInstalled = exampleOneBlocked.handlerInstalled) :=
  ⟨by decide, resume_post exampleOneBlocked 1 (by decide)⟩

/-- C16: for a live identity that is neither main nor the running thread
`uthread_block` returns 0; the thread becomes BLOCKED and keeps its other
fields, the identity is removed from the ready queue and the order of the
other entries is kept, and nothing else changes. A second `uthread_block` of
the same identity returns 0 and leaves the state as the first call left it. -/
theorem block_other_idempotent (s : Lib) (tid : Int) (hl : isLive s tid = true)
    (hmain : tid ≠ MAIN_TID) (hrun : tid ≠ s.currentRunningTid) :
    ∃ s1 t, derefAt s.existedThreadsList tid = some t ∧
      uthread_block s tid = Outcome.ret s1 SUCCESS ∧
      derefAt s1.existedThreadsList tid = some { t with state := BLOCKED } ∧
      tid ∉ s1.readyTidList ∧
      s1.readyTidList = s.readyTidList.filter (fun x => x ≠ tid) ∧
      (∀ j, j ≠ tid → indexAt s1.existedThreadsList j = indexAt s.existedThreadsList j) ∧
      s1.existedThreadsList.length = s.existedThreadsList.length ∧
      s1.currentRunningTid = s.currentRunningTid ∧
      s1.quantityThreads = s.quantityThreads ∧
      s1.totalQuantumElapsed = s.totalQuantumElapsed ∧
      s1.quantumPriorityList = s.quantumPriorityList ∧
      s1.armed = s.armed ∧ s1.timer = s.timer ∧
      s1.handlerInstalled = s.handlerInstalled ∧
      uthread_block s1 tid = Outcome.ret s1 SUCCESS := by
  obtain ⟨t, ht, hst⟩ := isLive_iff.mp hl
  have hb := derefAt_bounds ht
  have hd : derefAt (s.existedThreadsList.set tid.toNat (Slot.thread (t.setState BLOCKED))) tid =
      some (t.setState BLOCKED) := by
    rw [derefAt_set_thread _ _ _ _ hb.1 hb.2, if_pos rfl]
  refine ⟨{ s with
      existedThreadsList := s.existedThreadsList.set tid.toNat (Slot.thread (t.setState BLOCKED))
      readyTidList := s.readyTidList.filter (fun x => x ≠ tid) }, t, ht,
    uthread_block_other ht hst hmain hrun, hd, ?_, rfl, ?_, ?_, rfl, rfl, rfl, rfl, rfl, rfl, rfl,
    ?_⟩
  · show tid ∉ s.readyTidList.filter (fun x => x ≠ tid)
    rw [mem_filter_ne]
    exact fun hc => hc.1 rfl
  · intro j hj
    show indexAt (s.existedThreadsList.set tid.toNat _) j = _
    rw [indexAt_set _ _ _ _ hb.1, if_neg hj]
  · show (s.existedThreadsList.set tid.toNat _).length = _
    rw [List.length_set]
  · have h2 := uthread_block_other (s := { s with
        existedThreadsList :=
          s.existedThreadsList.set tid.toNat (Slot.thread (t.setState BLOCKED))
        readyTidList := s.readyTidList.filter (fun x => x ≠ tid) }) hd
      (by simp [Thread.setState]) hmain hrun
    rw [h2]
    congr 1
    have e1 : (s.existedThreadsList.set tid.toNat (Slot.thread (t.setState BLOCKED))).set
        tid.toNat (Slot.thread ((t.setState BLOCKED).setState BLOCKED)) =
        s.existedThreadsList.set tid.toNat (Slot.thread (t.setState BLOCKED)) :=
      set_thread_self hd
    have e2 : (s.readyTidList.filter (fun x => x ≠ tid)).filter (fun x => x ≠ tid) =
        s.readyTidList.filter (fun x => x ≠ tid) := by
      rw [List.filter_filter]
      simp
    simp only [e1, e2]

theorem block_other_idempotent_witness :
    isLive exampleTwoSpawned 1 = true ∧ (1 : Int) ≠ MAIN_TID ∧
      1 ≠ exampleTwoSpawned.currentRunningTid ∧
      exampleTwoSpawned.readyTidList = [1, 2] ∧
      ∃ s1 t, derefAt exampleTwoSpawned.existedThreadsList 1 = some t ∧
        uthread_block exampleTwoSpawned 1 = Outcome.ret s1 SUCCESS ∧
        derefAt s1.existedThreadsList 1 = some { t with state := BLOCKED } ∧
        1 ∉ s1.readyTidList ∧
        s1.readyTidList = exampleTwoSpawned.readyTidList.filter (fun x => x ≠ 1) ∧
        (∀ j, j ≠ 1 → indexAt s1.existedThreadsList j =
          indexAt exampleTwoSpawned.existedThreadsList j) ∧
        s1.existedThreadsList.length = exampleTwoSpawned.existedThreadsList.length ∧
        s1.currentRunningTid = exampleTwoSpawned.currentRunningTid ∧
        s1.quantityThreads = exampleTwoSpawned.quantityThreads ∧
        s1.totalQuantumElapsed = exampleTwoSpawned.totalQuantumElapsed ∧
        s1.quantumPriorityList = exampleTwoSpawned.quantumPriorityList ∧
        s1.armed = exampleTwoSpawned.armed ∧ s1.timer = exampleTwoSpawned.timer ∧
        s1.handlerInstalled = exampleTwoSpawned.handlerInstalled ∧
        uthread_block s1 1 = Outcome.ret s1 SUCCESS :=
  ⟨by decide, by decide, by decide, by decide,
    block_other_idempotent exampleTwoSpawned 1 (by decide) (by decide) (by decide)⟩

theorem filter_ne_of_not_mem {l : List Int} {tid : Int} (h : tid ∉ l) :
    l.filter (fun x => x ≠ tid) = l := by
  rw [List.filter_eq_self]
  intro a ha
  simp only [ne_eq, decide_eq_true_eq]
  exact fun hc => h (hc ▸ ha)

theorem uthread_get_quantums_of_invalid {s : Lib} {tid : Int}
    (h : isValidTid s tid = some false) :
    uthread_get_quantums s tid = Outcome.ret s FAILURE := by
  simp [uthread_get_quantums, h]

/-- C14: in a reachable state, for a live identity that is neither main nor
the running thread, `uthread_terminate` returns 0; afterwards the slot is
empty, the identity is not live and `uthread_get_quantums` fails for it, the
identity is gone from the ready queue and the other entries keep their order,
the live count (the variable and the number of live slots) is one less, and
the running identity, every other slot, the total-quantum counter, the quantum
table and the timer are unchanged. -/
theorem terminate_other_post (MAX_THREAD_NUM : Int) (s : Lib)
    (hr : Reachable MAX_THREAD_NUM s) (tid : Int) (hl : isLive s tid = true)
    (hmain : tid ≠ MAIN_TID) (hrun : tid ≠ s.currentRunningTid) :
    ∃ s1, uthread_terminate s tid = Outcome.ret s1 SUCCESS ∧
      indexAt s1.existedThreadsList tid = some Slot.null ∧
      isLive s1 tid = false ∧
      uthread_get_quantums s1 tid = Outcome.ret s1 FAILURE ∧
      tid ∉ s1.readyTidList ∧
      s1.readyTidList = s.readyTidList.filter (fun x => x ≠ tid) ∧
      s1.quantityThreads = s.quantityThreads - 1 ∧
      liveCount s1.existedThreadsList = liveCount s.existedThreadsList - 1 ∧
      s1.currentRunningTid = s.currentRunningTid ∧
      (∀ j, j ≠ tid → indexAt s1.existedThreadsList j = indexAt s.existedThreadsList j) ∧
      s1.existedThreadsList.length = s.existedThreadsList.length ∧
      s1.totalQuantumElapsed = s.totalQuantumElapsed ∧
      s1.quantumPriorityList = s.quantumPriorityList ∧
      s1.armed = s.armed ∧ s1.timer = s.timer := by
  have hw := hr.wf
  obtain ⟨t, ht, hst⟩ := isLive_iff.mp hl
  have hb := derefAt_bounds ht
  have hx := derefAt_eq_some.mp ht
  have hready : (if t.state = READY then s.readyTidList.filter (fun x => x ≠ tid)
      else s.readyTidList) = s.readyTidList.filter (fun x => x ≠ tid) := by
    by_cases hrd : t.state = READY
    · rw [if_pos hrd]
    · rw [if_neg hrd]
      symm
      apply filter_ne_of_not_mem
      intro hc
      obtain ⟨t1, ht1, hs1⟩ := hw.ready_sound tid hc
      rw [ht] at ht1
      cases ht1
      exact hrd hs1
  have hnull : indexAt (s.existedThreadsList.set tid.toNat Slot.null) tid = some Slot.null := by
    rw [indexAt_set _ _ _ _ hb.1, if_pos rfl, hx]
    rfl
  have hw1 := WF_terminate_other hw ht hst hmain hrun
  refine ⟨{ s with
      readyTidList :=
        if t.state = READY then s.readyTidList.filter (fun x => x ≠ tid) else s.readyTidList
      existedThreadsList := s.existedThreadsList.set tid.toNat Slot.null
      quantityThreads := s.quantityThreads - 1 },
    uthread_terminate_other ht hst hmain hrun, hnull, ?_, ?_, ?_, hready, rfl, ?_, rfl, ?_, ?_,
    rfl, rfl, rfl, rfl⟩
  · simp only [isLive, derefAt, hnull]
  · have hnl : notLive { s with
        readyTidList :=
          if t.state = READY then s.readyTidList.filter (fun x => x ≠ tid) else s.readyTidList
        existedThreadsList := s.existedThreadsList.set tid.toNat Slot.null
        quantityThreads := s.quantityThreads - 1 } tid = true := by
      simp only [notLive, hnull, Bool.or_true]
    exact uthread_get_quantums_of_invalid (isValidTid_of_notLive hnl)
  · show tid ∉ (if t.state = READY then s.readyTidList.filter (fun x => x ≠ tid)
      else s.readyTidList)
    rw [hready, mem_filter_ne]
    exact fun hc => hc.1 rfl
  · rw [← hw1.count, ← hw.count]
  · intro j hj
    show indexAt (s.existedThreadsList.set tid.toNat _) j = _
    rw [indexAt_set _ _ _ _ hb.1, if_neg hj]
  · show (s.existedThreadsList.set tid.toNat _).length = _
    rw [List.length_set]

theorem terminate_other_post_witness :
    isLive exampleTwoSpawned 1 = true ∧ (1 : Int) ≠ MAIN_TID ∧
      1 ≠ exampleTwoSpawned.currentRunningTid ∧
      exampleTwoSpawned.readyTidList = [1, 2] ∧
      ∃ s1, uthread_terminate exampleTwoSpawned 1 = Outcome.ret s1 SUCCESS ∧
        indexAt s1.existedThreadsList 1 = some Slot.null ∧
        isLive s1 1 = false ∧
        uthread_get_quantums s1 1 = Outcome.ret s1 FAILURE ∧
        1 ∉ s1.readyTidList ∧
        s1.readyTidList = exampleTwoSpawned.readyTidList.filter (fun x => x ≠ 1) ∧
        s1.quantityThreads = exampleTwoSpawned.quantityThreads - 1 ∧
        liveCount s1.existedThreadsList = liveCount exampleTwoSpawned.existedThreadsList - 1 ∧
        s1.currentRunningTid = exampleTwoSpawned.currentRunningTid ∧
        (∀ j, j ≠ 1 → indexAt s1.existedThreadsList j =
          indexAt exampleTwoSpawned.existedThreadsList j) ∧
        s1.existedThreadsList.length = exampleTwoSpawned.existedThreadsList.length ∧
        s1.totalQuantumElapsed = exampleTwoSpawned.totalQuantumElapsed ∧
        s1.quantumPriorityList = exampleTwoSpawned.quantumPriorityList ∧
        s1.armed = exampleTwoSpawned.armed ∧ s1.timer = exampleTwoSpawned.timer :=
  ⟨by decide, by decide, by decide, by decide,
    terminate_other_post 100 exampleTwoSpawned (exampleRun_reachable _ (by decide)) 1
      (by decide) (by decide) (by decide)⟩

end UThreads

namespace UThreads

/-! ## The postcondition of a switch -/

/-- The table after a switch, slot by slot, in terms of the table before the
call: the selected thread `next` is RUNNING, the outgoing thread has the state
`st` that the call gave it (unless it is selected again) and an incremented
counter, every other thread is as it was. -/
theorem switch_table {s sA s1 : Lib} (h : WF s) (st : Int)
    (hv : updateThread s.existedThreadsList s.currentRunningTid (fun t => t.setState st) =
      some sA.existedThreadsList)
    (hcur : sA.currentRunningTid = s.currentRunningTid)
    (hmid : WFmid sA) (hnext : changeNextReadyToRunning sA = some s1) :
    ∃ next rest, sA.readyTidList = next :: rest ∧
      s1.currentRunningTid = next ∧ s1.readyTidList = rest ∧
      (∀ j, derefAt s1.existedThreadsList j =
        (derefAt s.existedThreadsList j).map fun t =>
          { t with
            state := if j = next then RUNNING else if j = s.currentRunningTid then st
              else t.state
            quantum_elapsed :=
              if j = s.currentRunningTid then toInt (t.quantum_elapsed + 1)
              else t.quantum_elapsed }) ∧
      (∀ j, j ≠ next → j ≠ s.currentRunningTid →
        indexAt s1.existedThreadsList j = indexAt s.existedThreadsList j) ∧
      s1.existedThreadsList.length = s.existedThreadsList.length := by
  obtain ⟨tr, htr, hsr⟩ := h.running
  obtain ⟨trA, tn, next, rest, q, hrA, hq, hn, hsn, hp⟩ := hmid.next_exists
  have hd := derefAt_updateThread hv
  have hi := indexAt_updateThread hv
  have htrA : trA = tr.setState st := by
    have := hd s.currentRunningTid
    rw [if_pos rfl, htr, ← hcur, hrA] at this
    exact Option.some.inj this
  have hbr := derefAt_bounds hrA
  have hbn := derefAt_bounds hn
  rw [changeNextReadyToRunning_eq hrA hq hn hp] at hnext
  cases hnext
  refine ⟨next, rest, hq, rfl, rfl, ?_, ?_, ?_⟩
  · intro j
    show derefAt ((sA.existedThreadsList.set sA.currentRunningTid.toNat
        (Slot.thread trA.increaseQuantumElapsed)).set next.toNat
        (Slot.thread ((if next = sA.currentRunningTid then trA.increaseQuantumElapsed
          else tn).setState RUNNING))) j = _
    rw [derefAt_switchTable hrA hn]
    by_cases hjn : j = next
    · rw [if_pos hjn]
      by_cases hnr : next = sA.currentRunningTid
      · have hjr : j = s.currentRunningTid := by rw [hjn, hnr, hcur]
        rw [if_pos hnr, hjr, htr, htrA]
        simp [Thread.setState, Thread.increaseQuantumElapsed, ← hjr, hjn]
      · have hjr : j ≠ s.currentRunningTid := by rw [hjn, ← hcur]; exact hnr
        have hsn1 : derefAt s.existedThreadsList next = some tn := by
          have := hd next
          rw [if_neg (by rw [← hcur]; exact hnr), hn] at this
          exact this.symm
        rw [if_neg hnr, hjn, hsn1]
        have hnr1 : next ≠ s.currentRunningTid := by rw [← hcur]; exact hnr
        simp [Thread.setState, hnr1]
    · rw [if_neg hjn]
      by_cases hjr : j = sA.currentRunningTid
      · have hjr1 : j = s.currentRunningTid := by rw [hjr, hcur]
        rw [if_pos hjr, hjr1, htr, htrA]
        have hne : s.currentRunningTid ≠ next := by rw [← hjr1]; exact hjn
        simp [Thread.setState, Thread.increaseQuantumElapsed, hne]
      · have hjr1 : j ≠ s.currentRunningTid := by rw [← hcur]; exact hjr
        rw [if_neg hjr]
        have := hd j
        rw [if_neg hjr1] at this
        rw [this]
        cases derefAt s.existedThreadsList j with
        | none => rfl
        | some t => simp [hjn, hjr1]
  · intro j hjn hjr
    show indexAt ((sA.existedThreadsList.set sA.currentRunningTid.toNat _).set next.toNat _) j = _
    rw [indexAt_set _ _ _ _ hbn.1, if_neg hjn, indexAt_set _ _ _ _ hbr.1,
      if_neg (by rw [hcur]; exact hjr)]
    have := hi j
    rw [if_neg hjr] at this
    exact this
  · show ((sA.existedThreadsList.set sA.currentRunningTid.toNat _).set next.toNat _).length = _
    rw [List.length_set, List.length_set, length_updateThread hv]

end UThreads

namespace UThreads

theorem WF.current_not_ready {s : Lib} (h : WF s) : s.currentRunningTid ∉ s.readyTidList := by
  intro hc
  obtain ⟨t, ht, hs⟩ := h.ready_sound _ hc
  obtain ⟨tr, htr, hsr⟩ := h.running
  rw [htr] at ht
  cases ht
  rw [hsr] at hs
  cases hs

/-- C15: the three scheduling events from a reachable state with running
thread `r`. A quantum expiry ends in a switch: `r` is appended to the queue,
the head `h` of the resulting queue runs and the rest is the new queue, `h` is
RUNNING and `r`, unless it is `h`, is READY. For `r` other than main,
`uthread_block(r)` and `uthread_terminate(r)` end in a switch and not in a
return: the head `h` of the queue runs and is RUNNING, the rest is the new
queue, `r` is not in it, and `r` is BLOCKED, respectively TERMINATED with the
live count one less. -/
theorem advance_post (MAX_THREAD_NUM : Int) (s : Lib) (hr : Reachable MAX_THREAD_NUM s) :
    (∃ s1 h rest, switchThread s = Outcome.switched s1 ∧
      s.readyTidList ++ [s.currentRunningTid] = h :: rest ∧
      s1.currentRunningTid = h ∧ s1.readyTidList = rest ∧
      (∃ t, derefAt s1.existedThreadsList h = some t ∧ t.state = RUNNING) ∧
      (h ≠ s.currentRunningTid →
        ∃ t, derefAt s1.existedThreadsList s.currentRunningTid = some t ∧ t.state = READY) ∧
      s1.quantityThreads = s.quantityThreads) ∧
    (s.currentRunningTid ≠ MAIN_TID →
      ∃ s1 h rest, uthread_block s s.currentRunningTid = Outcome.switched s1 ∧
        s.readyTidList = h :: rest ∧
        s1.currentRunningTid = h ∧ s1.readyTidList = rest ∧
        (∃ t, derefAt s1.existedThreadsList h = some t ∧ t.state = RUNNING) ∧
        (∃ t, derefAt s1.existedThreadsList s.currentRunningTid = some t ∧ t.state = BLOCKED) ∧
        s.currentRunningTid ∉ s1.readyTidList ∧
        s1.quantityThreads = s.quantityThreads) ∧
    (s.currentRunningTid ≠ MAIN_TID →
      ∃ s1 h rest, uthread_terminate s s.currentRunningTid = Outcome.switched s1 ∧
        s.readyTidList = h :: rest ∧
        s1.currentRunningTid = h ∧ s1.readyTidList = rest ∧
        (∃ t, derefAt s1.existedThreadsList h = some t ∧ t.state = RUNNING) ∧
        (∃ t, derefAt s1.existedThreadsList s.currentRunningTid = some t ∧
          t.state = TERMINATED) ∧
        s.currentRunningTid ∉ s1.readyTidList ∧
        s1.quantityThreads = s.quantityThreads - 1 ∧
        liveCount s1.existedThreadsList = liveCount s.existedThreadsList - 1) := by
  have hw := hr.wf
  obtain ⟨tr, htr, hsr⟩ := hw.running
  have hnotin := hw.current_not_ready
  refine ⟨?_, ?_, ?_⟩
  · obtain ⟨v, sA, s1, hu, hsA, hmid, hnext, hw1, heq⟩ := switchThread_eq hw
    obtain ⟨next, rest, hq, hc, hrd, hd, _, _⟩ :=
      switch_table hw READY (by rw [hsA]; exact hu) (by rw [hsA]) hmid hnext
    obtain ⟨_, _, _, _, _, _, hqt, _, _⟩ := changeNextReadyToRunning_fields hnext
    refine ⟨s1, next, rest, heq, by rw [← hq, hsA], hc, hrd, hc ▸ hw1.running, ?_, ?_⟩
    · intro hne
      rw [hd, htr]
      exact ⟨_, rfl, by simp [hne.symm]⟩
    · rw [hqt, hsA]
  · intro hmain
    obtain ⟨v, sA, s1, hu, hsA, hmid, hnext, hw1, heq⟩ := uthread_block_self_eq hw hmain
    obtain ⟨next, rest, hq, hc, hrd, hd, _, _⟩ :=
      switch_table hw BLOCKED (by rw [hsA]; exact hu) (by rw [hsA]) hmid hnext
    obtain ⟨_, _, _, _, _, _, hqt, _, _⟩ := changeNextReadyToRunning_fields hnext
    have hq1 : s.readyTidList = next :: rest := by rw [← hq, hsA]
    have hne : s.currentRunningTid ≠ next := by
      intro hc1
      apply hnotin
      rw [hq1, hc1]
      exact List.mem_cons_self _ _
    refine ⟨s1, next, rest, heq, hq1, hc, hrd, hc ▸ hw1.running, ?_, ?_, ?_⟩
    · rw [hd, htr]
      exact ⟨_, rfl, by simp [hne]⟩
    · rw [hrd]
      intro hc1
      apply hnotin
      rw [hq1]
      exact List.mem_cons_of_mem _ hc1
    · rw [hqt, hsA]
  · intro hmain
    obtain ⟨v, sA, s1, hu, hsA, hmid, hnext, hw1, heq⟩ := uthread_terminate_self_eq hw hmain
    obtain ⟨next, rest, hq, hc, hrd, hd, _, _⟩ :=
      switch_table hw TERMINATED (by rw [hsA]; exact hu) (by rw [hsA]) hmid hnext
    obtain ⟨_, _, _, _, _, _, hqt, _, _⟩ := changeNextReadyToRunning_fields hnext
    have hq1 : s.readyTidList = next :: rest := by rw [← hq, hsA]
    have hne : s.currentRunningTid ≠ next := by
      intro hc1
      apply hnotin
      rw [hq1, hc1]
      exact List.mem_cons_self _ _
    have hqt1 : s1.quantityThreads = s.quantityThreads - 1 := by rw [hqt, hsA]
    refine ⟨s1, next, rest, heq, hq1, hc, hrd, hc ▸ hw1.running, ?_, ?_, hqt1, ?_⟩
    · rw [hd, htr]
      exact ⟨_, rfl, by simp [hne]⟩
    · rw [hrd]
      intro hc1
      apply hnotin
      rw [hq1]
      exact List.mem_cons_of_mem _ hc1
    · rw [← hw1.count, ← hw.count, hqt1]

theorem advance_post_witness :
    exampleOneRunning.currentRunningTid = 1 ∧ exampleOneRunning.readyTidList = [2, 0] ∧
    ((∃ s1 h rest, switchThread exampleOneRunning = Outcome.switched s1 ∧
      exampleOneRunning.readyTidList ++ [exampleOneRunning.currentRunningTid] = h :: rest ∧
      s1.currentRunningTid = h ∧ s1.readyTidList = rest ∧
      (∃ t, derefAt s1.existedThreadsList h = some t ∧ t.state = RUNNING) ∧
      (h ≠ exampleOneRunning.currentRunningTid →
        ∃ t, derefAt s1.existedThreadsList exampleOneRunning.currentRunningTid = some t ∧
          t.state = READY) ∧
      s1.quantityThreads = exampleOneRunning.quantityThreads) ∧
    (exampleOneRunning.currentRunningTid ≠ MAIN_TID →
      ∃ s1 h rest,
        uthread_block exampleOneRunning exampleOneRunning.currentRunningTid =
          Outcome.switched s1 ∧
        exampleOneRunning.readyTidList = h :: rest ∧
        s1.currentRunningTid = h ∧ s1.readyTidList = rest ∧
        (∃ t, derefAt s1.existedThreadsList h = some t ∧ t.state = RUNNING) ∧
        (∃ t, derefAt s1.existedThreadsList exampleOneRunning.currentRunningTid = some t ∧
          t.state = BLOCKED) ∧
        exampleOneRunning.currentRunningTid ∉ s1.readyTidList ∧
        s1.quantityThreads = exampleOneRunning.quantityThreads) ∧
    (exampleOneRunning.currentRunningTid ≠ MAIN_TID →
      ∃ s1 h rest,
        uthread_terminate exampleOneRunning exampleOneRunning.currentRunningTid =
          Outcome.switched s1 ∧
        exampleOneRunning.readyTidList = h :: rest ∧
        s1.currentRunningTid = h ∧ s1.readyTidList = rest ∧
        (∃ t, derefAt s1.existedThreadsList h = some t ∧ t.state = RUNNING) ∧
        (∃ t, derefAt s1.existedThreadsList exampleOneRunning.currentRunningTid = some t ∧
          t.state = TERMINATED) ∧
        exampleOneRunning.currentRunningTid ∉ s1.readyTidList ∧
        s1.quantityThreads = exampleOneRunning.quantityThreads - 1 ∧
        liveCount s1.existedThreadsList =
          liveCount exampleOneRunning.existedThreadsList - 1)) :=
  ⟨by decide, by decide,
    advance_post 100 exampleOneRunning (exampleRun_reachable _ (by decide))⟩

end UThreads

namespace UThreads

/-! ## The ready queue at the selection of the next thread -/

theorem WF.main_ready {s : Lib} (h : WF s) (hmain : s.currentRunningTid ≠ MAIN_TID) :
    (∃ t, derefAt s.existedThreadsList MAIN_TID = some t ∧ t.state = READY) ∧
      MAIN_TID ∈ s.readyTidList := by
  obtain ⟨t, ht, hs⟩ := h.main_alive
  have hrd : t.state = READY := by
    rcases hs with h1 | h1
    · exact h1
    · exact absurd (h.running_unique _ t ht h1).symm hmain
  exact ⟨⟨t, ht, hrd⟩, h.ready_complete _ t ht hrd⟩

/-- C19: in a reachable state, at each of the three places where
`changeNextReadyToRunning` is called, the state `sA` that it is called in has a
non-empty ready queue, so `front()` and `pop_front()` are defined and the call
produces a state. On a quantum expiry `sA` is the state after
`changeStateRunningToReady`, whose queue ends with the outgoing thread. On a
block or a terminate that a thread other than main aims at itself, main is
READY and is in the queue of `sA`, which is the queue before the call. -/
theorem pop_never_on_empty (MAX_THREAD_NUM : Int) (s : Lib) (hr : Reachable MAX_THREAD_NUM s) :
    (∃ sA s1, changeStateRunningToReady s = some sA ∧
      sA.readyTidList = s.readyTidList ++ [s.currentRunningTid] ∧ sA.readyTidList ≠ [] ∧
      changeNextReadyToRunning sA = some s1 ∧ switchThread s = Outcome.switched s1) ∧
    (s.currentRunningTid ≠ MAIN_TID →
      (∃ t, derefAt s.existedThreadsList MAIN_TID = some t ∧ t.state = READY) ∧
      MAIN_TID ∈ s.readyTidList ∧
      (∃ v sA s1,
        updateThread s.existedThreadsList s.currentRunningTid (fun t => t.setState BLOCKED) =
          some v ∧
        sA = { s with existedThreadsList := v } ∧
        MAIN_TID ∈ sA.readyTidList ∧ sA.readyTidList ≠ [] ∧
        changeNextReadyToRunning sA = some s1 ∧
        uthread_block s s.currentRunningTid = Outcome.switched s1) ∧
      (∃ v sA s1,
        updateThread s.existedThreadsList s.currentRunningTid (fun t => t.setState TERMINATED) =
          some v ∧
        sA = { s with existedThreadsList := v
                      quantityThreads := s.quantityThreads - 1 } ∧
        MAIN_TID ∈ sA.readyTidList ∧ sA.readyTidList ≠ [] ∧
        changeNextReadyToRunning sA = some s1 ∧
        uthread_terminate s s.currentRunningTid = Outcome.switched s1)) := by
  have hw := hr.wf
  refine ⟨?_, ?_⟩
  · obtain ⟨v, sA, s1, hu, hsA, _, hnext, _, heq⟩ := switchThread_eq hw
    refine ⟨sA, s1, ?_, by rw [hsA], ?_, hnext, heq⟩
    · simp only [changeStateRunningToReady, hu, hsA]
    · rw [hsA]
      simp
  · intro hmain
    obtain ⟨hm1, hm2⟩ := hw.main_ready hmain
    refine ⟨hm1, hm2, ?_, ?_⟩
    · obtain ⟨v, sA, s1, hu, hsA, _, hnext, _, heq⟩ := uthread_block_self_eq hw hmain
      have hq : sA.readyTidList = s.readyTidList := by rw [hsA]
      exact ⟨v, sA, s1, hu, hsA, hq ▸ hm2, hq ▸ List.ne_nil_of_mem hm2, hnext, heq⟩
    · obtain ⟨v, sA, s1, hu, hsA, _, hnext, _, heq⟩ := uthread_terminate_self_eq hw hmain
      have hq : sA.readyTidList = s.readyTidList := by rw [hsA]
      exact ⟨v, sA, s1, hu, hsA, hq ▸ hm2, hq ▸ List.ne_nil_of_mem hm2, hnext, heq⟩

theorem pop_never_on_empty_witness :
    exampleOneRunning.currentRunningTid = 1 ∧ exampleOneRunning.readyTidList = [2, 0] ∧
    ((∃ sA s1, changeStateRunningToReady exampleOneRunning = some sA ∧
      sA.readyTidList =
        exampleOneRunning.readyTidList ++ [exampleOneRunning.currentRunningTid] ∧
      sA.readyTidList ≠ [] ∧
      changeNextReadyToRunning sA = some s1 ∧
      switchThread exampleOneRunning = Outcome.switched s1) ∧
    (exampleOneRunning.currentRunningTid ≠ MAIN_TID →
      (∃ t, derefAt exampleOneRunning.existedThreadsList MAIN_TID = some t ∧
        t.state = READY) ∧
      MAIN_TID ∈ exampleOneRunning.readyTidList ∧
      (∃ v sA s1,
        updateThread exampleOneRunning.existedThreadsList exampleOneRunning.currentRunningTid
          (fun t => t.setState BLOCKED) = some v ∧
        sA = { exampleOneRunning with existedThreadsList := v } ∧
        MAIN_TID ∈ sA.readyTidList ∧ sA.readyTidList ≠ [] ∧
        changeNextReadyToRunning sA = some s1 ∧
        uthread_block exampleOneRunning exampleOneRunning.currentRunningTid =
          Outcome.switched s1) ∧
      (∃ v sA s1,
        updateThread exampleOneRunning.existedThreadsList exampleOneRunning.currentRunningTid
          (fun t => t.setState TERMINATED) = some v ∧
        sA = { exampleOneRunning with
                existedThreadsList := v
                quantityThreads := exampleOneRunning.quantityThreads - 1 } ∧
        MAIN_TID ∈ sA.readyTidList ∧ sA.readyTidList ≠ [] ∧
        changeNextReadyToRunning sA = some s1 ∧
        uthread_terminate exampleOneRunning exampleOneRunning.currentRunningTid =
          Outcome.switched s1))) :=
  ⟨by decide, by decide,
    pop_never_on_empty 100 exampleOneRunning (exampleRun_reachable _ (by decide))⟩

end UThreads

namespace UThreads

/-! ## The quantum table and the live count under an event -/

theorem step_frame (MAX_THREAD_NUM : Int) {s s1 : Lib} (e : Event) (h : WF s)
    (hs : (step MAX_THREAD_NUM s e).state? = some s1) :
    s1.quantumPriorityList = s.quantumPriorityList ∧
      s1.handlerInstalled = s.handlerInstalled ∧
      s1.quantityThreads = s.quantityThreads + quantityChange e (step MAX_THREAD_NUM s e) ∧
      (0 < quantityChange e (step MAX_THREAD_NUM s e) → s.quantityThreads ≠ MAX_THREAD_NUM) := by
  cases e with
  | expiry =>
    obtain ⟨_, sA, s2, _, hsA, _, hnext, _, heq⟩ := switchThread_eq h
    obtain ⟨_, _, _, _, _, _, hqt, hqp, hhi⟩ := changeNextReadyToRunning_fields hnext
    simp only [step] at hs ⊢
    rw [heq] at hs ⊢
    cases state?_switched hs
    refine ⟨by rw [hqp, hsA], by rw [hhi, hsA], ?_⟩
    rw [hqt, hsA]
    simp [quantityChange]
  | spawn f p =>
    simp only [step] at hs ⊢
    by_cases hfr : Slot.freed ∈ s.existedThreadsList
    · rw [uthread_spawn_undefined MAX_THREAD_NUM hfr] at hs
      cases hs
    · by_cases hc : s.quantityThreads = MAX_THREAD_NUM ∨ isValidPriority s p = false ∨ f = none
      · rw [uthread_spawn_failure MAX_THREAD_NUM hfr hc] at hs ⊢
        cases state?_ret hs
        simp [quantityChange]
      · simp only [not_or, Bool.not_eq_false] at hc
        have hb := firstNull_bounds (s.existedThreadsList.map sweepSlot) 0
        have hnf : firstNull (s.existedThreadsList.map sweepSlot) 0 ≠ FAILURE := by
          intro hc1; rw [hc1] at hb; simp at hb
        rw [uthread_spawn_success MAX_THREAD_NUM hfr hc.1 hc.2.1 hc.2.2 h.table_ne_nil] at hs ⊢
        cases state?_ret hs
        simp [quantityChange, hnf, hc.1]
  | change_priority tid p =>
    simp only [step] at hs ⊢
    rcases isValidTid_cases s tid with hv | ⟨hv, _⟩ | ⟨hv, t, ht, hst⟩
    · simp [uthread_change_priority, hv, Outcome.state?] at hs
    · rw [uthread_change_priority_of_invalid _ hv] at hs ⊢
      cases state?_ret hs
      simp [quantityChange]
    · rw [uthread_change_priority_live ht hst] at hs ⊢
      by_cases hp : isValidPriority s p = true
      · rw [if_pos hp] at hs ⊢
        cases state?_ret hs
        simp [quantityChange]
      · rw [if_neg hp] at hs ⊢
        cases state?_ret hs
        simp [quantityChange]
  | terminate tid =>
    simp only [step] at hs ⊢
    rcases isValidTid_cases s tid with hv | ⟨hv, _⟩ | ⟨hv, t, ht, hst⟩
    · simp [uthread_terminate, hv, Outcome.state?] at hs
    · have heq : uthread_terminate s tid = Outcome.ret s FAILURE := by
        simp [uthread_terminate, hv]
      rw [heq] at hs ⊢
      cases state?_ret hs
      simp [quantityChange]
    · by_cases hmain : tid = MAIN_TID
      · exfalso
        subst hmain
        simp only [uthread_terminate, hv, if_true, terminateMainThread] at hs
        split at hs <;> cases hs
      · by_cases hrun : tid = s.currentRunningTid
        · obtain ⟨_, sA, s2, _, hsA, _, hnext, _, heq⟩ :=
            uthread_terminate_self_eq h (hrun ▸ hmain)
          obtain ⟨_, _, _, _, _, _, hqt, hqp, hhi⟩ := changeNextReadyToRunning_fields hnext
          rw [hrun, heq] at hs ⊢
          cases state?_switched hs
          refine ⟨by rw [hqp, hsA], by rw [hhi, hsA], ?_⟩
          rw [hqt, hsA]
          simp [quantityChange]
          ring_nf
        · rw [uthread_terminate_other ht hst hmain hrun] at hs ⊢
          cases state?_ret hs
          simp [quantityChange]
          ring_nf
  | block tid =>
    simp only [step] at hs ⊢
    rcases isValidTid_cases s tid with hv | ⟨hv, _⟩ | ⟨hv, t, ht, hst⟩
    · simp [uthread_block, hv, Outcome.state?] at hs
    · have heq : uthread_block s tid = Outcome.ret s FAILURE := by
        simp [uthread_block, hv]
      rw [heq] at hs ⊢
      cases state?_ret hs
      simp [quantityChange]
    · by_cases hmain : tid = MAIN_TID
      · have heq : uthread_block s tid = Outcome.ret s FAILURE := by
          subst hmain
          simp [uthread_block, hv]
        rw [heq] at hs ⊢
        cases state?_ret hs
        simp [quantityChange]
      · by_cases hrun : tid = s.currentRunningTid
        · obtain ⟨_, sA, s2, _, hsA, _, hnext, _, heq⟩ :=
            uthread_block_self_eq h (hrun ▸ hmain)
          obtain ⟨_, _, _, _, _, _, hqt, hqp, hhi⟩ := changeNextReadyToRunning_fields hnext
          rw [hrun, heq] at hs ⊢
          cases state?_switched hs
          refine ⟨by rw [hqp, hsA], by rw [hhi, hsA], ?_⟩
          rw [hqt, hsA]
          simp [quantityChange]
        · rw [uthread_block_other ht hst hmain hrun] at hs ⊢
          cases state?_ret hs
          simp [quantityChange]
  | resume tid =>
    simp only [step] at hs ⊢
    rcases isValidTid_cases s tid with hv | ⟨hv, _⟩ | ⟨hv, t, ht, hst⟩
    · simp [uthread_resume, hv, Outcome.state?] at hs
    · have heq : uthread_resume s tid = Outcome.ret s FAILURE := by
        simp [uthread_resume, hv]
      rw [heq] at hs ⊢
      cases state?_ret hs
      simp [quantityChange]
    · rw [uthread_resume_live ht hst] at hs ⊢
      by_cases hb : t.state = BLOCKED
      · rw [if_pos hb] at hs ⊢
        cases state?_ret hs
        simp [quantityChange]
      · rw [if_neg hb] at hs ⊢
        cases state?_ret hs
        simp [quantityChange]

end UThreads

namespace UThreads

/-- Induction over the runs that start with a successful `uthread_init`. -/
theorem Reachable.induct (MAX_THREAD_NUM : Int) (P : Lib → Prop)
    (hinit : ∀ quantum_usecs size s0,
      uthread_init Lib.initial quantum_usecs size = Outcome.ret s0 SUCCESS → P s0)
    (hstep : ∀ s e s1, WF s → P s → (step MAX_THREAD_NUM s e).state? = some s1 → P s1)
    {s : Lib} (hr : Reachable MAX_THREAD_NUM s) : P s := by
  obtain ⟨h1, ⟨q, size, s0, es, hi, hrun⟩, rfl⟩ := hr
  have key : ∀ (es : List Event) (g : Hist), WF g.lib → P g.lib →
      g.run MAX_THREAD_NUM es = some h1 → P h1.lib := by
    intro es
    induction es with
    | nil =>
      intro g _ hp hg
      cases hg
      exact hp
    | cons e es ih =>
      intro g hw hp hg
      simp only [Hist.run] at hg
      cases hst : g.step MAX_THREAD_NUM e with
      | none => rw [hst] at hg; cases hg
      | some g1 =>
        rw [hst] at hg
        have hl := Hist.step_lib hst
        exact ih g1 (step_wf MAX_THREAD_NUM e hw hl) (hstep _ e _ hw hp hl) hg
  exact key es _ (uthread_init_wf hi) (hinit q size s0 hi) hrun

/-- A state reached by one more event from a reachable state is reachable. -/
theorem Reachable.next {MAX_THREAD_NUM : Int} {s s1 : Lib} {e : Event}
    (hr : Reachable MAX_THREAD_NUM s)
    (hs : (UThreads.step MAX_THREAD_NUM s e).state? = some s1) :
    Reachable MAX_THREAD_NUM s1 := by
  obtain ⟨h, hh, rfl⟩ := hr
  have : ∃ h1, h.step MAX_THREAD_NUM e = some h1 ∧ h1.lib = s1 := by
    unfold Hist.step
    cases ho : UThreads.step MAX_THREAD_NUM h.lib e with
    | ret s2 v =>
      rw [ho] at hs
      cases state?_ret hs
      simp only
      cases freshTid e v with
      | none => exact ⟨_, rfl, rfl⟩
      | some w => exact ⟨_, rfl, rfl⟩
    | switched s2 =>
      rw [ho] at hs
      cases state?_switched hs
      exact ⟨_, rfl, rfl⟩
    | exited c => rw [ho] at hs; cases hs
    | undefined => rw [ho] at hs; cases hs
  obtain ⟨h1, hs1, hl⟩ := this
  exact ⟨h1, hh.step hs1, hl⟩

theorem liveCount_pos {v : List Slot} {i : Int} {t : Thread}
    (h : derefAt v i = some t) (hs : t.state ≠ TERMINATED) : 1 ≤ liveCount v := by
  obtain ⟨_, h1⟩ := indexAt_eq_some.mp (derefAt_eq_some.mp h)
  obtain ⟨hlt, hget⟩ := List.getElem?_eq_some.mp h1
  have : 0 < List.countP isLiveSlot v := by
    apply List.countP_pos_iff.mpr
    exact ⟨Slot.thread t, hget ▸ List.getElem_mem hlt, by simp [isLiveSlot, hs]⟩
  unfold liveCount
  omega

theorem WF.quantity_pos {s : Lib} (h : WF s) : 1 ≤ s.quantityThreads := by
  obtain ⟨t, ht, hs⟩ := h.running
  rw [h.count]
  exact liveCount_pos ht (by rw [hs]; decide)

theorem Reachable.quantity_le {MAX_THREAD_NUM : Int} (hmax : 1 ≤ MAX_THREAD_NUM) {s : Lib}
    (hr : Reachable MAX_THREAD_NUM s) : s.quantityThreads ≤ MAX_THREAD_NUM := by
  refine Reachable.induct MAX_THREAD_NUM (fun s => s.quantityThreads ≤ MAX_THREAD_NUM) ?_ ?_ hr
  · intro q size s0 hi
    cases hv : isValidQuantum q size with
    | false =>
      rw [uthread_init_invalid _ _ _ hv] at hi
      cases hi
    | true =>
      rw [uthread_init_valid _ _ hv] at hi
      cases hi
      exact hmax
  · intro s e s1 hw hp hs
    obtain ⟨_, _, hq, hg⟩ := step_frame MAX_THREAD_NUM e hw hs
    show s1.quantityThreads ≤ MAX_THREAD_NUM
    have hp1 : s.quantityThreads ≤ MAX_THREAD_NUM := hp
    have hle : quantityChange e (UThreads.step MAX_THREAD_NUM s e) ≤ 1 := by
      unfold quantityChange
      split <;> (try split_ifs) <;> decide
    by_cases hpos : 0 < quantityChange e (UThreads.step MAX_THREAD_NUM s e)
    · have := hg hpos
      omega
    · omega

/-- C20: let `MAX_THREAD_NUM` be at least 1. In every reachable state
`quantityThreads` is the number of slots that hold a thread whose state is not
TERMINATED and lies between 1 and `MAX_THREAD_NUM`. Every event that ends in a
state keeps this and changes both numbers by the same amount: plus one for a
spawn that does not fail, minus one for a terminate that succeeds (of another
thread or of the running thread itself), zero for everything else. -/
theorem live_count_invariant (MAX_THREAD_NUM : Int) (hmax : 1 ≤ MAX_THREAD_NUM) (s : Lib)
    (hr : Reachable MAX_THREAD_NUM s) :
    s.quantityThreads = liveCount s.existedThreadsList ∧
      1 ≤ s.quantityThreads ∧ s.quantityThreads ≤ MAX_THREAD_NUM ∧
      ∀ e s1, (step MAX_THREAD_NUM s e).state? = some s1 →
        s1.quantityThreads = liveCount s1.existedThreadsList ∧
        1 ≤ s1.quantityThreads ∧ s1.quantityThreads ≤ MAX_THREAD_NUM ∧
        s1.quantityThreads =
          s.quantityThreads + quantityChange e (step MAX_THREAD_NUM s e) ∧
        liveCount s1.existedThreadsList =
          liveCount s.existedThreadsList + quantityChange e (step MAX_THREAD_NUM s e) := by
  have hw := hr.wf
  refine ⟨hw.count, hw.quantity_pos, hr.quantity_le hmax, ?_⟩
  intro e s1 hs
  have hr1 := hr.next hs
  have hw1 := hr1.wf
  obtain ⟨_, _, hq, _⟩ := step_frame MAX_THREAD_NUM e hw hs
  refine ⟨hw1.count, hw1.quantity_pos, hr1.quantity_le hmax, hq, ?_⟩
  rw [← hw1.count, ← hw.count]
  exact hq

theorem live_count_invariant_witness :
    exampleOneRunning.quantityThreads = 3 ∧
    (exampleOneRunning.quantityThreads = liveCount exampleOneRunning.existedThreadsList ∧
      1 ≤ exampleOneRunning.quantityThreads ∧ exampleOneRunning.quantityThreads ≤ 100 ∧
      ∀ e s1, (step 100 exampleOneRunning e).state? = some s1 →
        s1.quantityThreads = liveCount s1.existedThreadsList ∧
        1 ≤ s1.quantityThreads ∧ s1.quantityThreads ≤ 100 ∧
        s1.quantityThreads =
          exampleOneRunning.quantityThreads + quantityChange e (step 100 exampleOneRunning e) ∧
        liveCount s1.existedThreadsList =
          liveCount exampleOneRunning.existedThreadsList +
            quantityChange e (step 100 exampleOneRunning e)) :=
  ⟨by decide,
    live_count_invariant 100 (by decide) exampleOneRunning
      (exampleRun_reachable _ (by decide))⟩

end UThreads

namespace UThreads

/-! ## The timer -/

/-- In a reachable state every quantum length is positive. -/
theorem Reachable.quanta_pos {MAX_THREAD_NUM : Int} {s : Lib}
    (hr : Reachable MAX_THREAD_NUM s) : ∀ q ∈ s.quantumPriorityList, 0 < q := by
  refine Reachable.induct MAX_THREAD_NUM (fun s => ∀ q ∈ s.quantumPriorityList, 0 < q) ?_ ?_ hr
  · intro qu size s0 hi
    cases hv : isValidQuantum qu size with
    | false =>
      rw [uthread_init_invalid _ _ _ hv] at hi
      cases hi
    | true =>
      rw [uthread_init_valid _ _ hv] at hi
      cases hi
      exact isValidQuantum_pos hv
  · intro s e s1 hw hp hs
    obtain ⟨hq, _⟩ := step_frame MAX_THREAD_NUM e hw hs
    show ∀ q ∈ s1.quantumPriorityList, 0 < q
    rw [hq]
    exact hp

theorem changeNextReadyToRunning_timer {s s1 : Lib} (h : changeNextReadyToRunning s = some s1) :
    ∃ t q, derefAt s1.existedThreadsList s1.currentRunningTid = some t ∧
      indexAt s1.quantumPriorityList t.priority = some q ∧
      s1.timer =
        { value_sec := getSeconds q, value_usec := q - getSeconds q * SECOND_IN_MILLISECOND,
          interval_sec := 0, interval_usec := 0 } ∧
      s1.armed = some s1.timer := by
  unfold changeNextReadyToRunning at h
  split at h
  · cases h
  · split at h
    · cases h
    · split at h
      · cases h
      · split at h
        · cases h
        · rename_i t hd
          split at h
          · cases h
          · rename_i q hq
            cases h
            exact ⟨t, q, hd, hq, rfl, rfl⟩

/-- From a state that satisfies the invariant a scheduling event ends in the
state that `changeNextReadyToRunning` produces, with the quantum table of the
state before the event. -/
theorem scheduling_event_selects (MAX_THREAD_NUM : Int) {s : Lib} (h : WF s) (e : Event)
    (hs : isSchedulingEvent s e = true) :
    ∃ sA s1, changeNextReadyToRunning sA = some s1 ∧
      sA.quantumPriorityList = s.quantumPriorityList ∧
      step MAX_THREAD_NUM s e = Outcome.switched s1 := by
  cases e with
  | expiry =>
    obtain ⟨_, sA, s1, _, hsA, _, hnext, _, heq⟩ := switchThread_eq h
    exact ⟨sA, s1, hnext, by rw [hsA], heq⟩
  | spawn f p => cases hs
  | change_priority tid p => cases hs
  | resume tid => cases hs
  | terminate tid =>
    simp only [isSchedulingEvent, Bool.and_eq_true, decide_eq_true_eq] at hs
    obtain ⟨hrun, hmain⟩ := hs
    obtain ⟨_, sA, s1, _, hsA, _, hnext, _, heq⟩ := uthread_terminate_self_eq h (hrun ▸ hmain)
    exact ⟨sA, s1, hnext, by rw [hsA], by rw [hrun]; exact heq⟩
  | block tid =>
    simp only [isSchedulingEvent, Bool.and_eq_true, decide_eq_true_eq] at hs
    obtain ⟨hrun, hmain⟩ := hs
    obtain ⟨_, sA, s1, _, hsA, _, hnext, _, heq⟩ := uthread_block_self_eq h (hrun ▸ hmain)
    exact ⟨sA, s1, hnext, by rw [hsA], by rw [hrun]; exact heq⟩

/-- C11: from a reachable state every scheduling event (quantum expiry, block
or terminate that a thread other than main aims at itself) ends in a switch to
a state in which the timer handed to `setitimer` is the one-shot timer for the
quantum length `q` that the quantum table holds for the priority which the new
running thread has in that state: `tv_sec * 1000000 + tv_usec = q` with
`0 <= tv_usec < 1000000` and `0 <= tv_sec`, and the interval is zero. -/
theorem timer_armed_for_selected (MAX_THREAD_NUM : Int) (s : Lib)
    (hr : Reachable MAX_THREAD_NUM s) (e : Event) (he : isSchedulingEvent s e = true) :
    ∃ s1 t q tm, step MAX_THREAD_NUM s e = Outcome.switched s1 ∧
      derefAt s1.existedThreadsList s1.currentRunningTid = some t ∧
      indexAt s1.quantumPriorityList t.priority = some q ∧
      s1.armed = some tm ∧ s1.timer = tm ∧
      tm.value_sec * 1000000 + tm.value_usec = q ∧
      0 ≤ tm.value_usec ∧ tm.value_usec < 1000000 ∧ 0 ≤ tm.value_sec ∧
      tm.interval_sec = 0 ∧ tm.interval_usec = 0 := by
  have hw := hr.wf
  obtain ⟨sA, s1, hnext, hqa, heq⟩ := scheduling_event_selects MAX_THREAD_NUM hw e he
  obtain ⟨t, q, hd, hq, htm, harm⟩ := changeNextReadyToRunning_timer hnext
  obtain ⟨_, _, _, _, _, _, _, hqp, _⟩ := changeNextReadyToRunning_fields hnext
  have hmem : q ∈ s.quantumPriorityList := by
    rw [← hqa, ← hqp]
    obtain ⟨_, h1⟩ := indexAt_eq_some.mp hq
    obtain ⟨hlt, hget⟩ := List.getElem?_eq_some.mp h1
    exact hget ▸ List.getElem_mem hlt
  have hpos := hr.quanta_pos q hmem
  obtain ⟨h1, h2, h3, h4⟩ := timer_split (le_of_lt hpos)
  refine ⟨s1, t, q, s1.timer, heq, hd, hq, harm, rfl, ?_, ?_, ?_, ?_, ?_, ?_⟩ <;> rw [htm]
  · exact h1
  · exact h2
  · exact h3
  · exact h4

theorem timer_armed_for_selected_witness :
    ((exampleRun [Event.spawn (some 1) 0, Event.spawn (some 2) 1,
        Event.expiry]).currentRunningTid = 1 ∧
      (exampleRun [Event.spawn (some 1) 0, Event.spawn (some 2) 1, Event.expiry]).armed =
        some { value_sec := 0, value_usec := 100000, interval_sec := 0, interval_usec := 0 } ∧
      (exampleRun [Event.spawn (some 1) 0, Event.spawn (some 2) 1, Event.expiry,
        Event.expiry]).currentRunningTid = 2 ∧
      (exampleRun [Event.spawn (some 1) 0, Event.spawn (some 2) 1, Event.expiry,
        Event.expiry]).armed =
        some { value_sec := 0, value_usec := 200000, interval_sec := 0, interval_usec := 0 } ∧
      (exampleRun [Event.spawn (some 1) 0, Event.spawn (some 2) 1, Event.expiry, Event.expiry,
        Event.expiry]).currentRunningTid = 0 ∧
      (exampleRun [Event.spawn (some 1) 0, Event.spawn (some 2) 1, Event.expiry, Event.expiry,
        Event.expiry]).armed =
        some { value_sec := 0, value_usec := 100000, interval_sec := 0, interval_usec := 0 } ∧
      uthread_get_total_quantums
          (exampleRun [Event.spawn (some 1) 0, Event.spawn (some 2) 1, Event.expiry,
            Event.expiry, Event.expiry]) =
        uthread_get_total_quantums exampleTwoSpawned + 3) ∧
    ∃ s1 t q tm, step 100 exampleTwoSpawned Event.expiry = Outcome.switched s1 ∧
      derefAt s1.existedThreadsList s1.currentRunningTid = some t ∧
      indexAt s1.quantumPriorityList t.priority = some q ∧
      s1.armed = some tm ∧ s1.timer = tm ∧
      tm.value_sec * 1000000 + tm.value_usec = q ∧
      0 ≤ tm.value_usec ∧ tm.value_usec < 1000000 ∧ 0 ≤ tm.value_sec ∧
      tm.interval_sec = 0 ∧ tm.interval_usec = 0 :=
  ⟨⟨by decide, by decide, by decide, by decide, by decide, by decide, by decide⟩,
    timer_armed_for_selected 100 exampleTwoSpawned (exampleRun_reachable _ (by decide))
      Event.expiry (by decide)⟩

end UThreads

namespace UThreads

/-! ## The stored quantum counter -/

end UThreads

namespace UThreads

/-! ## Independence of the schedule from the priorities -/

theorem SameSchedule.intro {a b : Lib}
    (h1 : a.existedThreadsList.map Slot.erasePriority =
      b.existedThreadsList.map Slot.erasePriority)
    (h2 : a.readyTidList = b.readyTidList)
    (h3 : a.currentRunningTid = b.currentRunningTid)
    (h4 : a.quantityThreads = b.quantityThreads)
    (h5 : a.totalQuantumElapsed = b.totalQuantumElapsed)
    (h6 : a.handlerInstalled = b.handlerInstalled) : SameSchedule a b := by
  unfold SameSchedule Lib.schedule
  rw [h1, h2, h3, h4, h5, h6]

theorem SameSchedule.table {a b : Lib} (h : SameSchedule a b) :
    a.existedThreadsList.map Slot.erasePriority =
      b.existedThreadsList.map Slot.erasePriority :=
  have h1 : a.schedule.existedThreadsList = b.schedule.existedThreadsList :=
    congrArg Lib.existedThreadsList h
  h1

theorem SameSchedule.ready {a b : Lib} (h : SameSchedule a b) :
    a.readyTidList = b.readyTidList :=
  have h1 : a.schedule.readyTidList = b.schedule.readyTidList := congrArg Lib.readyTidList h
  h1

theorem SameSchedule.current {a b : Lib} (h : SameSchedule a b) :
    a.currentRunningTid = b.currentRunningTid :=
  have h1 : a.schedule.currentRunningTid = b.schedule.currentRunningTid := congrArg Lib.currentRunningTid h
  h1

theorem SameSchedule.quantity {a b : Lib} (h : SameSchedule a b) :
    a.quantityThreads = b.quantityThreads :=
  have h1 : a.schedule.quantityThreads = b.schedule.quantityThreads := congrArg Lib.quantityThreads h
  h1

theorem SameSchedule.total {a b : Lib} (h : SameSchedule a b) :
    a.totalQuantumElapsed = b.totalQuantumElapsed :=
  have h1 : a.schedule.totalQuantumElapsed = b.schedule.totalQuantumElapsed := congrArg Lib.totalQuantumElapsed h
  h1

theorem SameSchedule.handler {a b : Lib} (h : SameSchedule a b) :
    a.handlerInstalled = b.handlerInstalled :=
  have h1 : a.schedule.handlerInstalled = b.schedule.handlerInstalled := congrArg Lib.handlerInstalled h
  h1

theorem SameSchedule.length {a b : Lib} (h : SameSchedule a b) :
    a.existedThreadsList.length = b.existedThreadsList.length := by
  have := congrArg List.length h.table
  simpa using this

theorem SameSchedule.indexAt {a b : Lib} (h : SameSchedule a b) (j : Int) :
    (indexAt a.existedThreadsList j).map Slot.erasePriority =
      (indexAt b.existedThreadsList j).map Slot.erasePriority := by
  rw [← indexAt_map, ← indexAt_map, h.table]

theorem Slot.erasePriority_eq_thread {x : Slot} {t : Thread}
    (h : x.erasePriority = Slot.thread t) : ∃ t0, x = Slot.thread t0 ∧ t0.erasePriority = t := by
  cases x with
  | null => cases h
  | freed => cases h
  | thread t0 =>
    simp only [Slot.erasePriority, Slot.thread.injEq] at h
    exact ⟨t0, rfl, h⟩

/-- Related states hold threads in the same slots, equal up to the priority. -/
theorem SameSchedule.derefAt {a b : Lib} (h : SameSchedule a b) {j : Int} {t : Thread}
    (ht : derefAt a.existedThreadsList j = some t) :
    ∃ t1, derefAt b.existedThreadsList j = some t1 ∧ t1.erasePriority = t.erasePriority := by
  have hx := h.indexAt j
  rw [derefAt_eq_some.mp ht] at hx
  cases hb : UThreads.indexAt b.existedThreadsList j with
  | none => rw [hb] at hx; cases hx
  | some y =>
    rw [hb] at hx
    simp only [Option.map_some', Option.some.injEq, Slot.erasePriority] at hx
    obtain ⟨t1, rfl, ht1⟩ := Slot.erasePriority_eq_thread hx.symm
    exact ⟨t1, derefAt_eq_some.mpr hb, ht1⟩

theorem SameSchedule.symm {a b : Lib} (h : SameSchedule a b) : SameSchedule b a :=
  Eq.symm h

theorem erasePriority_state {t t1 : Thread} (h : t1.erasePriority = t.erasePriority) :
    t1.state = t.state :=
  have h1 : t1.erasePriority.state = t.erasePriority.state := congrArg Thread.state h
  h1

theorem erasePriority_setState {t t1 : Thread} (h : t1.erasePriority = t.erasePriority)
    (st : Int) : (t1.setState st).erasePriority = (t.setState st).erasePriority := by
  cases t; cases t1
  simp_all [Thread.erasePriority, Thread.setState]

theorem erasePriority_increase {t t1 : Thread} (h : t1.erasePriority = t.erasePriority) :
    t1.increaseQuantumElapsed.erasePriority = t.increaseQuantumElapsed.erasePriority := by
  cases t; cases t1
  simp_all [Thread.erasePriority, Thread.increaseQuantumElapsed]

theorem erasePriority_setPriority (t : Thread) (p : Int) :
    (t.setPriority p).erasePriority = t.erasePriority := rfl

theorem erasePriority_new (tid p p1 st : Int) :
    (Thread.new tid p st).erasePriority = (Thread.new tid p1 st).erasePriority := rfl

/-- Related tables stay related when the same slot is overwritten with related
entries. -/
theorem map_erase_set {v w : List Slot} (h : v.map Slot.erasePriority = w.map Slot.erasePriority)
    (i : Nat) {x y : Slot} (hxy : x.erasePriority = y.erasePriority) :
    (v.set i x).map Slot.erasePriority = (w.set i y).map Slot.erasePriority := by
  rw [List.map_set, List.map_set, h, hxy]

theorem isLive_sameSchedule {a b : Lib} (h : SameSchedule a b) (tid : Int) :
    isLive a tid = isLive b tid := by
  unfold isLive
  cases ha : UThreads.derefAt a.existedThreadsList tid with
  | some t =>
    obtain ⟨t1, ht1, he⟩ := h.derefAt ha
    rw [ht1]
    simp only [erasePriority_state he]
  | none =>
    cases hb : UThreads.derefAt b.existedThreadsList tid with
    | none => rfl
    | some t1 =>
      obtain ⟨t, ht, _⟩ := h.symm.derefAt hb
      rw [ha] at ht
      cases ht

theorem erasePriority_eq_freed {x : Slot} : x.erasePriority = Slot.freed ↔ x = Slot.freed := by
  cases x <;> simp [Slot.erasePriority]

theorem erasePriority_eq_null {x : Slot} : x.erasePriority = Slot.null ↔ x = Slot.null := by
  cases x <;> simp [Slot.erasePriority]

theorem mem_freed_map_erase (v : List Slot) :
    Slot.freed ∈ v.map Slot.erasePriority ↔ Slot.freed ∈ v := by
  simp only [List.mem_map]
  constructor
  · rintro ⟨x, hx, he⟩
    rw [erasePriority_eq_freed.mp he] at hx
    exact hx
  · intro hx
    exact ⟨Slot.freed, hx, rfl⟩

theorem freed_sameSchedule {a b : Lib} (h : SameSchedule a b) :
    Slot.freed ∈ a.existedThreadsList ↔ Slot.freed ∈ b.existedThreadsList := by
  rw [← mem_freed_map_erase, ← mem_freed_map_erase b.existedThreadsList, h.table]

theorem isDangling_sameSchedule {a b : Lib} (h : SameSchedule a b) (tid : Int) :
    isDangling a tid = isDangling b tid := by
  unfold isDangling
  have hx := h.indexAt tid
  cases ha : UThreads.indexAt a.existedThreadsList tid with
  | none =>
    rw [ha] at hx
    cases hb : UThreads.indexAt b.existedThreadsList tid with
    | none => rfl
    | some y => rw [hb] at hx; cases hx
  | some x =>
    rw [ha] at hx
    cases hb : UThreads.indexAt b.existedThreadsList tid with
    | none => rw [hb] at hx; cases hx
    | some y =>
      rw [hb] at hx
      simp only [Option.map_some', Option.some.injEq] at hx
      have : x = Slot.freed ↔ y = Slot.freed := by
        rw [← erasePriority_eq_freed, hx, erasePriority_eq_freed]
      simp [this]

theorem isValidTid_sameSchedule {a b : Lib} (h : SameSchedule a b) (tid : Int) :
    isValidTid a tid = isValidTid b tid := by
  rw [isValidTid_eq, isValidTid_eq, isDangling_sameSchedule h, isLive_sameSchedule h]

end UThreads

namespace UThreads

theorem derefAt_erase_rel {v w : List Slot}
    (h : v.map Slot.erasePriority = w.map Slot.erasePriority) {j : Int} {t : Thread}
    (ht : derefAt v j = some t) :
    ∃ t1, derefAt w j = some t1 ∧ t1.erasePriority = t.erasePriority := by
  have hx : (indexAt v j).map Slot.erasePriority = (indexAt w j).map Slot.erasePriority := by
    rw [← indexAt_map, ← indexAt_map, h]
  rw [derefAt_eq_some.mp ht] at hx
  cases hb : indexAt w j with
  | none => rw [hb] at hx; cases hx
  | some y =>
    rw [hb] at hx
    simp only [Option.map_some', Option.some.injEq, Slot.erasePriority] at hx
    obtain ⟨t1, rfl, ht1⟩ := Slot.erasePriority_eq_thread hx.symm
    exact ⟨t1, derefAt_eq_some.mpr hb, ht1⟩

/-- Related tables stay related under the same update of the same slot, when
the two mutators respect the relation. -/
theorem updateThread_erase_rel {v w v1 w1 : List Slot}
    (h : v.map Slot.erasePriority = w.map Slot.erasePriority) {i : Int}
    {m m1 : Thread → Thread}
    (hm : ∀ t t1, t1.erasePriority = t.erasePriority →
      (m1 t1).erasePriority = (m t).erasePriority)
    (h1 : updateThread v i m = some v1) (h2 : updateThread w i m1 = some w1) :
    v1.map Slot.erasePriority = w1.map Slot.erasePriority := by
  obtain ⟨t, ht, rfl⟩ := updateThread_some_iff.mp h1
  obtain ⟨t1, ht1, rfl⟩ := updateThread_some_iff.mp h2
  obtain ⟨t2, ht2, he⟩ := derefAt_erase_rel h ht
  rw [ht1] at ht2
  cases ht2
  apply map_erase_set h
  show Slot.thread (m t).erasePriority = Slot.thread (m1 t1).erasePriority
  rw [hm t t1 he]

theorem changeNextReadyToRunning_sameSchedule {sA sB s1 s2 : Lib} (ha : WFmid sA)
    (hb : WFmid sB) (h : SameSchedule sA sB)
    (h1 : changeNextReadyToRunning sA = some s1) (h2 : changeNextReadyToRunning sB = some s2) :
    SameSchedule s1 s2 := by
  obtain ⟨trA, tnA, next, rest, qA, hrA, hqA, hnA, _, hpA⟩ := ha.next_exists
  obtain ⟨trB, tnB, next1, rest1, qB, hrB, hqB, hnB, _, hpB⟩ := hb.next_exists
  have hrd := h.ready
  rw [hqA, hqB] at hrd
  obtain ⟨rfl, rfl⟩ := List.cons.inj hrd
  have hcur := h.current
  obtain ⟨t2, ht2, her⟩ := h.derefAt hrA
  rw [hcur, hrB] at ht2
  cases ht2
  obtain ⟨t3, ht3, hen⟩ := h.derefAt hnA
  rw [hnB] at ht3
  cases ht3
  rw [changeNextReadyToRunning_eq hrA hqA hnA hpA] at h1
  rw [changeNextReadyToRunning_eq hrB hqB hnB hpB] at h2
  cases h1
  cases h2
  refine SameSchedule.intro ?_ rfl rfl h.quantity ?_ h.handler
  · show ((sA.existedThreadsList.set sA.currentRunningTid.toNat _).set next.toNat _).map
        Slot.erasePriority =
      ((sB.existedThreadsList.set sB.currentRunningTid.toNat _).set next.toNat _).map
        Slot.erasePriority
    apply map_erase_set
    · rw [hcur]
      apply map_erase_set h.table
      show Slot.thread _ = Slot.thread _
      rw [erasePriority_increase her]
    · show Slot.thread _ = Slot.thread _
      rw [hcur]
      by_cases hn : next = sB.currentRunningTid
      · rw [if_pos hn, if_pos hn, erasePriority_setState (erasePriority_increase her)]
      · rw [if_neg hn, if_neg hn, erasePriority_setState hen]
  · show toInt (sA.totalQuantumElapsed + 1) = toInt (sB.totalQuantumElapsed + 1)
    rw [h.total]

theorem terminateMainThread_eq (s : Lib) :
    terminateMainThread s =
      if Slot.freed ∈ s.existedThreadsList then Outcome.undefined
      else Outcome.exited SUCCESS := by
  unfold terminateMainThread freeMemory
  split_ifs <;> rfl

end UThreads

namespace UThreads

theorem sweepSlot_erasePriority (x : Slot) :
    (sweepSlot x).erasePriority = sweepSlot x.erasePriority := by
  cases x with
  | null => rfl
  | freed => rfl
  | thread t =>
    simp only [sweepSlot, Slot.erasePriority, Thread.getState, Thread.erasePriority]
    split_ifs <;> rfl

theorem map_erase_sweep {v w : List Slot}
    (h : v.map Slot.erasePriority = w.map Slot.erasePriority) :
    (v.map sweepSlot).map Slot.erasePriority = (w.map sweepSlot).map Slot.erasePriority := by
  have key : ∀ u : List Slot,
      (u.map sweepSlot).map Slot.erasePriority = (u.map Slot.erasePriority).map sweepSlot := by
    intro u
    rw [List.map_map, List.map_map]
    apply List.map_congr_left
    intro x _
    exact sweepSlot_erasePriority x
  rw [key v, key w, h]

theorem firstNull_map (g : Slot → Slot) (hg : ∀ x, g x = Slot.null ↔ x = Slot.null)
    (v : List Slot) (n : Int) : firstNull (v.map g) n = firstNull v n := by
  induction v generalizing n with
  | nil => rfl
  | cons x rest ih =>
    cases x with
    | null =>
      have : g Slot.null = Slot.null := (hg _).mpr rfl
      simp [firstNull, this]
    | thread t =>
      have hne : g (Slot.thread t) ≠ Slot.null := fun hc => by
        have := (hg _).mp hc
        cases this
      simp only [List.map_cons]
      cases hgx : g (Slot.thread t) with
      | null => exact absurd hgx hne
      | thread t1 => simp only [firstNull]; exact ih (n + 1)
      | freed => simp only [firstNull]; exact ih (n + 1)
    | freed =>
      have hne : g Slot.freed ≠ Slot.null := fun hc => by
        have := (hg _).mp hc
        cases this
      simp only [List.map_cons]
      cases hgx : g Slot.freed with
      | null => exact absurd hgx hne
      | thread t1 => simp only [firstNull]; exact ih (n + 1)
      | freed => simp only [firstNull]; exact ih (n + 1)

theorem sweepSlot_eq_null {x : Slot} : sweepSlot x = Slot.null ↔ x = Slot.null := by
  cases x with
  | null => simp [sweepSlot]
  | freed => simp [sweepSlot]
  | thread t =>
    simp only [sweepSlot, reduceCtorEq, iff_false]
    split_ifs <;> simp

theorem firstNull_sweep_sameSchedule {a b : Lib} (h : SameSchedule a b) :
    firstNull (a.existedThreadsList.map sweepSlot) 0 =
      firstNull (b.existedThreadsList.map sweepSlot) 0 := by
  rw [firstNull_map sweepSlot (fun _ => sweepSlot_eq_null),
    firstNull_map sweepSlot (fun _ => sweepSlot_eq_null),
    ← firstNull_map Slot.erasePriority (fun _ => erasePriority_eq_null) a.existedThreadsList,
    ← firstNull_map Slot.erasePriority (fun _ => erasePriority_eq_null) b.existedThreadsList,
    h.table]

theorem uthread_spawn_sameSchedule (MAX_THREAD_NUM : Int) {s s1 : Lib} (h : WF s) (h1 : WF s1)
    (hss : SameSchedule s s1) (f : Option Nat) {p p1 : Int}
    (hp : isValidPriority s p = true) (hp1 : isValidPriority s1 p1 = true) :
    (uthread_spawn MAX_THREAD_NUM s f p).sameSchedule (uthread_spawn MAX_THREAD_NUM s1 f p1) := by
  by_cases hfr : Slot.freed ∈ s.existedThreadsList
  · rw [uthread_spawn_undefined MAX_THREAD_NUM hfr,
      uthread_spawn_undefined MAX_THREAD_NUM ((freed_sameSchedule hss).mp hfr)]
    trivial
  · have hfr1 : Slot.freed ∉ s1.existedThreadsList := fun hc =>
      hfr ((freed_sameSchedule hss).mpr hc)
    have hsweep : SameSchedule
        { s with existedThreadsList := s.existedThreadsList.map sweepSlot }
        { s1 with existedThreadsList := s1.existedThreadsList.map sweepSlot } :=
      SameSchedule.intro (map_erase_sweep hss.table) hss.ready hss.current hss.quantity
        hss.total hss.handler
    by_cases hc : s.quantityThreads = MAX_THREAD_NUM ∨ f = none
    · have hc0 : s.quantityThreads = MAX_THREAD_NUM ∨ isValidPriority s p = false ∨ f = none := by
        rcases hc with h2 | h2
        · exact Or.inl h2
        · exact Or.inr (Or.inr h2)
      have hc1 : s1.quantityThreads = MAX_THREAD_NUM ∨ isValidPriority s1 p1 = false ∨
          f = none := by
        rcases hc with h2 | h2
        · exact Or.inl (hss.quantity ▸ h2)
        · exact Or.inr (Or.inr h2)
      rw [uthread_spawn_failure MAX_THREAD_NUM hfr hc0,
        uthread_spawn_failure MAX_THREAD_NUM hfr1 hc1]
      exact ⟨rfl, hsweep⟩
    · simp only [not_or] at hc
      have hq1 : s1.quantityThreads ≠ MAX_THREAD_NUM := hss.quantity ▸ hc.1
      rw [uthread_spawn_success MAX_THREAD_NUM hfr hc.1 hp hc.2 h.table_ne_nil,
        uthread_spawn_success MAX_THREAD_NUM hfr1 hq1 hp1 hc.2 h1.table_ne_nil]
      have hfn := firstNull_sweep_sameSchedule hss
      have hlen := hss.length
      refine ⟨hfn, ?_⟩
      refine SameSchedule.intro ?_ ?_ hss.current ?_ hss.total hss.handler
      · show (if _ then _ else _ : List Slot).map Slot.erasePriority =
          (if _ then _ else _ : List Slot).map Slot.erasePriority
        rw [← hfn, ← hlen]
        by_cases he : firstNull (s.existedThreadsList.map sweepSlot) 0 =
            (s.existedThreadsList.length : Int)
        · rw [if_pos he, if_pos he, List.map_append, List.map_append,
            map_erase_sweep hss.table]
          rfl
        · rw [if_neg he, if_neg he]
          exact map_erase_set (map_erase_sweep hss.table) _ rfl
      · show s.readyTidList ++ [_] = s1.readyTidList ++ [_]
        rw [hfn, hss.ready]
      · show s.quantityThreads + 1 = s1.quantityThreads + 1
        rw [hss.quantity]

end UThreads

namespace UThreads

theorem switchThread_sameSchedule {s s1 : Lib} (h : WF s) (h1 : WF s1)
    (hss : SameSchedule s s1) : (switchThread s).sameSchedule (switchThread s1) := by
  obtain ⟨v, sA, s2, hu, hsA, hmid, hnext, _, heq⟩ := switchThread_eq h
  obtain ⟨w, sB, s3, hu1, hsB, hmid1, hnext1, _, heq1⟩ := switchThread_eq h1
  rw [heq, heq1]
  apply changeNextReadyToRunning_sameSchedule hmid hmid1 _ hnext hnext1
  rw [hsA, hsB]
  rw [← hss.current] at hu1
  refine SameSchedule.intro ?_ ?_ hss.current hss.quantity hss.total hss.handler
  · exact updateThread_erase_rel hss.table (fun _ _ he => erasePriority_setState he _) hu hu1
  · show s.readyTidList ++ [_] = s1.readyTidList ++ [_]
    rw [hss.ready, hss.current]

theorem uthread_terminate_sameSchedule {s s1 : Lib} (h : WF s) (h1 : WF s1)
    (hss : SameSchedule s s1) (tid : Int) :
    (uthread_terminate s tid).sameSchedule (uthread_terminate s1 tid) := by
  have hvv := isValidTid_sameSchedule hss tid
  rcases isValidTid_cases s tid with hv | ⟨hv, _⟩ | ⟨hv, t, ht, hst⟩
  · have hv1 : isValidTid s1 tid = none := by rw [← hvv, hv]
    simp only [uthread_terminate, hv, hv1]
    trivial
  · have hv1 : isValidTid s1 tid = some false := by rw [← hvv, hv]
    simp only [uthread_terminate, hv, hv1]
    exact ⟨rfl, hss⟩
  · have hv1 : isValidTid s1 tid = some true := by rw [← hvv, hv]
    obtain ⟨t1, ht1, he⟩ := hss.derefAt ht
    have hst1 : t1.state ≠ TERMINATED := by rw [erasePriority_state he]; exact hst
    by_cases hmain : tid = MAIN_TID
    · subst hmain
      simp only [uthread_terminate, hv, hv1, if_true, terminateMainThread_eq]
      by_cases hfr : Slot.freed ∈ s.existedThreadsList
      · rw [if_pos hfr, if_pos ((freed_sameSchedule hss).mp hfr)]
        trivial
      · rw [if_neg hfr, if_neg (fun hc => hfr ((freed_sameSchedule hss).mpr hc))]
        exact rfl
    · by_cases hrun : tid = s.currentRunningTid
      · have hrun1 : tid = s1.currentRunningTid := by rw [← hss.current]; exact hrun
        obtain ⟨v, sA, s2, hu, hsA, hmid, hnext, _, heq⟩ :=
          uthread_terminate_self_eq h (hrun ▸ hmain)
        obtain ⟨w, sB, s3, hu1, hsB, hmid1, hnext1, _, heq1⟩ :=
          uthread_terminate_self_eq h1 (hrun1 ▸ hmain)
        rw [← hrun] at heq
        rw [← hrun1] at heq1
        rw [heq, heq1]
        apply changeNextReadyToRunning_sameSchedule hmid hmid1 _ hnext hnext1
        rw [hsA, hsB]
        rw [← hss.current] at hu1
        refine SameSchedule.intro ?_ hss.ready hss.current ?_ hss.total hss.handler
        · exact updateThread_erase_rel hss.table (fun _ _ he => erasePriority_setState he _)
            hu hu1
        · show s.quantityThreads - 1 = s1.quantityThreads - 1
          rw [hss.quantity]
      · have hrun1 : tid ≠ s1.currentRunningTid := by rw [← hss.current]; exact hrun
        rw [uthread_terminate_other ht hst hmain hrun,
          uthread_terminate_other ht1 hst1 hmain hrun1]
        refine ⟨rfl, SameSchedule.intro ?_ ?_ hss.current ?_ hss.total hss.handler⟩
        · exact map_erase_set hss.table _ rfl
        · show (if t.state = READY then _ else _) = (if t1.state = READY then _ else _)
          rw [erasePriority_state he, hss.ready]
        · show s.quantityThreads - 1 = s1.quantityThreads - 1
          rw [hss.quantity]

theorem uthread_block_sameSchedule {s s1 : Lib} (h : WF s) (h1 : WF s1)
    (hss : SameSchedule s s1) (tid : Int) :
    (uthread_block s tid).sameSchedule (uthread_block s1 tid) := by
  have hvv := isValidTid_sameSchedule hss tid
  rcases isValidTid_cases s tid with hv | ⟨hv, _⟩ | ⟨hv, t, ht, hst⟩
  · have hv1 : isValidTid s1 tid = none := by rw [← hvv, hv]
    simp only [uthread_block, hv, hv1]
    trivial
  · have hv1 : isValidTid s1 tid = some false := by rw [← hvv, hv]
    simp only [uthread_block, hv, hv1]
    exact ⟨rfl, hss⟩
  · have hv1 : isValidTid s1 tid = some true := by rw [← hvv, hv]
    obtain ⟨t1, ht1, he⟩ := hss.derefAt ht
    have hst1 : t1.state ≠ TERMINATED := by rw [erasePriority_state he]; exact hst
    by_cases hmain : tid = MAIN_TID
    · subst hmain
      simp only [uthread_block, hv, hv1]
      exact ⟨rfl, hss⟩
    · by_cases hrun : tid = s.currentRunningTid
      · have hrun1 : tid = s1.currentRunningTid := by rw [← hss.current]; exact hrun
        obtain ⟨v, sA, s2, hu, hsA, hmid, hnext, _, heq⟩ :=
          uthread_block_self_eq h (hrun ▸ hmain)
        obtain ⟨w, sB, s3, hu1, hsB, hmid1, hnext1, _, heq1⟩ :=
          uthread_block_self_eq h1 (hrun1 ▸ hmain)
        rw [← hrun] at heq
        rw [← hrun1] at heq1
        rw [heq, heq1]
        apply changeNextReadyToRunning_sameSchedule hmid hmid1 _ hnext hnext1
        rw [hsA, hsB]
        rw [← hss.current] at hu1
        refine SameSchedule.intro ?_ hss.ready hss.current hss.quantity hss.total hss.handler
        exact updateThread_erase_rel hss.table (fun _ _ he => erasePriority_setState he _)
          hu hu1
      · have hrun1 : tid ≠ s1.currentRunningTid := by rw [← hss.current]; exact hrun
        rw [uthread_block_other ht hst hmain hrun, uthread_block_other ht1 hst1 hmain hrun1]
        refine ⟨rfl, SameSchedule.intro ?_ ?_ hss.current hss.quantity hss.total hss.handler⟩
        · apply map_erase_set hss.table
          show Slot.thread _ = Slot.thread _
          rw [erasePriority_setState he]
        · show s.readyTidList.filter _ = s1.readyTidList.filter _
          rw [hss.ready]

theorem uthread_resume_sameSchedule {s s1 : Lib} (hss : SameSchedule s s1) (tid : Int) :
    (uthread_resume s tid).sameSchedule (uthread_resume s1 tid) := by
  have hvv := isValidTid_sameSchedule hss tid
  rcases isValidTid_cases s tid with hv | ⟨hv, _⟩ | ⟨hv, t, ht, hst⟩
  · have hv1 : isValidTid s1 tid = none := by rw [← hvv, hv]
    simp only [uthread_resume, hv, hv1]
    trivial
  · have hv1 : isValidTid s1 tid = some false := by rw [← hvv, hv]
    simp only [uthread_resume, hv, hv1]
    exact ⟨rfl, hss⟩
  · obtain ⟨t1, ht1, he⟩ := hss.derefAt ht
    have hst1 : t1.state ≠ TERMINATED := by rw [erasePriority_state he]; exact hst
    rw [uthread_resume_live ht hst, uthread_resume_live ht1 hst1, erasePriority_state he]
    by_cases hb : t.state = BLOCKED
    · rw [if_pos hb, if_pos hb]
      refine ⟨rfl, SameSchedule.intro ?_ ?_ hss.current hss.quantity hss.total hss.handler⟩
      · apply map_erase_set hss.table
        show Slot.thread _ = Slot.thread _
        rw [erasePriority_setState he]
      · show s.readyTidList ++ [tid] = s1.readyTidList ++ [tid]
        rw [hss.ready]
    · rw [if_neg hb, if_neg hb]
      exact ⟨rfl, hss⟩

theorem uthread_change_priority_sameSchedule {s s1 : Lib} (hss : SameSchedule s s1)
    (tid : Int) {p p1 : Int}
    (hp : isValidPriority s p = true) (hp1 : isValidPriority s1 p1 = true) :
    (uthread_change_priority s tid p).sameSchedule (uthread_change_priority s1 tid p1) := by
  have hvv := isValidTid_sameSchedule hss tid
  rcases isValidTid_cases s tid with hv | ⟨hv, _⟩ | ⟨hv, t, ht, hst⟩
  · have hv1 : isValidTid s1 tid = none := by rw [← hvv, hv]
    simp only [uthread_change_priority, hv, hv1]
    trivial
  · have hv1 : isValidTid s1 tid = some false := by rw [← hvv, hv]
    rw [uthread_change_priority_of_invalid _ hv, uthread_change_priority_of_invalid _ hv1]
    exact ⟨rfl, hss⟩
  · obtain ⟨t1, ht1, he⟩ := hss.derefAt ht
    have hst1 : t1.state ≠ TERMINATED := by rw [erasePriority_state he]; exact hst
    rw [uthread_change_priority_live ht hst, uthread_change_priority_live ht1 hst1,
      if_pos hp, if_pos hp1]
    refine ⟨rfl, SameSchedule.intro ?_ hss.ready hss.current hss.quantity hss.total hss.handler⟩
    apply map_erase_set hss.table
    show Slot.thread _ = Slot.thread _
    rw [erasePriority_setPriority, erasePriority_setPriority, he]

/-- One event, taken from two states with the same schedule, with priority
arguments that may differ and are valid in their state: the two outcomes are of
the same kind, with the same status and the same schedule. -/
theorem step_sameSchedule (MAX_THREAD_NUM : Int) {s s1 : Lib} (h : WF s) (h1 : WF s1)
    (hss : SameSchedule s s1) {e e1 : Event} (hc : e.sameCall e1 = true)
    (hp : e.priorityValid s = true) (hp1 : e1.priorityValid s1 = true) :
    (step MAX_THREAD_NUM s e).sameSchedule (step MAX_THREAD_NUM s1 e1) := by
  cases e <;> cases e1 <;> simp only [Event.sameCall, decide_eq_true_eq] at hc <;>
    cases hc
  · exact switchThread_sameSchedule h h1 hss
  · exact uthread_spawn_sameSchedule MAX_THREAD_NUM h h1 hss _ hp hp1
  · exact uthread_change_priority_sameSchedule hss _ hp hp1
  · exact uthread_terminate_sameSchedule h h1 hss _
  · exact uthread_block_sameSchedule h h1 hss _
  · exact uthread_resume_sameSchedule hss _

end UThreads

namespace UThreads

theorem isValidPriority_congr {s s1 : Lib}
    (h : s1.quantumPriorityList = s.quantumPriorityList) (p : Int) :
    isValidPriority s1 p = isValidPriority s p := by
  unfold isValidPriority
  rw [h]

theorem Event.priorityValid_congr {s s1 : Lib}
    (h : s1.quantumPriorityList = s.quantumPriorityList) (e : Event) :
    e.priorityValid s1 = e.priorityValid s := by
  cases e <;> simp only [Event.priorityValid, isValidPriority_congr h]

theorem Outcome.sameSchedule_state? {o o1 : Outcome} (h : o.sameSchedule o1) :
    (o.state? = none ∧ o1.state? = none) ∨
      ∃ a b, o.state? = some a ∧ o1.state? = some b ∧ SameSchedule a b := by
  cases o <;> cases o1 <;> simp only [Outcome.sameSchedule] at h
  · exact Or.inr ⟨_, _, rfl, rfl, h.2⟩
  · exact Or.inr ⟨_, _, rfl, rfl, h⟩
  · exact Or.inl ⟨rfl, rfl⟩
  · exact Or.inl ⟨rfl, rfl⟩

theorem outcomes_sameSchedule (MAX_THREAD_NUM : Int) {es es1 : List Event}
    (hc : List.Forall₂ (fun e e1 => Event.sameCall e e1 = true) es es1) :
    ∀ {s s1 : Lib}, WF s → WF s1 → SameSchedule s s1 →
      (∀ e ∈ es, Event.priorityValid s e = true) →
      (∀ e ∈ es1, Event.priorityValid s1 e = true) →
      List.Forall₂ Outcome.sameSchedule
        (outcomes MAX_THREAD_NUM s es) (outcomes MAX_THREAD_NUM s1 es1) := by
  induction hc with
  | nil =>
    intros
    exact List.Forall₂.nil
  | cons hab _ ih =>
    intro s s1 h h1 hss hp hp1
    have hstep := step_sameSchedule MAX_THREAD_NUM h h1 hss hab
      (hp _ (List.mem_cons_self _ _)) (hp1 _ (List.mem_cons_self _ _))
    simp only [outcomes]
    refine List.Forall₂.cons hstep ?_
    rcases Outcome.sameSchedule_state? hstep with ⟨h0, h01⟩ | ⟨a, b, ha, hb, hab2⟩
    · rw [h0, h01]
      exact List.Forall₂.nil
    · rw [ha, hb]
      have hf := (step_frame MAX_THREAD_NUM _ h ha).1
      have hf1 := (step_frame MAX_THREAD_NUM _ h1 hb).1
      refine ih (step_wf MAX_THREAD_NUM _ h ha) (step_wf MAX_THREAD_NUM _ h1 hb) hab2 ?_ ?_
      · intro e he
        rw [Event.priorityValid_congr hf]
        exact hp e (List.mem_cons_of_mem _ he)
      · intro e he
        rw [Event.priorityValid_congr hf1]
        exact hp1 e (List.mem_cons_of_mem _ he)

theorem uthread_get_quantums_sameSchedule {a b : Lib} (h : SameSchedule a b) (tid : Int) :
    (uthread_get_quantums a tid).sameSchedule (uthread_get_quantums b tid) := by
  have hvv := isValidTid_sameSchedule h tid
  rcases isValidTid_cases a tid with hv | ⟨hv, _⟩ | ⟨hv, t, ht, hst⟩
  · have hv1 : isValidTid b tid = none := by rw [← hvv, hv]
    simp only [uthread_get_quantums, hv, hv1]
    trivial
  · have hv1 : isValidTid b tid = some false := by rw [← hvv, hv]
    rw [uthread_get_quantums_of_invalid hv, uthread_get_quantums_of_invalid hv1]
    exact ⟨rfl, h⟩
  · have hv1 : isValidTid b tid = some true := by rw [← hvv, hv]
    obtain ⟨t1, ht1, he⟩ := h.derefAt ht
    have hq : t1.quantum_elapsed = t.quantum_elapsed := by
      have := congrArg Thread.quantum_elapsed he
      exact this
    simp only [uthread_get_quantums, hv, hv1, ht, ht1, if_true, Thread.getQuantumElapsed,
      ← h.current, hq]
    split_ifs <;> exact ⟨rfl, h⟩

theorem init_reachable (MAX_THREAD_NUM : Int) {q : Nat → Int} {size : Int} {s : Lib}
    (h : uthread_init Lib.initial q size = Outcome.ret s SUCCESS) :
    Reachable MAX_THREAD_NUM s :=
  ⟨Hist.start s, ⟨q, size, s, [], h, rfl⟩, rfl⟩

/-- C12: take two reachable states with the same schedule, that is, equal up
to the priorities of the threads, the quantum table and the timer, and two
sequences of events that agree up to the priority arguments of `uthread_spawn`
and `uthread_change_priority`, every priority being valid for the quantum
table of its run. Then the two runs give, event by event, outcomes of the same
kind with the same return value and again the same schedule. States with the
same schedule have the same running identity, the same ready queue, the same
total quantum count and the same answer of `uthread_get_quantums` for every
identity. -/
theorem schedule_independent_of_priorities (MAX_THREAD_NUM : Int) (s s1 : Lib)
    (hr : Reachable MAX_THREAD_NUM s) (hr1 : Reachable MAX_THREAD_NUM s1)
    (hss : SameSchedule s s1) (es es1 : List Event)
    (hc : List.Forall₂ (fun e e1 => Event.sameCall e e1 = true) es es1)
    (hp : ∀ e ∈ es, Event.priorityValid s e = true)
    (hp1 : ∀ e ∈ es1, Event.priorityValid s1 e = true) :
    List.Forall₂ Outcome.sameSchedule
        (outcomes MAX_THREAD_NUM s es) (outcomes MAX_THREAD_NUM s1 es1) ∧
      ∀ a b, SameSchedule a b →
        uthread_get_tid a = uthread_get_tid b ∧
        a.readyTidList = b.readyTidList ∧
        uthread_get_total_quantums a = uthread_get_total_quantums b ∧
        ∀ tid, (uthread_get_quantums a tid).sameSchedule (uthread_get_quantums b tid) :=
  ⟨outcomes_sameSchedule MAX_THREAD_NUM hc hr.wf hr1.wf hss hp hp1,
    fun _ _ h => ⟨h.current, h.ready, congrArg (fun x => toInt (x + 1)) h.total,
      uthread_get_quantums_sameSchedule h⟩⟩

theorem schedule_independent_of_priorities_witness :
    SameSchedule (exampleRun []) exampleOtherInit ∧
      (exampleRun []).quantumPriorityList = [100000, 200000] ∧
      exampleOtherInit.quantumPriorityList = [300000, 50000, 7] ∧
      (outcomes 100 (exampleRun [])
        [Event.spawn (some 1) 0, Event.spawn (some 2) 1, Event.expiry,
          Event.change_priority 1 1, Event.block 1, Event.expiry, Event.expiry]).length = 7 ∧
      List.Forall₂ Outcome.sameSchedule
        (outcomes 100 (exampleRun [])
          [Event.spawn (some 1) 0, Event.spawn (some 2) 1, Event.expiry,
            Event.change_priority 1 1, Event.block 1, Event.expiry, Event.expiry])
        (outcomes 100 exampleOtherInit
          [Event.spawn (some 1) 2, Event.spawn (some 2) 0, Event.expiry,
            Event.change_priority 1 0, Event.block 1, Event.expiry, Event.expiry]) :=
  ⟨by unfold SameSchedule; decide, by decide, by decide, by decide,
    (schedule_independent_of_priorities 100 (exampleRun []) exampleOtherInit
      (exampleRun_reachable [] (by decide))
      (init_reachable 100 (uthread_init_valid exampleOtherQuanta 3 (by decide)))
      (by unfold SameSchedule; decide) _ _
      (by simp [Event.sameCall])
      (by decide) (by decide)).1⟩

end UThreads

namespace UThreads

/-! ## Calls on an identity whose thread has been deleted by the sweep -/

/-- C9, evaluated: `exampleSwept` is reachable (init, spawn of thread 1,
quantum expiry, thread 1 terminates itself, spawn of thread 2). Identity 1 is
not live there: its thread has terminated and the sweep of the last spawn has
deleted it. The entry of the table is still the pointer to the deleted thread
and not null, so `isValidTid` reads the state of the deleted thread, and none
of `uthread_change_priority`, `uthread_terminate`, `uthread_block`,
`uthread_resume` and `uthread_get_quantums` has a defined behaviour for
identity 1: none returns -1 with the state unchanged. -/
theorem calls_on_swept_identity :
    Reachable 100 exampleSwept ∧
      exampleSwept.existedThreadsList =
        [Slot.thread { tid := 0, priority := 0, state := RUNNING, quantum_elapsed := 1 },
          Slot.freed,
          Slot.thread { tid := 2, priority := 0, state := READY, quantum_elapsed := 0 }] ∧
      isLive exampleSwept 1 = false ∧
      isValidTid exampleSwept 1 = none ∧
      uthread_change_priority exampleSwept 1 0 = Outcome.undefined ∧
      uthread_terminate exampleSwept 1 = Outcome.undefined ∧
      uthread_block exampleSwept 1 = Outcome.undefined ∧
      uthread_resume exampleSwept 1 = Outcome.undefined ∧
      uthread_get_quantums exampleSwept 1 = Outcome.undefined ∧
      uthread_change_priority exampleSwept 1 0 ≠ Outcome.ret exampleSwept FAILURE ∧
      uthread_terminate exampleSwept 1 ≠ Outcome.ret exampleSwept FAILURE ∧
      uthread_block exampleSwept 1 ≠ Outcome.ret exampleSwept FAILURE ∧
      uthread_resume exampleSwept 1 ≠ Outcome.ret exampleSwept FAILURE ∧
      uthread_get_quantums exampleSwept 1 ≠ Outcome.ret exampleSwept FAILURE :=
  ⟨exampleRun_reachable _ (by decide), by decide, by decide, by decide, by decide, by decide,
    by decide, by decide, by decide, by decide, by decide, by decide, by decide, by decide⟩

end UThreads

namespace UThreads

/-! ## The counters at the end of the range of `int` -/

/-- With main alone in the table, every quantum expiry selects main again: the
run of `n` expiries after `uthread_init` is defined and ends with main
running, an empty ready queue, `n` scheduling events and `n` completed
quantums of main. -/
theorem expiries_of_main_alone (MAX_THREAD_NUM : Int) {quantum_usecs : Nat → Int} {size : Int}
    {s0 : Lib} (hi : uthread_init Lib.initial quantum_usecs size = Outcome.ret s0 SUCCESS)
    (n : Nat) :
    ∃ h, (Hist.start s0).run MAX_THREAD_NUM (List.replicate n Event.expiry) = some h ∧
      h.lib.currentRunningTid = MAIN_TID ∧ h.lib.readyTidList = [] ∧
      h.events = n ∧ h.completed MAIN_TID = n := by
  have h0 : (Hist.start s0).lib.currentRunningTid = MAIN_TID ∧
      (Hist.start s0).lib.readyTidList = [] := by
    cases hv : isValidQuantum quantum_usecs size with
    | false =>
      rw [uthread_init_invalid _ _ _ hv] at hi
      cases hi
    | true =>
      rw [uthread_init_valid _ _ hv] at hi
      cases hi
      exact ⟨rfl, rfl⟩
  have key : ∀ (n : Nat) (g : Hist), g.Counted → g.lib.currentRunningTid = MAIN_TID →
      g.lib.readyTidList = [] →
      ∃ h, g.run MAX_THREAD_NUM (List.replicate n Event.expiry) = some h ∧
        h.lib.currentRunningTid = MAIN_TID ∧ h.lib.readyTidList = [] ∧
        h.events = g.events + n ∧ h.completed MAIN_TID = g.completed MAIN_TID + n := by
    intro n
    induction n with
    | zero =>
      intro g _ hcur hrd
      exact ⟨g, rfl, hcur, hrd, by simp, by simp⟩
    | succ n ih =>
      intro g hg hcur hrd
      obtain ⟨s1, heq, _, hq, _, _⟩ := switchThread_queue hg.wf
      rw [hrd, hcur] at hq
      simp only [List.nil_append, List.cons.injEq] at hq
      have hstep : g.step MAX_THREAD_NUM Event.expiry = some
          { lib := s1
            started := Function.update g.started s1.currentRunningTid
              (g.started s1.currentRunningTid + 1)
            completed := Function.update g.completed g.lib.currentRunningTid
              (g.completed g.lib.currentRunningTid + 1)
            events := g.events + 1 } := by
        unfold Hist.step
        simp only [UThreads.step, heq, isSchedulingEvent, if_true]
      obtain ⟨h, hrun, h1, h2, h3, h4⟩ := ih _ (Hist.step_counted hg hstep) hq.1 hq.2
      refine ⟨h, ?_, h1, h2, ?_, ?_⟩
      · simp only [List.replicate_succ, Hist.run, hstep]
        exact hrun
      · rw [h3]
        push_cast
        ring
      · rw [h4]
        show Function.update g.completed g.lib.currentRunningTid
          (g.completed g.lib.currentRunningTid + 1) MAIN_TID + (n : Int) = _
        rw [hcur, Function.update_same]
        push_cast
        ring
  obtain ⟨h, hrun, h1, h2, h3, h4⟩ := key n (Hist.start s0) (Hist.start_counted hi) h0.1 h0.2
  refine ⟨h, hrun, h1, h2, ?_, ?_⟩
  · rw [h3]
    simp [Hist.start]
  · rw [h4]
    simp [Hist.start]

/-- C5, as stated, fails at the end of the range of `int`. After
`uthread_init` and 2147483647 quantum expiries with main alone,
`totalQuantumElapsed` is `INT_MAX`, `uthread_get_total_quantums` returns
-2147483648, and 1 plus the number of scheduling events is 2147483648. -/
theorem total_quantums_wraps :
    ∃ s0 h, uthread_init Lib.initial exampleQuanta 2 = Outcome.ret s0 SUCCESS ∧
      (Hist.start s0).run 100 (List.replicate 2147483647 Event.expiry) = some h ∧
      Hist.Reachable 100 h ∧
      h.events = 2147483647 ∧
      h.lib.totalQuantumElapsed = 2147483647 ∧
      uthread_get_total_quantums h.lib = -2147483648 ∧
      uthread_get_total_quantums h.lib ≠ 1 + h.events := by
  have hi := uthread_init_valid exampleQuanta 2 (by decide)
  obtain ⟨h, hrun, _, _, he, _⟩ := expiries_of_main_alone 100 hi 2147483647
  have hr : Hist.Reachable 100 h := ⟨exampleQuanta, 2, _, _, hi, hrun⟩
  have he1 : h.events = 2147483647 := by rw [he]; rfl
  have ht : h.lib.totalQuantumElapsed = 2147483647 := by
    rw [hr.counted.total, he1]
    decide
  have hg : uthread_get_total_quantums h.lib = -2147483648 := by
    unfold uthread_get_total_quantums
    rw [ht]
    decide
  refine ⟨_, h, hi, hrun, hr, he1, ht, hg, ?_⟩
  rw [hg, he1]
  decide

/-- C4, as stated, fails at the end of the range of `int`. After
`uthread_init` and 2147483647 quantum expiries with main alone, main is live
and running and has been made RUNNING 2147483648 times, its stored counter is
`INT_MAX`, and `uthread_get_quantums(0)` returns -2147483648. -/
theorem quantums_of_main_wraps :
    ∃ s0 h, uthread_init Lib.initial exampleQuanta 2 = Outcome.ret s0 SUCCESS ∧
      (Hist.start s0).run 100 (List.replicate 2147483647 Event.expiry) = some h ∧
      Hist.Reachable 100 h ∧
      isLive h.lib 0 = true ∧
      h.lib.currentRunningTid = 0 ∧
      h.started 0 = 2147483648 ∧
      (∃ t, derefAt h.lib.existedThreadsList 0 = some t ∧ t.quantum_elapsed = 2147483647) ∧
      uthread_get_quantums h.lib 0 = Outcome.ret h.lib (-2147483648) ∧
      uthread_get_quantums h.lib 0 ≠ Outcome.ret h.lib (h.started 0) := by
  have hi := uthread_init_valid exampleQuanta 2 (by decide)
  obtain ⟨h, hrun, hcur, _, _, hcomp⟩ := expiries_of_main_alone 100 hi 2147483647
  have hr : Hist.Reachable 100 h := ⟨exampleQuanta, 2, _, _, hi, hrun⟩
  have hc := hr.counted
  obtain ⟨t, ht, hst⟩ := hc.wf.running
  rw [hcur] at ht
  have hl : t.state ≠ TERMINATED := by rw [hst]; decide
  have hlive : isLive h.lib 0 = true := isLive_iff.mpr ⟨t, ht, hl⟩
  have hcomp1 : h.completed 0 = 2147483647 := by rw [hcomp]; rfl
  have hstart : h.started 0 = 2147483648 := by
    rw [hc.started 0 t ht hl, hcomp1, if_pos hcur.symm]
    rfl
  have hq : t.quantum_elapsed = 2147483647 := by
    rw [hc.completed 0 t ht hl, hcomp1]
    decide
  have hg : uthread_get_quantums h.lib 0 = Outcome.ret h.lib (-2147483648) := by
    simp only [uthread_get_quantums, isValidTid_of_isLive hlive, if_true, ht,
      Thread.getQuantumElapsed, hcur, hq]
    rw [show toInt (2147483647 + 1) = -2147483648 from by decide]
  refine ⟨_, h, hi, hrun, hr, hlive, hcur, hstart, ⟨t, ht, hq⟩, hg, ?_⟩
  rw [hg, hstart]
  intro hc1
  cases hc1

end UThreads
